import Mathlib

/-!
# oomph-lib: element assembly and quadrature rules

A shallow embedding of

* `src/generic/integral.h` (`Gauss_Rescaled`, `GaussLobattoLegendre`, `Gauss`),
* `src/generalised_fourier_decomposed_helmholtz/generalised_fourier_decomposed_helmholtz_elements.cc`
  (`fill_in_generic_residual_contribution_generalised_fourier_decomposed_helmholtz`,
  `Legendre_functions_helper`),
* `src/steady_axisym_advection_diffusion/steady_axisym_advection_diffusion_elements.h`
  (bulk element helpers and the Robin flux element),
* `src/generic/hp_refineable_elements.h` (`PRefineableQElement`),
* `src/generic/general_purpose_preconditioners.h` (`CompressedMatrixCoefficient`),
* `demo_drivers/navier_stokes/unstructured_fluid/unstructured_two_d_fluid.cc`
  (the inflow boundary condition).

`double` is modelled by an arbitrary field `α` (exact arithmetic), so every
definition is executable over `ℚ` and every theorem holds over `ℝ`.
`Vector<double>` is a function `Nat → α`, `DenseMatrix<double>` a function
`Nat → Nat → α`; a `for(unsigned i=0;i<n;i++)` loop is `forLoop n body`.
-/

set_option linter.unusedSectionVars false

namespace oomph

/-! ## Loops and containers -/

/-- The loop `for(unsigned i=0;i<n;i++) s = body i s`. -/
def forLoop {σ : Type} : Nat → (Nat → σ → σ) → σ → σ
  | 0, _, s => s
  | n + 1, body, s => body n (forLoop n body s)

/-- The statement `v[i] += d` on a `Vector<double>`. -/
def addAt {α : Type} [Add α] (v : Nat → α) (i : Nat) (d : α) : Nat → α :=
  Function.update v i (v i + d)

/-- The statement `m(i,j) += d` on a `DenseMatrix<double>`. -/
def addAt2 {α : Type} [Add α] (m : Nat → Nat → α) (i j : Nat) (d : α) : Nat → Nat → α :=
  Function.update m i (Function.update (m i) j (m i j + d))

/-- A `std::complex<double>` in exact arithmetic. -/
structure Cplx (α : Type) where
  real : α
  imag : α

namespace Cplx

variable {α : Type}

/-- Complex addition, `operator+`. -/
def add [Add α] (a b : Cplx α) : Cplx α := ⟨a.real + b.real, a.imag + b.imag⟩

/-- Complex multiplication, `operator*`. -/
def mul [Add α] [Sub α] [Mul α] (a b : Cplx α) : Cplx α :=
  ⟨a.real * b.real - a.imag * b.imag, a.real * b.imag + a.imag * b.real⟩

/-- A complex number times a `double`, `operator*(complex, double)`. -/
def smul [Mul α] (a : Cplx α) (x : α) : Cplx α := ⟨a.real * x, a.imag * x⟩

/-- The quotient `1.0 / z` of a `double` by a complex number. -/
def recip [Field α] (z : Cplx α) : Cplx α :=
  ⟨z.real / (z.real * z.real + z.imag * z.imag), -z.imag / (z.real * z.real + z.imag * z.imag)⟩

end Cplx

/-! ## `integral.h`: quadrature rules -/

/-- The interface `Integral`: number of points, knots and weights.  The
header only declares the tables `Knot` and `Weight` of `Gauss<DIM,NPTS_1D>`
(they are defined in the `.cc` file), so a base rule is a parameter. -/
structure Integral (α : Type) where
  nweight : Nat
  knot : Nat → Nat → α
  weight : Nat → α

/-- The quadrature sum documented on `class Integral`:
`∑ f(x_j = knot(i,j)) weight(i)` over the `nweight()` points. -/
def Integral.quadrature {α : Type} [Semiring α] (q : Integral α) (f : (Nat → α) → α) : α :=
  ∑ i in Finset.range q.nweight, q.weight i * f (q.knot i)

/-- The class `Gauss_Rescaled<DIM,NPTS_1D>`: a base rule `Gauss<DIM,NPTS_1D>`
together with the members `Lower`, `Upper`, `Range`. -/
structure Gauss_Rescaled (α : Type) where
  DIM : Nat
  base : Integral α
  Lower : α
  Upper : α
  Range : α

namespace Gauss_Rescaled

variable {α : Type} [Field α]

/-- The constructor `Gauss_Rescaled(double lower, double upper)`. -/
def create (DIM : Nat) (base : Integral α) (lower upper : α) : Gauss_Rescaled α :=
  { DIM := DIM, base := base, Lower := lower, Upper := upper, Range := upper - lower }

/-- The member `nweight()`, inherited from the base rule. -/
def nweight (g : Gauss_Rescaled α) : Nat := g.base.nweight

/-- The member `knot(i,j)`: `0.5*(Gauss::knot(i,j)*Range + Lower + Upper)`. -/
def knot (g : Gauss_Rescaled α) (i j : Nat) : α :=
  (1 / 2) * (g.base.knot i j * g.Range + g.Lower + g.Upper)

/-- The member `weight(i)`: `Gauss::weight(i)*pow(0.5*Range,DIM)`. -/
def weight (g : Gauss_Rescaled α) (i : Nat) : α :=
  g.base.weight i * ((1 / 2) * g.Range) ^ g.DIM

/-- The rescaled rule seen through the `Integral` interface. -/
def toIntegral (g : Gauss_Rescaled α) : Integral α :=
  { nweight := g.nweight, knot := g.knot, weight := g.weight }

end Gauss_Rescaled

/-- The affine change of variables `t ↦ lower + (upper - lower)*(t + 1)/2`
from `[-1,1]` onto `[lower, upper]`. -/
def affineMap {α : Type} [Field α] (lower upper t : α) : α :=
  lower + (upper - lower) * (t + 1) / 2

/-- A concrete base rule over `ℚ` on `[-1,1]`: three points with knots
`-1, 0, 1` and weights `1/3, 4/3, 1/3`, which sum to `2`. -/
def threePointRule : Integral ℚ :=
  { nweight := 3
    knot := fun i _ => if i = 0 then -1 else if i = 1 then 0 else 1
    weight := fun i => if i = 1 then 4 / 3 else 1 / 3 }

/-! ## Generalised Fourier-decomposed Helmholtz: bulk assembly -/

/-- The pair of arguments `residuals`, `jacobian` an assembler accumulates into. -/
structure Assembly (α : Type) where
  residuals : Nat → α
  jacobian : Nat → Nat → α

/-- What `fill_in_generic_residual_contribution_generalised_fourier_decomposed_helmholtz`
reads from the element.  The virtual functions declared in the element's
header are parameters: shape/test functions at the knots, the source,
absorption and sound-speed callables, the PML coefficients and the complex
radius. -/
structure HelmholtzElement (α : Type) where
  /-- Value of `nnode()` -/
  nnode : Nat
  /-- Value of `integral_pt()->nweight()` -/
  nweight : Nat
  /-- Value of `integral_pt()->weight(ipt)` -/
  weight : Nat → α
  /-- Value of `psi(l)` returned at knot `ipt` -/
  psi : Nat → Nat → α
  /-- Value of `dpsidx(l,k)` returned at knot `ipt` -/
  dpsidx : Nat → Nat → Nat → α
  /-- Value of `test(l)` returned at knot `ipt` -/
  test : Nat → Nat → α
  /-- Value of `dtestdx(l,k)` returned at knot `ipt` -/
  dtestdx : Nat → Nat → Nat → α
  /-- Jacobian of the mapping returned at knot `ipt` -/
  J : Nat → α
  /-- Value of `raw_nodal_position(l,j)` -/
  raw_nodal_position : Nat → Nat → α
  /-- Value of `raw_nodal_value(l,i)` -/
  raw_nodal_value : Nat → Nat → α
  /-- Value of `u_index_generalised_fourier_decomposed_helmholtz().real()` -/
  u_index_real : Nat
  /-- Value of `u_index_generalised_fourier_decomposed_helmholtz().imag()` -/
  u_index_imag : Nat
  /-- Value of `nodal_local_eqn(l,i)`, negative for a pinned value -/
  nodal_local_eqn : Nat → Nat → Int
  /-- Value of `get_source_generalised_fourier_decomposed_helmholtz(ipt,x,source)` -/
  get_source : Nat → (Nat → α) → Cplx α
  /-- Value of `get_alpha_generalised_fourier_decomposed_helmholtz(ipt,x,alpha)` -/
  get_alpha : Nat → (Nat → α) → α
  /-- Value of `get_c_generalised_fourier_decomposed_helmholtz(ipt,x,c)` -/
  get_c : Nat → (Nat → α) → α
  /-- Value of `omega()` -/
  omega : α
  /-- Value of `generalised_fourier_wavenumber()` -/
  generalised_fourier_wavenumber : Int
  /-- Value of `pml_stiffness_weight[k]` set by `compute_pml_coefficients(ipt,x,..)` -/
  pml_stiffness_weight : Nat → (Nat → α) → Nat → Cplx α
  /-- Value of `pml_mass_weight` set by `compute_pml_coefficients(ipt,x,..)` -/
  pml_mass_weight : Nat → (Nat → α) → Cplx α
  /-- Value of `complex_r` set by `compute_complex_r(ipt,x,complex_r)` -/
  compute_complex_r : Nat → (Nat → α) → Cplx α

/-- The locals `interpolated_u`, `interpolated_x`, `interpolated_dudx`. -/
structure HelmholtzInterp (α : Type) where
  interpolated_u : Cplx α
  interpolated_x : Nat → α
  interpolated_dudx : Nat → Cplx α

/-- Everything computed at an integration point before the loop over the test
functions. -/
structure HelmholtzPoint (α : Type) where
  W : α
  r : α
  interpolated_u : Cplx α
  interpolated_dudx : Nat → Cplx α
  source : Cplx α
  expr1 : α
  expr2 : α
  pml_stiffness_weight : Nat → Cplx α
  pml_mass_weight : Cplx α

namespace HelmholtzElement

variable {α : Type} [Field α]

/-- The nodal value `u_value` of the complex unknown at node `l`. -/
def u_value (E : HelmholtzElement α) (l : Nat) : Cplx α :=
  ⟨E.raw_nodal_value l E.u_index_real, E.raw_nodal_value l E.u_index_imag⟩

/-- The loop over the nodes that interpolates `u`, `x` and `du/dx`. -/
def interpolate (E : HelmholtzElement α) (ipt : Nat) : HelmholtzInterp α :=
  forLoop E.nnode
    (fun l st =>
      let x := forLoop 2
        (fun j x => addAt x j (E.raw_nodal_position l j * E.psi ipt l)) st.interpolated_x
      let u := Cplx.add st.interpolated_u (Cplx.smul (E.u_value l) (E.psi ipt l))
      let dudx := forLoop 2
        (fun j d => Function.update d j (Cplx.add (d j) (Cplx.smul (E.u_value l) (E.dpsidx ipt l j))))
        st.interpolated_dudx
      { interpolated_u := u, interpolated_x := x, interpolated_dudx := dudx })
    { interpolated_u := ⟨0, 0⟩, interpolated_x := fun _ => 0, interpolated_dudx := fun _ => ⟨0, 0⟩ }

/-- The body of the loop over the integration points up to the loop over the
test functions.  Division is the division of the field (`x / 0 = 0`), so
`expr1` and `expr2` are the values of the source only for `c ≠ 0` and
`complex_r ≠ 0`. -/
def point (E : HelmholtzElement α) (ipt : Nat) : HelmholtzPoint α :=
  let w := E.weight ipt
  let J := E.J ipt
  let W := w * J
  let st := E.interpolate ipt
  let interpolated_x := st.interpolated_x
  let source := E.get_source ipt interpolated_x
  let r := interpolated_x 0
  let n : α := (E.generalised_fourier_wavenumber : α)
  let n_squared := n * n
  let alpha := E.get_alpha ipt interpolated_x
  let c := E.get_c ipt interpolated_x
  let c_squared := c * c
  let alpha_squared := alpha * alpha
  let omega_squared := E.omega * E.omega
  let complex_r := E.compute_complex_r ipt interpolated_x
  let complex_r_squared := Cplx.mul complex_r complex_r
  let div_comp_r := Cplx.recip ⟨complex_r_squared.real, complex_r_squared.imag⟩
  let expr1 := (omega_squared / c_squared) - alpha_squared - (n_squared * div_comp_r.real)
  let expr2 := ((2 * E.omega * alpha) / c) - (n_squared * div_comp_r.imag)
  { W := W, r := r, interpolated_u := st.interpolated_u
    interpolated_dudx := st.interpolated_dudx, source := source
    expr1 := expr1, expr2 := expr2
    pml_stiffness_weight := E.pml_stiffness_weight ipt interpolated_x
    pml_mass_weight := E.pml_mass_weight ipt interpolated_x }

/-- The block guarded by `if(local_eqn_real >= 0)`. -/
def real_part (E : HelmholtzElement α) (flag ipt l : Nat) (p : HelmholtzPoint α)
    (s : Assembly α) : Assembly α :=
  let local_eqn_real := E.nodal_local_eqn l E.u_index_real
  if 0 ≤ local_eqn_real then
    let res1 := addAt s.residuals local_eqn_real.toNat
      (((p.pml_mass_weight.real *
          (p.expr2 * p.interpolated_u.imag - p.expr1 * p.interpolated_u.real))
        + (p.pml_mass_weight.imag *
          (p.expr1 * p.interpolated_u.imag + p.expr2 * p.interpolated_u.real)))
        * E.test ipt l * p.r * p.W)
    let res2 := forLoop 2
      (fun k res => addAt res local_eqn_real.toNat
        ((((p.pml_stiffness_weight k).real * (p.interpolated_dudx k).real
          - (p.pml_stiffness_weight k).imag * (p.interpolated_dudx k).imag))
          * E.dtestdx ipt l k * p.r * p.W)) res1
    let jac :=
      if flag ≠ 0 then
        forLoop E.nnode
          (fun l2 jac =>
            let local_unknown_real := E.nodal_local_eqn l2 E.u_index_real
            let local_unknown_imag := E.nodal_local_eqn l2 E.u_index_imag
            let jac1 :=
              if 0 ≤ local_unknown_real then
                forLoop 2
                  (fun k m => addAt2 m local_eqn_real.toNat local_unknown_real.toNat
                    ((p.pml_stiffness_weight k).real * E.dpsidx ipt l2 k
                      * E.dtestdx ipt l k * p.r * p.W))
                  (addAt2 jac local_eqn_real.toNat local_unknown_real.toNat
                    ((-(p.pml_mass_weight.real * p.expr1) + (p.pml_mass_weight.imag * p.expr2))
                      * E.psi ipt l2 * E.test ipt l * p.r * p.W))
              else jac
            if 0 ≤ local_unknown_imag then
              forLoop 2
                (fun k m => addAt2 m local_eqn_real.toNat local_unknown_imag.toNat
                  (-(p.pml_stiffness_weight k).imag * E.dpsidx ipt l2 k
                    * E.dtestdx ipt l k * p.r * p.W))
                (addAt2 jac1 local_eqn_real.toNat local_unknown_imag.toNat
                  (((p.pml_mass_weight.real * p.expr2) + (p.pml_mass_weight.imag * p.expr1))
                    * E.psi ipt l2 * E.test ipt l * p.r * p.W))
            else jac1)
          s.jacobian
      else s.jacobian
    { residuals := res2, jacobian := jac }
  else s

/-- The block guarded by `if(local_eqn_imag >= 0)`. -/
def imag_part (E : HelmholtzElement α) (flag ipt l : Nat) (p : HelmholtzPoint α)
    (s : Assembly α) : Assembly α :=
  let local_eqn_imag := E.nodal_local_eqn l E.u_index_imag
  if 0 ≤ local_eqn_imag then
    let res1 := addAt s.residuals local_eqn_imag.toNat
      (((-p.pml_mass_weight.real *
          (p.expr1 * p.interpolated_u.imag + p.expr2 * p.interpolated_u.real))
        + (p.pml_mass_weight.imag *
          (p.expr2 * p.interpolated_u.imag - p.expr1 * p.interpolated_u.real)))
        * E.test ipt l * p.r * p.W)
    let res2 := forLoop 2
      (fun k res => addAt res local_eqn_imag.toNat
        ((((p.pml_stiffness_weight k).real * (p.interpolated_dudx k).imag
          + (p.pml_stiffness_weight k).imag * (p.interpolated_dudx k).real))
          * E.dtestdx ipt l k * p.r * p.W)) res1
    let jac :=
      if flag ≠ 0 then
        forLoop E.nnode
          (fun l2 jac =>
            let local_unknown_imag := E.nodal_local_eqn l2 E.u_index_imag
            let local_unknown_real := E.nodal_local_eqn l2 E.u_index_real
            let jac1 :=
              if 0 ≤ local_unknown_imag then
                forLoop 2
                  (fun k m => addAt2 m local_eqn_imag.toNat local_unknown_imag.toNat
                    ((p.pml_stiffness_weight k).real * E.dpsidx ipt l2 k
                      * E.dtestdx ipt l k * p.r * p.W))
                  (addAt2 jac local_eqn_imag.toNat local_unknown_imag.toNat
                    (((-p.pml_mass_weight.real * p.expr1) + (p.pml_mass_weight.imag * p.expr2))
                      * E.psi ipt l2 * E.test ipt l * p.r * p.W))
              else jac
            if 0 ≤ local_unknown_real then
              forLoop 2
                (fun k m => addAt2 m local_eqn_imag.toNat local_unknown_real.toNat
                  ((p.pml_stiffness_weight k).imag * E.dpsidx ipt l2 k
                    * E.dtestdx ipt l k * p.r * p.W))
                (addAt2 jac1 local_eqn_imag.toNat local_unknown_real.toNat
                  (((-p.pml_mass_weight.real * p.expr2) - (p.pml_mass_weight.imag * p.expr1))
                    * E.psi ipt l2 * E.test ipt l * p.r * p.W))
            else jac1)
          s.jacobian
      else s.jacobian
    { residuals := res2, jacobian := jac }
  else s

/-- The function
`fill_in_generic_residual_contribution_generalised_fourier_decomposed_helmholtz`:
loop over the integration points, and at each one over the test functions,
real part first and imaginary part second. -/
def fill_in_generic_residual_contribution_generalised_fourier_decomposed_helmholtz
    (E : HelmholtzElement α) (s : Assembly α) (flag : Nat) : Assembly α :=
  forLoop E.nweight
    (fun ipt s =>
      let p := E.point ipt
      forLoop E.nnode
        (fun l s => E.imag_part flag ipt l p (E.real_part flag ipt l p s)) s)
    s

/-- The element with every unpinned nodal value moved by the entry of `d` at
its local equation number; pinned values are untouched. -/
def perturb (E : HelmholtzElement α) (d : Nat → α) : HelmholtzElement α :=
  { E with
    raw_nodal_value := fun l i =>
      E.raw_nodal_value l i
        + (if 0 ≤ E.nodal_local_eqn l i then d (E.nodal_local_eqn l i).toNat else 0) }

/-- The total added to `residuals[local_eqn_real]` for the test function `l`. -/
def resRe (E : HelmholtzElement α) (ipt l : Nat) (p : HelmholtzPoint α) : α :=
  ((p.pml_mass_weight.real *
      (p.expr2 * p.interpolated_u.imag - p.expr1 * p.interpolated_u.real))
    + (p.pml_mass_weight.imag *
      (p.expr1 * p.interpolated_u.imag + p.expr2 * p.interpolated_u.real)))
    * E.test ipt l * p.r * p.W
  + ∑ k in Finset.range 2,
      ((p.pml_stiffness_weight k).real * (p.interpolated_dudx k).real
        - (p.pml_stiffness_weight k).imag * (p.interpolated_dudx k).imag)
        * E.dtestdx ipt l k * p.r * p.W

/-- The total added to `residuals[local_eqn_imag]` for the test function `l`. -/
def resIm (E : HelmholtzElement α) (ipt l : Nat) (p : HelmholtzPoint α) : α :=
  ((-p.pml_mass_weight.real *
      (p.expr1 * p.interpolated_u.imag + p.expr2 * p.interpolated_u.real))
    + (p.pml_mass_weight.imag *
      (p.expr2 * p.interpolated_u.imag - p.expr1 * p.interpolated_u.real)))
    * E.test ipt l * p.r * p.W
  + ∑ k in Finset.range 2,
      ((p.pml_stiffness_weight k).real * (p.interpolated_dudx k).imag
        + (p.pml_stiffness_weight k).imag * (p.interpolated_dudx k).real)
        * E.dtestdx ipt l k * p.r * p.W

/-- The total added to `jacobian(local_eqn_real,local_unknown_real)` for `l`, `l2`. -/
def jacRR (E : HelmholtzElement α) (ipt l l2 : Nat) (p : HelmholtzPoint α) : α :=
  (-(p.pml_mass_weight.real * p.expr1) + (p.pml_mass_weight.imag * p.expr2))
    * E.psi ipt l2 * E.test ipt l * p.r * p.W
  + ∑ k in Finset.range 2,
      (p.pml_stiffness_weight k).real * E.dpsidx ipt l2 k * E.dtestdx ipt l k * p.r * p.W

/-- The total added to `jacobian(local_eqn_real,local_unknown_imag)` for `l`, `l2`. -/
def jacRI (E : HelmholtzElement α) (ipt l l2 : Nat) (p : HelmholtzPoint α) : α :=
  ((p.pml_mass_weight.real * p.expr2) + (p.pml_mass_weight.imag * p.expr1))
    * E.psi ipt l2 * E.test ipt l * p.r * p.W
  + ∑ k in Finset.range 2,
      -(p.pml_stiffness_weight k).imag * E.dpsidx ipt l2 k * E.dtestdx ipt l k * p.r * p.W

/-- The total added to `jacobian(local_eqn_imag,local_unknown_imag)` for `l`, `l2`. -/
def jacII (E : HelmholtzElement α) (ipt l l2 : Nat) (p : HelmholtzPoint α) : α :=
  ((-p.pml_mass_weight.real * p.expr1) + (p.pml_mass_weight.imag * p.expr2))
    * E.psi ipt l2 * E.test ipt l * p.r * p.W
  + ∑ k in Finset.range 2,
      (p.pml_stiffness_weight k).real * E.dpsidx ipt l2 k * E.dtestdx ipt l k * p.r * p.W

/-- The total added to `jacobian(local_eqn_imag,local_unknown_real)` for `l`, `l2`. -/
def jacIR (E : HelmholtzElement α) (ipt l l2 : Nat) (p : HelmholtzPoint α) : α :=
  ((-p.pml_mass_weight.real * p.expr2) - (p.pml_mass_weight.imag * p.expr1))
    * E.psi ipt l2 * E.test ipt l * p.r * p.W
  + ∑ k in Finset.range 2,
      (p.pml_stiffness_weight k).imag * E.dpsidx ipt l2 k * E.dtestdx ipt l k * p.r * p.W

/-- The change of the nodal value `(l,i)` under the perturbation `d`. -/
def nodalShift (E : HelmholtzElement α) (d : Nat → α) (l i : Nat) : α :=
  if 0 ≤ E.nodal_local_eqn l i then d (E.nodal_local_eqn l i).toNat else 0

/-- Closed form of the increment of `residuals[k]`: the sum over integration
points and test functions of the contributions addressed to `k`. -/
def resTotal (E : HelmholtzElement α) (k : Nat) : α :=
  ∑ ipt in Finset.range E.nweight, ∑ l in Finset.range E.nnode,
    ((if E.nodal_local_eqn l E.u_index_real = (k : Int)
        then E.resRe ipt l (E.point ipt) else 0)
      + (if E.nodal_local_eqn l E.u_index_imag = (k : Int)
        then E.resIm ipt l (E.point ipt) else 0))

/-- Closed form of the increment of `jacobian(a,b)` when the Jacobian is
requested. -/
def jacTotal (E : HelmholtzElement α) (a b : Nat) : α :=
  ∑ ipt in Finset.range E.nweight, ∑ l in Finset.range E.nnode,
    ((if E.nodal_local_eqn l E.u_index_real = (a : Int) then
        ∑ l2 in Finset.range E.nnode,
          ((if E.nodal_local_eqn l2 E.u_index_real = (b : Int)
              then E.jacRR ipt l l2 (E.point ipt) else 0)
            + (if E.nodal_local_eqn l2 E.u_index_imag = (b : Int)
              then E.jacRI ipt l l2 (E.point ipt) else 0))
      else 0)
    + (if E.nodal_local_eqn l E.u_index_imag = (a : Int) then
        ∑ l2 in Finset.range E.nnode,
          ((if E.nodal_local_eqn l2 E.u_index_imag = (b : Int)
              then E.jacII ipt l l2 (E.point ipt) else 0)
            + (if E.nodal_local_eqn l2 E.u_index_real = (b : Int)
              then E.jacIR ipt l l2 (E.point ipt) else 0))
      else 0))

end HelmholtzElement

/-- A concrete two-node element over `ℚ` with one integration point: node 0
is pinned, node 1 carries the equations 0 (real part) and 1 (imaginary part);
the radius at the integration point is `3/2`. -/
def sampleHelmholtz : HelmholtzElement ℚ :=
  { nnode := 2
    nweight := 1
    weight := fun _ => 2
    psi := fun _ _ => 1 / 2
    dpsidx := fun _ l k => if k = 0 then (if l = 0 then -1 else 1) else 0
    test := fun _ _ => 1 / 2
    dtestdx := fun _ l k => if k = 0 then (if l = 0 then -1 else 1) else 0
    J := fun _ => 1
    raw_nodal_position := fun l j => if j = 0 then (l : ℚ) + 1 else 0
    raw_nodal_value := fun l i => (l : ℚ) + 2 * (i : ℚ)
    u_index_real := 0
    u_index_imag := 1
    nodal_local_eqn := fun l i => if l = 0 then -1 else (i : Int)
    get_source := fun _ _ => ⟨0, 0⟩
    get_alpha := fun _ _ => 0
    get_c := fun _ _ => 1
    omega := 1
    generalised_fourier_wavenumber := 0
    pml_stiffness_weight := fun _ _ _ => ⟨1, 0⟩
    pml_mass_weight := fun _ _ => ⟨1, 0⟩
    compute_complex_r := fun _ x => ⟨x 0, 0⟩ }

/-! ## Steady axisymmetric advection-diffusion: Robin flux element -/

/-- The statement `v[i] -= d` on a `Vector<double>`. -/
def subAt {α : Type} [Sub α] (v : Nat → α) (i : Nat) (d : α) : Nat → α :=
  Function.update v i (v i - d)

/-- What `SteadyAxisymAdvectionDiffusionFluxElement` reads in
`fill_in_generic_residual_contribution_adv_diff_flux`.  The members inherited
from `FiniteElement` (`shape`, `J_eulerian`, nodal data) are parameters; the
two function pointers may be null (`none`). -/
structure FluxElement (α : Type) where
  /-- Value of `nnode()` -/
  nnode : Nat
  /-- Value of `integral_pt()->nweight()` -/
  nweight : Nat
  /-- Value of `integral_pt()->knot(ipt,i)` -/
  knot : Nat → Nat → α
  /-- Value of `integral_pt()->weight(ipt)` -/
  weight : Nat → α
  /-- Value of `shape(s,psi)`: the shape functions at local coordinate `s` -/
  shape : (Nat → α) → Nat → α
  /-- Value of `J_eulerian(s)` -/
  J_eulerian : (Nat → α) → α
  /-- Value of `raw_nodal_value(l,i)` -/
  raw_nodal_value : Nat → Nat → α
  /-- Value of `nodal_position(l,i)` -/
  nodal_position : Nat → Nat → α
  /-- Value of `nodal_local_eqn(l,i)`, negative for a pinned value -/
  nodal_local_eqn : Nat → Nat → Int
  /-- Value of `U_index_adv_diff` -/
  U_index_adv_diff : Nat
  /-- Value of `Beta_fct_pt` -/
  Beta_fct_pt : Option ((Nat → α) → α)
  /-- Value of `Alpha_fct_pt` -/
  Alpha_fct_pt : Option ((Nat → α) → α)

/-- The outputs `psi`, `test` and the returned Jacobian of `shape_and_test`. -/
structure FluxShape (α : Type) where
  psi : Nat → α
  test : Nat → α
  J : α

/-- The locals `interpolated_u`, `interpolated_x` of the flux assembler. -/
structure FluxInterp (α : Type) where
  interpolated_u : α
  interpolated_x : Nat → α

/-- Everything the flux assembler computes at an integration point before the
loop over the test functions. -/
structure FluxPoint (α : Type) where
  psif : Nat → α
  testf : Nat → α
  W : α
  interpolated_u : α
  beta : α
  alpha : α
  r : α

namespace FluxElement

variable {α : Type} [Field α] [DecidableEq α]

/-- The member `shape_and_test(s,psi,test)`: shape functions, test functions
copied from them node by node, and the Jacobian of the mapping.  The buffer
`test` has `nnode()` entries, all of which the loop overwrites. -/
def shape_and_test (E : FluxElement α) (s : Nat → α) : FluxShape α :=
  let n_node := E.nnode
  let psi := E.shape s
  let test := forLoop n_node (fun i t => Function.update t i (psi i)) (fun _ => 0)
  { psi := psi, test := test, J := E.J_eulerian s }

/-- The member `get_beta(x,beta)`: zero for a null pointer, otherwise what the
callable returns. -/
def get_beta (E : FluxElement α) (x : Nat → α) : α :=
  match E.Beta_fct_pt with
  | none => 0
  | some f => f x

/-- The member `get_alpha(x,alpha)`: zero for a null pointer, otherwise what
the callable returns. -/
def get_alpha (E : FluxElement α) (x : Nat → α) : α :=
  match E.Alpha_fct_pt with
  | none => 0
  | some f => f x

/-- The loop over the nodes that interpolates `u` and the position. -/
def interpolate (E : FluxElement α) (psif : Nat → α) : FluxInterp α :=
  forLoop E.nnode
    (fun l st =>
      let u_value := E.raw_nodal_value l E.U_index_adv_diff
      let u := st.interpolated_u + u_value * psif l
      let x := forLoop 2
        (fun i x => addAt x i (E.nodal_position l i * psif l)) st.interpolated_x
      { interpolated_u := u, interpolated_x := x })
    { interpolated_u := 0, interpolated_x := fun _ => 0 }

/-- The body of the loop over the integration points up to the loop over the
test functions.  The buffers `s`, `psif` and `testf` are overwritten in full at
every integration point, so each pass starts from fresh ones; the output
arguments of `get_beta` and `get_alpha` are uninitialised on entry, so a
callable is a function of the position alone. -/
def point (E : FluxElement α) (ipt : Nat) : FluxPoint α :=
  let s := forLoop 1 (fun i s => Function.update s i (E.knot ipt i)) (fun _ => 0)
  let w := E.weight ipt
  let sh := E.shape_and_test s
  let J := sh.J
  let W := w * J
  let st := E.interpolate sh.psi
  let beta := E.get_beta st.interpolated_x
  let alpha := E.get_alpha st.interpolated_x
  let r := st.interpolated_x 0
  { psif := sh.psi, testf := sh.test, W := W, interpolated_u := st.interpolated_u
    beta := beta, alpha := alpha, r := r }

/-- The body of the loop over the test functions. -/
def node (E : FluxElement α) (flag l : Nat) (p : FluxPoint α) (s : Assembly α) : Assembly α :=
  let local_eqn := E.nodal_local_eqn l E.U_index_adv_diff
  if 0 ≤ local_eqn then
    let res := subAt s.residuals local_eqn.toNat
      (p.r * (p.beta - p.alpha * p.interpolated_u) * p.testf l * p.W)
    let jac :=
      if flag ≠ 0 ∧ p.alpha ≠ 0 then
        forLoop E.nnode
          (fun l2 jac =>
            let local_unknown := E.nodal_local_eqn l2 E.U_index_adv_diff
            if 0 ≤ local_unknown then
              addAt2 jac local_eqn.toNat local_unknown.toNat
                (p.r * p.alpha * p.psif l2 * p.testf l * p.W)
            else jac)
          s.jacobian
      else s.jacobian
    { residuals := res, jacobian := jac }
  else s

/-- The function `fill_in_generic_residual_contribution_adv_diff_flux`. -/
def fill_in_generic_residual_contribution_adv_diff_flux
    (E : FluxElement α) (s : Assembly α) (flag : Nat) : Assembly α :=
  forLoop E.nweight
    (fun ipt s =>
      let p := E.point ipt
      forLoop E.nnode (fun l s => E.node flag l p s) s)
    s

/-- The member `fill_in_contribution_to_residuals`: the generic routine with
`flag = 0` and the dummy matrix. -/
def fill_in_contribution_to_residuals (E : FluxElement α) (residuals : Nat → α)
    (Dummy_matrix : Nat → Nat → α) : Nat → α :=
  (E.fill_in_generic_residual_contribution_adv_diff_flux ⟨residuals, Dummy_matrix⟩ 0).residuals

/-- The member `fill_in_contribution_to_jacobian`: the generic routine with
`flag = 1`. -/
def fill_in_contribution_to_jacobian (E : FluxElement α) (s : Assembly α) : Assembly α :=
  E.fill_in_generic_residual_contribution_adv_diff_flux s 1

/-- The element with every unpinned nodal value moved by the entry of `d` at
its local equation number; pinned values are untouched. -/
def perturb (E : FluxElement α) (d : Nat → α) : FluxElement α :=
  { E with
    raw_nodal_value := fun l i =>
      E.raw_nodal_value l i
        + (if 0 ≤ E.nodal_local_eqn l i then d (E.nodal_local_eqn l i).toNat else 0) }

/-- The change of the nodal value `(l,i)` under the perturbation `d`. -/
def nodalShift (E : FluxElement α) (d : Nat → α) (l i : Nat) : α :=
  if 0 ≤ E.nodal_local_eqn l i then d (E.nodal_local_eqn l i).toNat else 0

/-- Closed form of the increment of `residuals[k]`. -/
def resTotal (E : FluxElement α) (k : Nat) : α :=
  ∑ ipt in Finset.range E.nweight, ∑ l in Finset.range E.nnode,
    (if E.nodal_local_eqn l E.U_index_adv_diff = (k : Int) then
      -((E.point ipt).r * ((E.point ipt).beta - (E.point ipt).alpha * (E.point ipt).interpolated_u)
          * (E.point ipt).testf l * (E.point ipt).W)
    else 0)

/-- Closed form of the increment of `jacobian(a,b)` when the Jacobian is
requested. -/
def jacTotal (E : FluxElement α) (a b : Nat) : α :=
  ∑ ipt in Finset.range E.nweight, ∑ l in Finset.range E.nnode,
    (if E.nodal_local_eqn l E.U_index_adv_diff = (a : Int) then
      ∑ l2 in Finset.range E.nnode,
        (if E.nodal_local_eqn l2 E.U_index_adv_diff = (b : Int) then
          (E.point ipt).r * (E.point ipt).alpha * (E.point ipt).psif l2
            * (E.point ipt).testf l * (E.point ipt).W
        else 0)
    else 0)

end FluxElement

/-- A concrete two-node flux element over `ℚ` with one integration point:
node 0 is pinned, node 1 carries equation 0; `alpha = 3`, `beta = 1`. -/
def sampleFlux : FluxElement ℚ :=
  { nnode := 2
    nweight := 1
    knot := fun _ _ => 0
    weight := fun _ => 2
    shape := fun _ _ => 1 / 2
    J_eulerian := fun _ => 1
    raw_nodal_value := fun l _ => (l : ℚ) + 1
    nodal_position := fun l j => if j = 0 then (l : ℚ) + 1 else 0
    nodal_local_eqn := fun l _ => if l = 0 then -1 else 0
    U_index_adv_diff := 0
    Beta_fct_pt := some (fun _ => 1)
    Alpha_fct_pt := some (fun _ => 3) }

/-- The sample Helmholtz element with the source callable replaced by the
constant `7 + 7i`. -/
def sampleHelmholtzSource : HelmholtzElement ℚ :=
  { sampleHelmholtz with get_source := fun _ _ => ⟨7, 7⟩ }

/-! ## Steady axisymmetric advection-diffusion: bulk element -/

/-- The members of `SteadyAxisymAdvectionDiffusionEquations` read by
`get_source_axisym_adv_diff` and `get_wind_axisym_adv_diff`.  A callable gets
the position `x` and the current content of its output argument and returns
the new content; a null pointer is `none`. -/
structure SteadyAxisymAdvectionDiffusionEquations (α : Type) where
  /-- Value of `Source_fct_pt` -/
  Source_fct_pt : Option ((Nat → α) → α → α)
  /-- Value of `Wind_fct_pt` -/
  Wind_fct_pt : Option ((Nat → α) → (Nat → α) → (Nat → α))

namespace SteadyAxisymAdvectionDiffusionEquations

variable {α : Type} [Zero α]

/-- The member `get_source_axisym_adv_diff(ipt,x,source)`; the result is the
content of `source` on return. -/
def get_source_axisym_adv_diff (E : SteadyAxisymAdvectionDiffusionEquations α)
    (_ipt : Nat) (x : Nat → α) (source : α) : α :=
  match E.Source_fct_pt with
  | none => 0
  | some f => f x source

/-- The member `get_wind_axisym_adv_diff(ipt,s,x,wind)`; the result is the
content of `wind` on return. -/
def get_wind_axisym_adv_diff (E : SteadyAxisymAdvectionDiffusionEquations α)
    (_ipt : Nat) (_s : Nat → α) (x : Nat → α) (wind : Nat → α) : Nat → α :=
  match E.Wind_fct_pt with
  | none => forLoop 2 (fun i w => Function.update w i 0) wind
  | some f => f x wind

end SteadyAxisymAdvectionDiffusionEquations

/-- The outputs `psi`, `dpsidx` and the returned Jacobian of `dshape_eulerian`
and `dshape_eulerian_at_knot`. -/
structure DShapeOut (α : Type) where
  psi : Nat → α
  dpsidx : Nat → Nat → α
  J : α

/-- The outputs of the `dshape_and_dtest_eulerian` functions. -/
structure DShapeTestOut (α : Type) where
  psi : Nat → α
  dpsidx : Nat → Nat → α
  test : Nat → α
  dtestdx : Nat → Nat → α
  J : α

/-- The class `QSteadyAxisymAdvectionDiffusionElement<NNODE_1D>`, a
`QElement<2,NNODE_1D>` with `NNODE_1D*NNODE_1D` nodes; the geometric shape
function routines of `FiniteElement` are parameters. -/
structure QSteadyAxisymAdvectionDiffusionElement (α : Type) where
  NNODE_1D : Nat
  /-- Value of `dshape_eulerian(s,psi,dpsidx)` -/
  dshape_eulerian : (Nat → α) → DShapeOut α
  /-- Value of `dshape_eulerian_at_knot(ipt,psi,dpsidx)` -/
  dshape_eulerian_at_knot : Nat → DShapeOut α

namespace QSteadyAxisymAdvectionDiffusionElement

variable {α : Type}

/-- The number of nodes of the two-dimensional element. -/
def nnode (E : QSteadyAxisymAdvectionDiffusionElement α) : Nat := E.NNODE_1D * E.NNODE_1D

/-- The member `dshape_and_dtest_eulerian_adv_diff(s,psi,dpsidx,test,dtestdx)`;
`test` and `dtestdx` are the contents of the output arguments on entry. -/
def dshape_and_dtest_eulerian_adv_diff (E : QSteadyAxisymAdvectionDiffusionElement α)
    (s : Nat → α) (test : Nat → α) (dtestdx : Nat → Nat → α) : DShapeTestOut α :=
  let out := E.dshape_eulerian s
  let td := forLoop E.NNODE_1D
    (fun i (td : (Nat → α) × (Nat → Nat → α)) =>
      let test := Function.update td.1 i (out.psi i)
      let dtestdx := forLoop 2
        (fun j d => Function.update d i (Function.update (d i) j (out.dpsidx i j))) td.2
      (test, dtestdx))
    (test, dtestdx)
  { psi := out.psi, dpsidx := out.dpsidx, test := td.1, dtestdx := td.2, J := out.J }

/-- The member
`dshape_and_dtest_eulerian_at_knot_adv_diff(ipt,psi,dpsidx,test,dtestdx)`. -/
def dshape_and_dtest_eulerian_at_knot_adv_diff (E : QSteadyAxisymAdvectionDiffusionElement α)
    (ipt : Nat) : DShapeTestOut α :=
  let out := E.dshape_eulerian_at_knot ipt
  { psi := out.psi, dpsidx := out.dpsidx, test := out.psi, dtestdx := out.dpsidx, J := out.J }

end QSteadyAxisymAdvectionDiffusionElement

/-- A concrete four-node element (`NNODE_1D = 2`) over `ℚ` whose shape
functions all take the value `1/4` (the bilinear shape functions at the centre
of the element), with derivatives `±1/2`. -/
def sampleQuad : QSteadyAxisymAdvectionDiffusionElement ℚ :=
  { NNODE_1D := 2
    dshape_eulerian := fun _ =>
      { psi := fun _ => 1 / 4
        dpsidx := fun i j => if (i / (j + 1)) % 2 = 0 then -(1 / 2) else 1 / 2
        J := 1 }
    dshape_eulerian_at_knot := fun _ =>
      { psi := fun _ => 1 / 4
        dpsidx := fun i j => if (i / (j + 1)) % 2 = 0 then -(1 / 2) else 1 / 2
        J := 1 } }

/-! ## `integral.h`: Gauss-Lobatto-Legendre rules -/

/-- The statement `Knot[i][j] = v` on a two-dimensional array. -/
def setAt2 {α : Type} (K : Nat → Nat → α) (i j : Nat) (v : α) : Nat → Nat → α :=
  Function.update K i (Function.update (K i) j v)

/-- The members `Knot`, `Weight` of a Gauss-Lobatto-Legendre rule together with
the locals `i_fast`, `i_slow` of the constructor of
`GaussLobattoLegendre<2,NPTS_1D>`; the counters are `int`s that only ever
count upwards from zero. -/
structure GLL2State (α : Type) where
  Knot : Nat → Nat → α
  Weight : Nat → α
  i_fast : Nat
  i_slow : Nat

/-- The members `Knot`, `Weight` of `GaussLobattoLegendre<3,NPTS_1D>`. -/
structure GLLTable (α : Type) where
  Knot : Nat → Nat → α
  Weight : Nat → α

namespace GaussLobattoLegendre

variable {α : Type} [Mul α]

/-- The statement `if (i_fast == NPTS_1D){i_fast=0;i_slow++;}`. -/
def wrap (NPTS_1D : Nat) (st : GLL2State α) : GLL2State α :=
  if st.i_fast = NPTS_1D then { st with i_fast := 0, i_slow := st.i_slow + 1 } else st

/-- The body of the loop in the constructor of `GaussLobattoLegendre<2,NPTS_1D>`;
`s` and `w` are the 1D knots and weights returned by `Orthpoly::gll_nodes`. -/
def body2 (NPTS_1D : Nat) (s w : Nat → α) (i : Nat) (st : GLL2State α) : GLL2State α :=
  let st1 := wrap NPTS_1D st
  { Knot := setAt2 (setAt2 st1.Knot i 0 (s st1.i_fast)) i 1 (s st1.i_slow)
    Weight := Function.update st1.Weight i (w st1.i_fast * w st1.i_slow)
    i_fast := st1.i_fast + 1
    i_slow := st1.i_slow }

/-- The first `n` passes of the loop in the constructor of
`GaussLobattoLegendre<2,NPTS_1D>`, started on the arrays `Knot`, `Weight`. -/
def run2 (NPTS_1D : Nat) (s w : Nat → α) (Knot : Nat → Nat → α) (Weight : Nat → α)
    (n : Nat) : GLL2State α :=
  forLoop n (body2 NPTS_1D s w) { Knot := Knot, Weight := Weight, i_fast := 0, i_slow := 0 }

/-- The pair `(i_fast, i_slow)` with which pass `i` of the loop indexes `s` and
`w`. -/
def indices2 (NPTS_1D : Nat) (s w : Nat → α) (Knot : Nat → Nat → α) (Weight : Nat → α)
    (i : Nat) : Nat × Nat :=
  ((wrap NPTS_1D (run2 NPTS_1D s w Knot Weight i)).i_fast,
   (wrap NPTS_1D (run2 NPTS_1D s w Knot Weight i)).i_slow)

/-- The rule `GaussLobattoLegendre<2,NPTS_1D>` after its constructor:
`nweight()` is `Npts = NPTS_1D*NPTS_1D`, `knot` and `weight` read the arrays. -/
def construct2 (NPTS_1D : Nat) (s w : Nat → α) (Knot : Nat → Nat → α) (Weight : Nat → α) :
    Integral α :=
  { nweight := NPTS_1D * NPTS_1D
    knot := (run2 NPTS_1D s w Knot Weight (NPTS_1D * NPTS_1D)).Knot
    weight := (run2 NPTS_1D s w Knot Weight (NPTS_1D * NPTS_1D)).Weight }

/-- The value of `index` in the constructor of `GaussLobattoLegendre<3,NPTS_1D>`. -/
def index3 (NPTS_1D k j i : Nat) : Nat := NPTS_1D * NPTS_1D * k + NPTS_1D * j + i

/-- The body of the innermost loop in the constructor of
`GaussLobattoLegendre<3,NPTS_1D>`. -/
def body3 (NPTS_1D : Nat) (s w : Nat → α) (k j i : Nat) (T : GLLTable α) : GLLTable α :=
  let index := index3 NPTS_1D k j i
  { Knot := setAt2 (setAt2 (setAt2 T.Knot index 0 (s i)) index 1 (s j)) index 2 (s k)
    Weight := Function.update T.Weight index (w i * w j * w k) }

/-- The three nested loops of the constructor of `GaussLobattoLegendre<3,NPTS_1D>`. -/
def run3 (NPTS_1D : Nat) (s w : Nat → α) (T : GLLTable α) : GLLTable α :=
  forLoop NPTS_1D
    (fun k T => forLoop NPTS_1D
      (fun j T => forLoop NPTS_1D (fun i T => body3 NPTS_1D s w k j i T) T) T) T

/-- The rule `GaussLobattoLegendre<3,NPTS_1D>` after its constructor. -/
def construct3 (NPTS_1D : Nat) (s w : Nat → α) (T : GLLTable α) : Integral α :=
  { nweight := NPTS_1D * NPTS_1D * NPTS_1D
    knot := (run3 NPTS_1D s w T).Knot
    weight := (run3 NPTS_1D s w T).Weight }

end GaussLobattoLegendre

/-! ## `Legendre_functions_helper` -/

/-- The loop `for(i=lo;i<=hi;i++) s = body i s` on unsigned counters. -/
def forRange {σ : Type} (lo hi : Nat) (body : Nat → σ → σ) (s : σ) : σ :=
  forLoop (hi + 1 - lo) (fun t => body (lo + t)) s

/-- An `OomphLibError`: the three strings handed to its constructor. -/
structure OomphLibError where
  error_message : String
  function_name : String
  location : String

/-- What the Legendre routines take from the build and the standard library:
whether `PARANOID` is defined, how `operator<<` prints a `double`, `sqrt`, and
the expansions of the two location macros inside a routine of a given name. -/
structure LegendreConfig (α : Type) where
  PARANOID : Bool
  format : α → String
  sqrt : α → α
  OOMPH_CURRENT_FUNCTION : String → String
  OOMPH_EXCEPTION_LOCATION : String → String

/-- The locals `pmm`, `pmm1`, `pmm2` of `plgndr1`. -/
structure Plgndr1State (α : Type) where
  pmm : α
  pmm1 : α
  pmm2 : α

/-- The locals `pmm`, `fact` of the first loop of `plgndr2`. -/
structure PmmState (α : Type) where
  pmm : α
  fact : α

/-- The locals `pmm`, `pmmp1`, `pll` of the second loop of `plgndr2`. -/
structure Plgndr2State (α : Type) where
  pmm : α
  pmmp1 : α
  pll : α

namespace Legendre_functions_helper

variable {α : Type} [LinearOrderedField α]

/-- The body of the loop of `plgndr1`. -/
def plgndr1_step (x : α) (i : Nat) (st : Plgndr1State α) : Plgndr1State α :=
  let pmm2 := (x * ((2 * i - 1 : Nat) : α) * st.pmm1 - ((i - 1 : Nat) : α) * st.pmm) / (i : α)
  { pmm := st.pmm1, pmm1 := pmm2, pmm2 := pmm2 }

/-- The part of `plgndr1` after the argument check. -/
def plgndr1_value (n : Nat) (x : α) : α :=
  let pmm : α := 1
  if n = 0 then pmm
  else
    let pmm1 := x * 1
    if n = 1 then pmm1
    else (forRange 2 n (plgndr1_step x) { pmm := pmm, pmm1 := pmm1, pmm2 := 0 }).pmm2

/-- The function `plgndr1(n,x)`: with `PARANOID` an argument with
`fabs(x) > 1.0` throws, otherwise the value is returned. -/
def plgndr1 (cfg : LegendreConfig α) (n : Nat) (x : α) : Except OomphLibError α :=
  if cfg.PARANOID = true ∧ 1 < |x| then
    Except.error
      { error_message := "Bad arguments in routine plgndr1: x=" ++ cfg.format x
          ++ " but should be less than 1 in absolute value.\n"
        function_name := cfg.OOMPH_CURRENT_FUNCTION "plgndr1"
        location := cfg.OOMPH_EXCEPTION_LOCATION "plgndr1" }
  else Except.ok (plgndr1_value n x)

/-- The value of `pmm` in `plgndr2` before the test `l == m`. -/
def plgndr2_pmm (sqrt : α → α) (m : Nat) (x : α) : α :=
  let pmm : α := 1
  if m > 0 then
    let somx2 := sqrt ((1 - x) * (1 + x))
    (forRange 1 m
      (fun _ st => { pmm := st.pmm * (-st.fact * somx2), fact := st.fact + 2 })
      ({ pmm := pmm, fact := 1 } : PmmState α)).pmm
  else pmm

/-- The body of the second loop of `plgndr2`. -/
def plgndr2_step (m : Nat) (x : α) (ll : Nat) (st : Plgndr2State α) : Plgndr2State α :=
  let pll := (x * ((2 * ll - 1 : Nat) : α) * st.pmmp1 - ((ll + m - 1 : Nat) : α) * st.pmm)
    / ((ll - m : Nat) : α)
  { pmm := st.pmmp1, pmmp1 := pll, pll := pll }

/-- The part of `plgndr2` after the argument check. -/
def plgndr2_value (sqrt : α → α) (l m : Nat) (x : α) : α :=
  if m > l then 0
  else
    let pmm := plgndr2_pmm sqrt m x
    if l = m then pmm
    else
      let pmmp1 := x * ((2 * m + 1 : Nat) : α) * pmm
      if l = m + 1 then pmmp1
      else (forRange (m + 2) l (plgndr2_step m x) { pmm := pmm, pmmp1 := pmmp1, pll := 0 }).pll

/-- The function `plgndr2(l,m,x)`: with `PARANOID` an argument with
`fabs(x) > 1.0` throws, otherwise the value is returned. -/
def plgndr2 (cfg : LegendreConfig α) (l m : Nat) (x : α) : Except OomphLibError α :=
  if cfg.PARANOID = true ∧ 1 < |x| then
    Except.error
      { error_message := "Bad arguments in routine plgndr2: x=" ++ cfg.format x
          ++ " but should be less than 1 in absolute value.\n"
        function_name := cfg.OOMPH_CURRENT_FUNCTION "plgndr2"
        location := cfg.OOMPH_EXCEPTION_LOCATION "plgndr2" }
  else Except.ok (plgndr2_value cfg.sqrt l m x)

end Legendre_functions_helper

/-- A build over `ℚ` with `PARANOID` defined; numbers are printed as
numerator and denominator and `sqrt` is a rational stand-in that is exact at
`0` and `1`. -/
def paranoidConfig : LegendreConfig ℚ :=
  { PARANOID := true
    format := fun x => toString x.num ++ "/" ++ toString x.den
    sqrt := fun t => t
    OOMPH_CURRENT_FUNCTION := fun f => f
    OOMPH_EXCEPTION_LOCATION := fun f => f }

/-- The same build over `ℚ` without `PARANOID`. -/
def plainConfig : LegendreConfig ℚ :=
  { paranoidConfig with PARANOID := false }

/-- A build over `ℚ` with `PARANOID` whose `sqrt` is `Rat.sqrt`: it returns
the exact root of every square of a rational number, as `sqrt` does. -/
def exactRootConfig : LegendreConfig ℚ :=
  { paranoidConfig with sqrt := Rat.sqrt }

/-! ## `hp_refineable_elements.h`: p-refineable elements -/

/-- The part of the base class `PRefineableElement` that the members below
read: the current p-order returned by `p_order()`. -/
structure PRefineableElement where
  P_order : Nat

/-- An object of one of the classes `PRefineableQElement<DIM,INITIAL_NNODE_1D>`,
`DIM = 1, 2, 3`: the two template arguments and the `PRefineableElement`
base. -/
structure PRefineableQElement where
  DIM : Nat
  INITIAL_NNODE_1D : Nat
  base : PRefineableElement

namespace PRefineableQElement

/-- The constructor of `PRefineableQElement<1,INITIAL_NNODE_1D>`: the base
constructors run and the body is empty. -/
def construct1 (INITIAL_NNODE_1D : Nat) (base : PRefineableElement) :
    Except OomphLibError PRefineableQElement :=
  Except.ok { DIM := 1, INITIAL_NNODE_1D := INITIAL_NNODE_1D, base := base }

/-- The constructor of `PRefineableQElement<2,INITIAL_NNODE_1D>`: the base
constructors run and the body is empty. -/
def construct2 (INITIAL_NNODE_1D : Nat) (base : PRefineableElement) :
    Except OomphLibError PRefineableQElement :=
  Except.ok { DIM := 2, INITIAL_NNODE_1D := INITIAL_NNODE_1D, base := base }

/-- The constructor of `PRefineableQElement<3,INITIAL_NNODE_1D>`: the body
throws. -/
def construct3 (_INITIAL_NNODE_1D : Nat) (_base : PRefineableElement)
    (OOMPH_EXCEPTION_LOCATION : String) : Except OomphLibError PRefineableQElement :=
  Except.error
    { error_message := "3-dimensional PRefineableQElements are not fully implemented yet!\n"
      function_name := "PRefineableQElement<3,INITIAL_NNODE_1D>::PRefineableQElement()"
      location := OOMPH_EXCEPTION_LOCATION }

/-- The member `p_order()` inherited from `PRefineableElement`. -/
def p_order (e : PRefineableQElement) : Nat := e.base.P_order

/-- The member `nnode_1d()`. -/
def nnode_1d (e : PRefineableQElement) : Nat := e.p_order

/-- The member `initial_p_order()`. -/
def initial_p_order (e : PRefineableQElement) : Nat := e.INITIAL_NNODE_1D

end PRefineableQElement

/-! ## Steady axisymmetric advection-diffusion: `dinterpolated_u_adv_diff_ddata` -/

/-- The call `v.resize(n,val)` on a `Vector`. -/
def resize {β : Type} (v : List β) (n : Nat) (val : β) : List β :=
  v.take n ++ List.replicate (n - v.length) val

/-- What `dinterpolated_u_adv_diff_ddata` reads from the element: the number
of nodes, the shape functions, the index of the unknown and the global
equation numbers `node_pt(l)->eqn_number(i)` (negative when pinned). -/
structure AdvDiffBulkElement (α : Type) where
  nnode : Nat
  shape : (Nat → α) → Nat → α
  u_index_axisym_adv_diff : Nat
  eqn_number : Nat → Nat → Int

/-- The two output vectors and the local `count` of the second loop. -/
structure DdataState (α : Type) where
  du_ddata : List α
  global_eqn_number : List Nat
  count : Nat

namespace AdvDiffBulkElement

variable {α : Type} [Zero α]

/-- The first loop: the number `n_u_dof` of nodes with a non-negative equation
number among the first `n` nodes. -/
def count_dofs (E : AdvDiffBulkElement α) (n : Nat) : Nat :=
  forLoop n
    (fun l n_u_dof =>
      let global_eqn := E.eqn_number l E.u_index_axisym_adv_diff
      if global_eqn ≥ 0 then n_u_dof + 1 else n_u_dof)
    0

/-- The body of the second loop. -/
def ddata_step (E : AdvDiffBulkElement α) (psi : Nat → α) (l : Nat) (st : DdataState α) :
    DdataState α :=
  let global_eqn := E.eqn_number l E.u_index_axisym_adv_diff
  if global_eqn ≥ 0 then
    { global_eqn_number := st.global_eqn_number.set st.count global_eqn.toNat
      du_ddata := st.du_ddata.set st.count (psi l)
      count := st.count + 1 }
  else st

/-- The member `dinterpolated_u_adv_diff_ddata(s,du_ddata,global_eqn_number)`;
the arguments are the contents of the two output vectors on entry, the result
their contents on return. -/
def dinterpolated_u_adv_diff_ddata (E : AdvDiffBulkElement α) (s : Nat → α)
    (du_ddata : List α) (global_eqn_number : List Nat) : List α × List Nat :=
  let n_node := E.nnode
  let psi := E.shape s
  let n_u_dof := E.count_dofs n_node
  let du := resize du_ddata n_u_dof 0
  let ge := resize global_eqn_number n_u_dof 0
  let st := forLoop n_node (E.ddata_step psi)
    { du_ddata := du, global_eqn_number := ge, count := 0 }
  (st.du_ddata, st.global_eqn_number)

/-- The nodes among the first `n` whose equation number for the unknown is
non-negative, in increasing order. -/
def unpinned (E : AdvDiffBulkElement α) (n : Nat) : List Nat :=
  (List.range n).filter (fun l => decide (0 ≤ E.eqn_number l E.u_index_axisym_adv_diff))

end AdvDiffBulkElement

/-- A concrete four-node element over `ℚ`: nodes 0 and 2 are pinned, node 1
has equation number 0 and node 3 equation number 7. -/
def sampleBulk : AdvDiffBulkElement ℚ :=
  { nnode := 4
    shape := fun _ l => ((l : ℚ) + 1) / 10
    u_index_axisym_adv_diff := 0
    eqn_number := fun l _ => if l = 1 then 0 else if l = 3 then 7 else -1 }

/-! ## `general_purpose_preconditioners.h`: `CompressedMatrixCoefficient` -/

/-- The class `CompressedMatrixCoefficient`: an index and a value. -/
structure CompressedMatrixCoefficient (α : Type) where
  Index : Nat
  Value : α

namespace CompressedMatrixCoefficient

variable {α : Type}

/-- The access function `index()`. -/
def index (a : CompressedMatrixCoefficient α) : Nat := a.Index

/-- The access function `value()`. -/
def value (a : CompressedMatrixCoefficient α) : α := a.Value

/-- The constructor taking the index and the value. -/
def create (index : Nat) (value : α) : CompressedMatrixCoefficient α :=
  { Index := index, Value := value }

/-- The copy constructor. -/
def copy (a : CompressedMatrixCoefficient α) : CompressedMatrixCoefficient α :=
  { Index := a.index, Value := a.value }

/-- The assignment operator `*this = a`; the result is the new state of the
assigned object. -/
def assign (_self a : CompressedMatrixCoefficient α) : CompressedMatrixCoefficient α :=
  { Index := a.index, Value := a.value }

/-- The operator `*this < a`. -/
def lt (self a : CompressedMatrixCoefficient α) : Bool :=
  decide (self.Index < a.index)

end CompressedMatrixCoefficient

/-! ## `integral.h`: the Gauss rules -/

/-- Modelled from the spec: the tables `Knot`, `Weight` of `Gauss<1,2>` are
defined in `integral.cc`; by the spec the rule is the two-point Gauss-Legendre
rule on `[-1,1]`: knots `∓r` with `3 r^2 = 1` and unit weights. -/
def Gauss_1_2 {α : Type} [Field α] (r : α) : Integral α :=
  { nweight := 2
    knot := fun i _ => if i = 0 then -r else r
    weight := fun _ => 1 }

/-- Modelled from the spec: the tables of `Gauss<1,3>` are defined in
`integral.cc`; by the spec the rule is the three-point Gauss-Legendre rule:
knots `-r, 0, r` with `5 r^2 = 3` and weights `5/9, 8/9, 5/9`. -/
def Gauss_1_3 {α : Type} [Field α] (r : α) : Integral α :=
  { nweight := 3
    knot := fun i _ => if i = 0 then -r else if i = 1 then 0 else r
    weight := fun i => if i = 1 then 8 / 9 else 5 / 9 }

/-- Modelled from the spec: the tables of `Gauss<1,4>` are defined in
`integral.cc`; by the spec the rule is the four-point Gauss-Legendre rule:
knots `-b, -a, a, b` with `35 a^2 = 15 - 2q`, `35 b^2 = 15 + 2q`, `q^2 = 30`,
and weights `(18 - q)/36` at `∓b`, `(18 + q)/36` at `∓a`. -/
def Gauss_1_4 {α : Type} [Field α] (a b q : α) : Integral α :=
  { nweight := 4
    knot := fun i _ => if i = 0 then -b else if i = 1 then -a else if i = 2 then a else b
    weight := fun i => if i = 0 then (18 - q) / 36 else if i = 1 then (18 + q) / 36
      else if i = 2 then (18 + q) / 36 else (18 - q) / 36 }

/-- Modelled from the spec: the tables of `Gauss<2,N>` are defined in
`integral.cc`; by the spec the rule is the two-fold tensor product of the 1D
rule `g`, point `m` pairing the 1D points `m mod N` and `m div N`. -/
def Gauss_2 {α : Type} [Field α] (g : Integral α) : Integral α :=
  { nweight := g.nweight * g.nweight
    knot := fun m j =>
      if j = 0 then g.knot (m % g.nweight) 0 else g.knot (m / g.nweight) 0
    weight := fun m => g.weight (m % g.nweight) * g.weight (m / g.nweight) }

/-- Modelled from the spec: the tables of `Gauss<3,N>` are defined in
`integral.cc`; by the spec the rule is the three-fold tensor product of the 1D
rule `g`. -/
def Gauss_3 {α : Type} [Field α] (g : Integral α) : Integral α :=
  { nweight := g.nweight * g.nweight * g.nweight
    knot := fun m j =>
      if j = 0 then g.knot (m % (g.nweight * g.nweight) % g.nweight) 0
      else if j = 1 then g.knot (m % (g.nweight * g.nweight) / g.nweight) 0
      else g.knot (m / (g.nweight * g.nweight)) 0
    weight := fun m =>
      g.weight (m % (g.nweight * g.nweight) % g.nweight)
        * g.weight (m % (g.nweight * g.nweight) / g.nweight)
        * g.weight (m / (g.nweight * g.nweight)) }

/-- The integral of the monomial `x^k` over `[-1,1]`: `2/(k+1)` for even `k`,
zero for odd `k`. -/
def monomialIntegral {α : Type} [Field α] (k : Nat) : α :=
  if k % 2 = 0 then 2 / ((k : α) + 1) else 0

/-- The polynomial `∑ c k x^k` of degree at most `d` in one variable. -/
def poly1 {α : Type} [Field α] (d : Nat) (c : Nat → α) (x : α) : α :=
  ∑ k in Finset.range (d + 1), c k * x ^ k

/-- The polynomial `∑ c a b x^a y^b` of degree at most `d` in each of two
variables. -/
def poly2 {α : Type} [Field α] (d : Nat) (c : Nat → Nat → α) (x y : α) : α :=
  ∑ a in Finset.range (d + 1), ∑ b in Finset.range (d + 1), c a b * x ^ a * y ^ b

/-- The polynomial `∑ c a b e x^a y^b z^e` of degree at most `d` in each of
three variables. -/
def poly3 {α : Type} [Field α] (d : Nat) (c : Nat → Nat → Nat → α) (x y z : α) : α :=
  ∑ a in Finset.range (d + 1), ∑ b in Finset.range (d + 1), ∑ e in Finset.range (d + 1),
    c a b e * x ^ a * y ^ b * z ^ e

/-- The integral of `poly1 d c` over `[-1,1]`, term by term. -/
def integral1 {α : Type} [Field α] (d : Nat) (c : Nat → α) : α :=
  ∑ k in Finset.range (d + 1), c k * monomialIntegral k

/-- The integral of `poly2 d c` over the square `[-1,1]^2`, term by term. -/
def integral2 {α : Type} [Field α] (d : Nat) (c : Nat → Nat → α) : α :=
  ∑ a in Finset.range (d + 1), ∑ b in Finset.range (d + 1),
    c a b * monomialIntegral a * monomialIntegral b

/-- The integral of `poly3 d c` over the cube `[-1,1]^3`, term by term. -/
def integral3 {α : Type} [Field α] (d : Nat) (c : Nat → Nat → Nat → α) : α :=
  ∑ a in Finset.range (d + 1), ∑ b in Finset.range (d + 1), ∑ e in Finset.range (d + 1),
    c a b e * monomialIntegral a * monomialIntegral b * monomialIntegral e

/-! ## `Legendre_functions_helper::factorial` -/

namespace Legendre_functions_helper

/-- The function `factorial(l)`: `1.0` when `l == 0`, otherwise the product of
`l`, converted to `double`, with `factorial(l-1)`. -/
def factorial {α : Type} [Field α] (l : Nat) : α :=
  if h : l = 0 then 1 else (l : α) * factorial (l - 1)
termination_by l
decreasing_by omega

/-- The function `factorial(l)` run with a counter: the second component is
the number of calls `factorial` makes to itself before the outermost call
returns. -/
def factorial_calls {α : Type} [Field α] (l : Nat) : α × Nat :=
  if h : l = 0 then (1, 0)
  else
    let r : α × Nat := factorial_calls (l - 1)
    ((l : α) * r.1, r.2 + 1)
termination_by l
decreasing_by omega

end Legendre_functions_helper

/-! ## `unstructured_two_d_fluid.cc`: the inflow boundary condition -/

/-- What the constructor of `UnstructuredFluidProblem` reads from the fluid
mesh when it applies the fluid boundary conditions: the number of boundaries,
the number of nodes on each boundary, the node at each position of a boundary
(nodes are numbered) and the coordinates `x(i)` of each node. -/
structure FluidMesh (α : Type) where
  nboundary : Nat
  nboundary_node : Nat → Nat
  boundary_node_pt : Nat → Nat → Nat
  x : Nat → Nat → α

/-- The locals `y_min`, `y_max` of the constructor of `UnstructuredFluidProblem`. -/
structure InflowBounds (α : Type) where
  y_min : α
  y_max : α

namespace UnstructuredFluidProblem

variable {α : Type} [LinearOrderedField α]

/-- The loop of the constructor that finds the largest and the smallest
`y`-coordinate on boundary `1`, started from `1.0e20` and `-1.0e20`. -/
def inflow_bounds (mesh : FluidMesh α) : InflowBounds α :=
  let ibound := 1
  forLoop (mesh.nboundary_node ibound)
    (fun inod b =>
      let y := mesh.x (mesh.boundary_node_pt ibound inod) 1
      let b1 : InflowBounds α := if y > b.y_max then { b with y_max := y } else b
      if y < b1.y_min then { b1 with y_min := y } else b1)
    { y_min := 1.0e20, y_max := -1.0e20 }

/-- The local `veloc` of the constructor, as an expression in `y_min`,
`y_max`, `y_mid` and the height `y` of the node. -/
def veloc (y_min y_max y_mid y : α) : α :=
  1.5 / (y_max - y_min) * (y - y_min) * (y_max - y) / ((y_mid - y_min) * (y_max - y_mid))

/-- The local `y_mid` of the constructor. -/
def y_mid (b : InflowBounds α) : α := 0.5 * (b.y_min + b.y_max)

/-- The two statements `set_value(0,u); set_value(1,v)` on node `node`;
`value n i` is value `i` stored at node `n`. -/
def set_velocity (value : Nat → Nat → α) (node : Nat) (u v : α) : Nat → Nat → α :=
  setAt2 (setAt2 value node 0 u) node 1 v

/-- The part "Apply fluid boundary conditions" of the constructor of
`UnstructuredFluidProblem`: the bounds of the inflow boundary are found, then
every boundary is visited in turn and the two velocity values of each of its
nodes are set, to the parabolic profile on boundary `1` and to zero elsewhere. -/
def apply_fluid_boundary_conditions (mesh : FluidMesh α) (value : Nat → Nat → α) :
    Nat → Nat → α :=
  let b := inflow_bounds mesh
  let y_min := b.y_min
  let y_max := b.y_max
  let y_mid := y_mid b
  forLoop mesh.nboundary
    (fun ibound value =>
      let num_nod := mesh.nboundary_node ibound
      forLoop num_nod
        (fun inod value =>
          if ibound = 1 then
            let y := mesh.x (mesh.boundary_node_pt ibound inod) 1
            let veloc := veloc y_min y_max y_mid y
            set_velocity value (mesh.boundary_node_pt ibound inod) veloc 0
          else
            set_velocity value (mesh.boundary_node_pt ibound inod) 0 0)
        value)
    value

end UnstructuredFluidProblem

/-- A mesh with three boundaries: boundary `1` carries the nodes `0`, `1`, `2`
at heights `0`, `1/2`, `1`; boundaries `0` and `2` carry the nodes `3` and `4`. -/
def sampleMesh (α : Type) [LinearOrderedField α] : FluidMesh α :=
  { nboundary := 3
    nboundary_node := fun b => if b = 1 then 3 else 1
    boundary_node_pt := fun b i => if b = 1 then i else if b = 0 then 3 else 4
    x := fun n i => if i = 1 then (if n = 0 then 0 else if n = 1 then 1 / 2 else 1) else 0 }

/-! ## Theorems -/

/-! ### Loops -/

section Loops

variable {σ β : Type}

theorem forLoop_succ (n : Nat) (body : Nat → σ → σ) (s : σ) :
    forLoop (n + 1) body s = body n (forLoop n body s) := rfl

theorem forLoop_two (body : Nat → σ → σ) (s : σ) :
    forLoop 2 body s = body 1 (body 0 s) := rfl

/-- A loop whose body adds `δ i` to an observable adds `∑ δ i` to it. -/
theorem forLoop_proj_sum [AddCommMonoid β] (π : σ → β) (n : Nat) (body : Nat → σ → σ)
    (δ : Nat → β) (h : ∀ i, i < n → ∀ s, π (body i s) = π s + δ i) (s : σ) :
    π (forLoop n body s) = π s + ∑ i in Finset.range n, δ i := by
  induction n with
  | zero => simp [forLoop]
  | succ n ih =>
    rw [forLoop_succ, h n (Nat.lt_succ_self n), Finset.sum_range_succ,
      ih (fun i hi => h i (Nat.lt_succ_of_lt hi)), add_assoc]

/-- A loop whose body leaves an observable alone leaves it alone. -/
theorem forLoop_proj_inv (π : σ → β) (n : Nat) (body : Nat → σ → σ)
    (h : ∀ i, i < n → ∀ s, π (body i s) = π s) (s : σ) :
    π (forLoop n body s) = π s := by
  induction n with
  | zero => rfl
  | succ n ih =>
    rw [forLoop_succ, h n (Nat.lt_succ_self n), ih (fun i hi => h i (Nat.lt_succ_of_lt hi))]

theorem addAt_apply {α : Type} [AddMonoid α] (v : Nat → α) (i : Nat) (d : α) (k : Nat) :
    addAt v i d k = v k + (if k = i then d else 0) := by
  unfold addAt
  by_cases h : k = i
  · subst h
    simp
  · simp [Function.update_noteq h, h]

theorem addAt2_apply {α : Type} [AddMonoid α] (m : Nat → Nat → α) (i j : Nat) (d : α)
    (a b : Nat) :
    addAt2 m i j d a b = m a b + (if a = i ∧ b = j then d else 0) := by
  unfold addAt2
  by_cases h : a = i
  · subst h
    by_cases h2 : b = j
    · subst h2
      simp
    · simp [Function.update_noteq h2, h2]
  · simp [Function.update_noteq h, h]

/-- An equation number `e` addresses the index `k`. -/
theorem eqn_index_iff (e : Int) (k : Nat) : (0 ≤ e ∧ k = e.toNat) ↔ e = (k : Int) := by
  constructor
  · rintro ⟨h0, hk⟩
    rw [hk, Int.toNat_of_nonneg h0]
  · intro h
    subst h
    simp

theorem addAt_loop2 {α : Type} [AddCommMonoid α] (v : Nat → α) (e : Nat) (m : α)
    (t : Nat → α) (k : Nat) :
    forLoop 2 (fun j res => addAt res e (t j)) (addAt v e m) k
      = v k + (if k = e then m + ∑ j in Finset.range 2, t j else 0) := by
  simp only [forLoop_two, addAt_apply, Finset.sum_range_succ, Finset.sum_range_zero, zero_add]
  by_cases hk : k = e
  · simp only [if_pos hk, add_assoc]
  · simp only [if_neg hk, add_zero]

theorem addAt2_loop2 {α : Type} [AddCommMonoid α] (jac : Nat → Nat → α) (i j : Nat) (m : α)
    (t : Nat → α) (a b : Nat) :
    forLoop 2 (fun k mm => addAt2 mm i j (t k)) (addAt2 jac i j m) a b
      = jac a b + (if a = i ∧ b = j then m + ∑ k in Finset.range 2, t k else 0) := by
  simp only [forLoop_two, addAt2_apply, Finset.sum_range_succ, Finset.sum_range_zero, zero_add]
  by_cases hk : a = i ∧ b = j
  · simp only [if_pos hk, add_assoc]
  · simp only [if_neg hk, add_zero]

/-- The two guarded Jacobian updates made for one unknown node `l2`. -/
theorem jac_pair_apply {α : Type} [AddCommMonoid α] (jac : Nat → Nat → α) (i : Nat)
    (eA eB : Int) (m1 m2 : α) (t1 t2 : Nat → α) (a b : Nat) :
    (if 0 ≤ eB then
        forLoop 2 (fun k mm => addAt2 mm i eB.toNat (t2 k))
          (addAt2
            (if 0 ≤ eA then
              forLoop 2 (fun k mm => addAt2 mm i eA.toNat (t1 k)) (addAt2 jac i eA.toNat m1)
            else jac) i eB.toNat m2)
      else
        (if 0 ≤ eA then
          forLoop 2 (fun k mm => addAt2 mm i eA.toNat (t1 k)) (addAt2 jac i eA.toNat m1)
        else jac)) a b
      = jac a b
        + (if a = i then
            (if eA = (b : Int) then m1 + ∑ k in Finset.range 2, t1 k else 0)
              + (if eB = (b : Int) then m2 + ∑ k in Finset.range 2, t2 k else 0)
          else 0) := by
  have toNat_iff : ∀ e : Int, 0 ≤ e → (b = e.toNat ↔ e = (b : Int)) := fun e he =>
    ⟨fun hb => (eqn_index_iff _ _).mp ⟨he, hb⟩, fun hc => ((eqn_index_iff _ _).mpr hc).2⟩
  have neg_iff : ∀ e : Int, ¬ 0 ≤ e → ¬ e = (b : Int) := fun e he hc =>
    he ((eqn_index_iff _ _).mpr hc).1
  have hA : (if 0 ≤ eA then
          forLoop 2 (fun k mm => addAt2 mm i eA.toNat (t1 k)) (addAt2 jac i eA.toNat m1)
        else jac) a b
      = jac a b + (if a = i then
          (if eA = (b : Int) then m1 + ∑ k in Finset.range 2, t1 k else 0) else 0) := by
    by_cases h : 0 ≤ eA
    · rw [if_pos h, addAt2_loop2]
      simp only [toNat_iff eA h]
      by_cases ha : a = i <;> by_cases hb : eA = (b : Int) <;>
        simp only [ha, hb, and_self, and_false, false_and, true_and, if_true, if_false]
    · rw [if_neg h]
      simp only [if_neg (neg_iff eA h), ite_self, add_zero]
  by_cases h : 0 ≤ eB
  · rw [if_pos h, addAt2_loop2, hA]
    simp only [toNat_iff eB h]
    by_cases ha : a = i <;> by_cases hb : eB = (b : Int) <;>
      simp only [ha, hb, and_self, and_false, false_and, true_and,
        if_true, if_false, add_zero, add_assoc]
  · rw [if_neg h, hA]
    simp only [if_neg (neg_iff eB h), add_zero]

end Loops

/-! ### Helmholtz assembly: closed forms -/

section HelmholtzClosedForms

variable {α : Type} [Field α]

open HelmholtzElement

theorem helmholtz_real_part_residuals (E : HelmholtzElement α) (flag ipt l : Nat)
    (p : HelmholtzPoint α) (s : Assembly α) (k : Nat) :
    (E.real_part flag ipt l p s).residuals k
      = s.residuals k
        + (if E.nodal_local_eqn l E.u_index_real = (k : Int) then E.resRe ipt l p else 0) := by
  unfold HelmholtzElement.real_part
  by_cases h : 0 ≤ E.nodal_local_eqn l E.u_index_real
  · simp only [h, if_true, forLoop_two, addAt_apply, resRe, Finset.sum_range_succ,
      Finset.sum_range_zero, zero_add]
    by_cases hk : k = (E.nodal_local_eqn l E.u_index_real).toNat
    · have hk2 : E.nodal_local_eqn l E.u_index_real = (k : Int) :=
        (eqn_index_iff _ _).mp ⟨h, hk⟩
      simp only [if_pos hk, if_pos hk2]
      ring
    · have hk2 : ¬ E.nodal_local_eqn l E.u_index_real = (k : Int) := fun h2 =>
        hk ((eqn_index_iff _ _).mpr h2).2
      simp only [if_neg hk, if_neg hk2, add_zero]
  · have hk2 : ¬ E.nodal_local_eqn l E.u_index_real = (k : Int) := fun h2 =>
      h ((eqn_index_iff _ _).mpr h2).1
    simp only [h, if_false, hk2, add_zero]

theorem sum_ite_const {α : Type} [AddCommMonoid α] (c : Prop) [Decidable c] (n : Nat)
    (f : Nat → α) :
    (∑ i in Finset.range n, (if c then f i else 0)) = if c then ∑ i in Finset.range n, f i else 0 := by
  by_cases h : c
  · simp only [if_pos h]
  · simp only [if_neg h, Finset.sum_const_zero]

theorem helmholtz_real_part_jacobian (E : HelmholtzElement α) (flag ipt l : Nat)
    (p : HelmholtzPoint α) (s : Assembly α) (a b : Nat) :
    (E.real_part flag ipt l p s).jacobian a b
      = s.jacobian a b
        + (if flag ≠ 0 then
            (if E.nodal_local_eqn l E.u_index_real = (a : Int) then
              ∑ l2 in Finset.range E.nnode,
                ((if E.nodal_local_eqn l2 E.u_index_real = (b : Int)
                    then E.jacRR ipt l l2 p else 0)
                  + (if E.nodal_local_eqn l2 E.u_index_imag = (b : Int)
                    then E.jacRI ipt l l2 p else 0))
            else 0)
          else 0) := by
  unfold HelmholtzElement.real_part
  by_cases h : 0 ≤ E.nodal_local_eqn l E.u_index_real
  · simp only [h, if_true]
    by_cases hf : flag = 0
    · have hk : ¬ flag ≠ 0 := fun hc => hc hf
      simp only [if_neg hk, add_zero]
    · have hk : flag ≠ 0 := hf
      simp only [if_pos hk]
      rw [forLoop_proj_sum (fun jac : Nat → Nat → α => jac a b) E.nnode _
        (fun l2 => if a = (E.nodal_local_eqn l E.u_index_real).toNat then
          ((if E.nodal_local_eqn l2 E.u_index_real = (b : Int)
              then E.jacRR ipt l l2 p else 0)
            + (if E.nodal_local_eqn l2 E.u_index_imag = (b : Int)
              then E.jacRI ipt l l2 p else 0)) else 0)]
      · rw [sum_ite_const]
        by_cases ha : E.nodal_local_eqn l E.u_index_real = (a : Int)
        · rw [if_pos ha, if_pos ((eqn_index_iff _ _).mpr ha).2]
        · rw [if_neg ha, if_neg (fun hc => ha ((eqn_index_iff _ _).mp ⟨h, hc⟩))]
      · intro l2 _ jac
        exact jac_pair_apply jac _ _ _ _ _ _ _ a b
  · have hk : ¬ E.nodal_local_eqn l E.u_index_real = (a : Int) := fun h2 =>
      h ((eqn_index_iff _ _).mpr h2).1
    simp only [h, if_false, hk, ite_self, add_zero]

theorem helmholtz_imag_part_residuals (E : HelmholtzElement α) (flag ipt l : Nat)
    (p : HelmholtzPoint α) (s : Assembly α) (k : Nat) :
    (E.imag_part flag ipt l p s).residuals k
      = s.residuals k
        + (if E.nodal_local_eqn l E.u_index_imag = (k : Int) then E.resIm ipt l p else 0) := by
  unfold HelmholtzElement.imag_part
  by_cases h : 0 ≤ E.nodal_local_eqn l E.u_index_imag
  · simp only [h, if_true, addAt_loop2]
    by_cases hk : E.nodal_local_eqn l E.u_index_imag = (k : Int)
    · rw [if_pos hk, if_pos ((eqn_index_iff _ _).mpr hk).2]
      rfl
    · rw [if_neg hk, if_neg (fun hc => hk ((eqn_index_iff _ _).mp ⟨h, hc⟩))]
  · have hk2 : ¬ E.nodal_local_eqn l E.u_index_imag = (k : Int) := fun h2 =>
      h ((eqn_index_iff _ _).mpr h2).1
    simp only [h, if_false, hk2, add_zero]

theorem helmholtz_imag_part_jacobian (E : HelmholtzElement α) (flag ipt l : Nat)
    (p : HelmholtzPoint α) (s : Assembly α) (a b : Nat) :
    (E.imag_part flag ipt l p s).jacobian a b
      = s.jacobian a b
        + (if flag ≠ 0 then
            (if E.nodal_local_eqn l E.u_index_imag = (a : Int) then
              ∑ l2 in Finset.range E.nnode,
                ((if E.nodal_local_eqn l2 E.u_index_imag = (b : Int)
                    then E.jacII ipt l l2 p else 0)
                  + (if E.nodal_local_eqn l2 E.u_index_real = (b : Int)
                    then E.jacIR ipt l l2 p else 0))
            else 0)
          else 0) := by
  unfold HelmholtzElement.imag_part
  by_cases h : 0 ≤ E.nodal_local_eqn l E.u_index_imag
  · simp only [h, if_true]
    by_cases hf : flag = 0
    · have hk : ¬ flag ≠ 0 := fun hc => hc hf
      simp only [if_neg hk, add_zero]
    · have hk : flag ≠ 0 := hf
      simp only [if_pos hk]
      rw [forLoop_proj_sum (fun jac : Nat → Nat → α => jac a b) E.nnode _
        (fun l2 => if a = (E.nodal_local_eqn l E.u_index_imag).toNat then
          ((if E.nodal_local_eqn l2 E.u_index_imag = (b : Int)
              then E.jacII ipt l l2 p else 0)
            + (if E.nodal_local_eqn l2 E.u_index_real = (b : Int)
              then E.jacIR ipt l l2 p else 0)) else 0)]
      · rw [sum_ite_const]
        by_cases ha : E.nodal_local_eqn l E.u_index_imag = (a : Int)
        · rw [if_pos ha, if_pos ((eqn_index_iff _ _).mpr ha).2]
        · rw [if_neg ha, if_neg (fun hc => ha ((eqn_index_iff _ _).mp ⟨h, hc⟩))]
      · intro l2 _ jac
        exact jac_pair_apply jac _ _ _ _ _ _ _ a b
  · have hk : ¬ E.nodal_local_eqn l E.u_index_imag = (a : Int) := fun h2 =>
      h ((eqn_index_iff _ _).mpr h2).1
    simp only [h, if_false, hk, ite_self, add_zero]

/-- Closed form of the residual vector returned by the Helmholtz assembler. -/
theorem helmholtz_residuals_closed (E : HelmholtzElement α) (s : Assembly α) (flag k : Nat) :
    (E.fill_in_generic_residual_contribution_generalised_fourier_decomposed_helmholtz
        s flag).residuals k
      = s.residuals k + E.resTotal k := by
  unfold fill_in_generic_residual_contribution_generalised_fourier_decomposed_helmholtz resTotal
  apply forLoop_proj_sum (fun st : Assembly α => st.residuals k)
  intro ipt _ st
  apply forLoop_proj_sum (fun st : Assembly α => st.residuals k)
  intro l _ st2
  simp only [helmholtz_imag_part_residuals, helmholtz_real_part_residuals, add_assoc]

/-- Closed form of the Jacobian returned by the Helmholtz assembler. -/
theorem helmholtz_jacobian_closed (E : HelmholtzElement α) (s : Assembly α) (flag a b : Nat) :
    (E.fill_in_generic_residual_contribution_generalised_fourier_decomposed_helmholtz
        s flag).jacobian a b
      = s.jacobian a b + (if flag ≠ 0 then E.jacTotal a b else 0) := by
  unfold fill_in_generic_residual_contribution_generalised_fourier_decomposed_helmholtz
  by_cases hf : flag = 0
  · have hk : ¬ flag ≠ 0 := fun hc => hc hf
    rw [if_neg hk, add_zero]
    apply forLoop_proj_inv (fun st : Assembly α => st.jacobian a b)
    intro ipt _ st
    apply forLoop_proj_inv (fun st : Assembly α => st.jacobian a b)
    intro l _ st2
    simp only [helmholtz_imag_part_jacobian, helmholtz_real_part_jacobian, if_neg hk, add_zero]
  · have hk : flag ≠ 0 := hf
    rw [if_pos hk]
    unfold jacTotal
    apply forLoop_proj_sum (fun st : Assembly α => st.jacobian a b)
    intro ipt _ st
    apply forLoop_proj_sum (fun st : Assembly α => st.jacobian a b)
    intro l _ st2
    simp only [helmholtz_imag_part_jacobian, helmholtz_real_part_jacobian, if_pos hk, add_assoc]

end HelmholtzClosedForms

/-! ### Helmholtz assembly: interpolation and perturbation of the nodal values -/

section HelmholtzInterpolation

variable {α : Type} [Field α]

open HelmholtzElement

theorem helmholtz_interp_u_real (E : HelmholtzElement α) (ipt : Nat) :
    (E.interpolate ipt).interpolated_u.real
      = ∑ l in Finset.range E.nnode, E.raw_nodal_value l E.u_index_real * E.psi ipt l := by
  unfold HelmholtzElement.interpolate
  rw [forLoop_proj_sum (fun st : HelmholtzInterp α => st.interpolated_u.real) E.nnode _
    (fun l => E.raw_nodal_value l E.u_index_real * E.psi ipt l)]
  · simp only [zero_add]
  · intro l _ st
    rfl

theorem helmholtz_interp_u_imag (E : HelmholtzElement α) (ipt : Nat) :
    (E.interpolate ipt).interpolated_u.imag
      = ∑ l in Finset.range E.nnode, E.raw_nodal_value l E.u_index_imag * E.psi ipt l := by
  unfold HelmholtzElement.interpolate
  rw [forLoop_proj_sum (fun st : HelmholtzInterp α => st.interpolated_u.imag) E.nnode _
    (fun l => E.raw_nodal_value l E.u_index_imag * E.psi ipt l)]
  · simp only [zero_add]
  · intro l _ st
    rfl

theorem helmholtz_interp_x (E : HelmholtzElement α) (ipt j : Nat) :
    (E.interpolate ipt).interpolated_x j
      = ∑ l in Finset.range E.nnode,
          ((if j = 0 then E.raw_nodal_position l 0 * E.psi ipt l else 0)
            + (if j = 1 then E.raw_nodal_position l 1 * E.psi ipt l else 0)) := by
  unfold HelmholtzElement.interpolate
  rw [forLoop_proj_sum (fun st : HelmholtzInterp α => st.interpolated_x j) E.nnode _
    (fun l => (if j = 0 then E.raw_nodal_position l 0 * E.psi ipt l else 0)
            + (if j = 1 then E.raw_nodal_position l 1 * E.psi ipt l else 0))]
  · simp only [zero_add]
  · intro l _ st
    simp only [forLoop_two, addAt_apply, add_assoc]

theorem helmholtz_interp_dudx_real (E : HelmholtzElement α) (ipt k : Nat) (hk : k < 2) :
    ((E.interpolate ipt).interpolated_dudx k).real
      = ∑ l in Finset.range E.nnode, E.raw_nodal_value l E.u_index_real * E.dpsidx ipt l k := by
  unfold HelmholtzElement.interpolate
  rw [forLoop_proj_sum (fun st : HelmholtzInterp α => (st.interpolated_dudx k).real) E.nnode _
    (fun l => E.raw_nodal_value l E.u_index_real * E.dpsidx ipt l k)]
  · simp only [zero_add]
  · intro l _ st
    simp only [forLoop_two]
    interval_cases k
    · simp [Function.update_apply, Cplx.add, Cplx.smul, u_value]
    · simp [Function.update_apply, Cplx.add, Cplx.smul, u_value]

theorem helmholtz_interp_dudx_imag (E : HelmholtzElement α) (ipt k : Nat) (hk : k < 2) :
    ((E.interpolate ipt).interpolated_dudx k).imag
      = ∑ l in Finset.range E.nnode, E.raw_nodal_value l E.u_index_imag * E.dpsidx ipt l k := by
  unfold HelmholtzElement.interpolate
  rw [forLoop_proj_sum (fun st : HelmholtzInterp α => (st.interpolated_dudx k).imag) E.nnode _
    (fun l => E.raw_nodal_value l E.u_index_imag * E.dpsidx ipt l k)]
  · simp only [zero_add]
  · intro l _ st
    simp only [forLoop_two]
    interval_cases k
    · simp [Function.update_apply, Cplx.add, Cplx.smul, u_value]
    · simp [Function.update_apply, Cplx.add, Cplx.smul, u_value]

/-- The interpolated position does not depend on the nodal values. -/
theorem helmholtz_interp_x_perturb (E : HelmholtzElement α) (d : Nat → α) (ipt : Nat) :
    ((E.perturb d).interpolate ipt).interpolated_x = (E.interpolate ipt).interpolated_x := by
  funext j
  rw [helmholtz_interp_x, helmholtz_interp_x]
  rfl

theorem helmholtz_point_perturb_W (E : HelmholtzElement α) (d : Nat → α) (ipt : Nat) :
    ((E.perturb d).point ipt).W = (E.point ipt).W := rfl

theorem helmholtz_point_perturb_r (E : HelmholtzElement α) (d : Nat → α) (ipt : Nat) :
    ((E.perturb d).point ipt).r = (E.point ipt).r := by
  unfold HelmholtzElement.point
  simp only [helmholtz_interp_x_perturb]

theorem helmholtz_point_perturb_expr1 (E : HelmholtzElement α) (d : Nat → α) (ipt : Nat) :
    ((E.perturb d).point ipt).expr1 = (E.point ipt).expr1 := by
  unfold HelmholtzElement.point
  simp only [helmholtz_interp_x_perturb]
  rfl

theorem helmholtz_point_perturb_expr2 (E : HelmholtzElement α) (d : Nat → α) (ipt : Nat) :
    ((E.perturb d).point ipt).expr2 = (E.point ipt).expr2 := by
  unfold HelmholtzElement.point
  simp only [helmholtz_interp_x_perturb]
  rfl

theorem helmholtz_point_perturb_mass (E : HelmholtzElement α) (d : Nat → α) (ipt : Nat) :
    ((E.perturb d).point ipt).pml_mass_weight = (E.point ipt).pml_mass_weight := by
  unfold HelmholtzElement.point
  simp only [helmholtz_interp_x_perturb]
  rfl

theorem helmholtz_point_perturb_stiffness (E : HelmholtzElement α) (d : Nat → α) (ipt : Nat) :
    ((E.perturb d).point ipt).pml_stiffness_weight = (E.point ipt).pml_stiffness_weight := by
  unfold HelmholtzElement.point
  simp only [helmholtz_interp_x_perturb]
  rfl

theorem helmholtz_point_u_real (E : HelmholtzElement α) (ipt : Nat) :
    (E.point ipt).interpolated_u.real
      = ∑ l in Finset.range E.nnode, E.raw_nodal_value l E.u_index_real * E.psi ipt l :=
  helmholtz_interp_u_real E ipt

theorem helmholtz_point_u_imag (E : HelmholtzElement α) (ipt : Nat) :
    (E.point ipt).interpolated_u.imag
      = ∑ l in Finset.range E.nnode, E.raw_nodal_value l E.u_index_imag * E.psi ipt l :=
  helmholtz_interp_u_imag E ipt

theorem helmholtz_point_dudx_real (E : HelmholtzElement α) (ipt k : Nat) (hk : k < 2) :
    ((E.point ipt).interpolated_dudx k).real
      = ∑ l in Finset.range E.nnode, E.raw_nodal_value l E.u_index_real * E.dpsidx ipt l k :=
  helmholtz_interp_dudx_real E ipt k hk

theorem helmholtz_point_dudx_imag (E : HelmholtzElement α) (ipt k : Nat) (hk : k < 2) :
    ((E.point ipt).interpolated_dudx k).imag
      = ∑ l in Finset.range E.nnode, E.raw_nodal_value l E.u_index_imag * E.dpsidx ipt l k :=
  helmholtz_interp_dudx_imag E ipt k hk

/-- A sum over the nodes of perturbed nodal values splits into the unperturbed
sum and the sum of the shifts. -/
theorem helmholtz_perturb_sum (E : HelmholtzElement α) (d : Nat → α) (i : Nat) (g : Nat → α) :
    (∑ l in Finset.range (E.perturb d).nnode, (E.perturb d).raw_nodal_value l i * g l)
      = (∑ l in Finset.range E.nnode, E.raw_nodal_value l i * g l)
        + ∑ l in Finset.range E.nnode, E.nodalShift d l i * g l := by
  rw [← Finset.sum_add_distrib]
  apply Finset.sum_congr rfl
  intro l _
  show (E.raw_nodal_value l i + E.nodalShift d l i) * g l = _
  ring

/-- The real residual contribution is affine in the nodal values, with the
Jacobian contributions as coefficients. -/
theorem helmholtz_resRe_perturb (E : HelmholtzElement α) (d : Nat → α) (ipt l : Nat) :
    E.resRe ipt l ((E.perturb d).point ipt) - E.resRe ipt l (E.point ipt)
      = ∑ l2 in Finset.range E.nnode,
          (E.jacRR ipt l l2 (E.point ipt) * E.nodalShift d l2 E.u_index_real
            + E.jacRI ipt l l2 (E.point ipt) * E.nodalShift d l2 E.u_index_imag) := by
  have h2 : (0 : Nat) < 2 := by decide
  have h3 : (1 : Nat) < 2 := by decide
  have hur := helmholtz_perturb_sum E d E.u_index_real (E.psi ipt)
  have hui := helmholtz_perturb_sum E d E.u_index_imag (E.psi ipt)
  have hr0 := helmholtz_perturb_sum E d E.u_index_real (fun l => E.dpsidx ipt l 0)
  have hr1 := helmholtz_perturb_sum E d E.u_index_real (fun l => E.dpsidx ipt l 1)
  have hi0 := helmholtz_perturb_sum E d E.u_index_imag (fun l => E.dpsidx ipt l 0)
  have hi1 := helmholtz_perturb_sum E d E.u_index_imag (fun l => E.dpsidx ipt l 1)
  have hRHS : (∑ l2 in Finset.range E.nnode,
          (E.jacRR ipt l l2 (E.point ipt) * E.nodalShift d l2 E.u_index_real
            + E.jacRI ipt l l2 (E.point ipt) * E.nodalShift d l2 E.u_index_imag))
      = ((-((E.point ipt).pml_mass_weight.real * (E.point ipt).expr1)
            + ((E.point ipt).pml_mass_weight.imag * (E.point ipt).expr2))
          * E.test ipt l * (E.point ipt).r * (E.point ipt).W)
          * (∑ l2 in Finset.range E.nnode, E.nodalShift d l2 E.u_index_real * E.psi ipt l2)
        + ((((E.point ipt).pml_mass_weight.real * (E.point ipt).expr2)
            + ((E.point ipt).pml_mass_weight.imag * (E.point ipt).expr1))
          * E.test ipt l * (E.point ipt).r * (E.point ipt).W)
          * (∑ l2 in Finset.range E.nnode, E.nodalShift d l2 E.u_index_imag * E.psi ipt l2)
        + (((E.point ipt).pml_stiffness_weight 0).real * E.dtestdx ipt l 0
            * (E.point ipt).r * (E.point ipt).W)
          * (∑ l2 in Finset.range E.nnode, E.nodalShift d l2 E.u_index_real * E.dpsidx ipt l2 0)
        + (((E.point ipt).pml_stiffness_weight 1).real * E.dtestdx ipt l 1
            * (E.point ipt).r * (E.point ipt).W)
          * (∑ l2 in Finset.range E.nnode, E.nodalShift d l2 E.u_index_real * E.dpsidx ipt l2 1)
        + (-((E.point ipt).pml_stiffness_weight 0).imag * E.dtestdx ipt l 0
            * (E.point ipt).r * (E.point ipt).W)
          * (∑ l2 in Finset.range E.nnode, E.nodalShift d l2 E.u_index_imag * E.dpsidx ipt l2 0)
        + (-((E.point ipt).pml_stiffness_weight 1).imag * E.dtestdx ipt l 1
            * (E.point ipt).r * (E.point ipt).W)
          * (∑ l2 in Finset.range E.nnode, E.nodalShift d l2 E.u_index_imag * E.dpsidx ipt l2 1) := by
    simp only [Finset.mul_sum, ← Finset.sum_add_distrib]
    apply Finset.sum_congr rfl
    intro l2 _
    simp only [jacRR, jacRI, Finset.sum_range_succ, Finset.sum_range_zero, zero_add]
    ring
  rw [hRHS]
  simp only [resRe, Finset.sum_range_succ, Finset.sum_range_zero, zero_add,
    helmholtz_point_perturb_W, helmholtz_point_perturb_r, helmholtz_point_perturb_expr1,
    helmholtz_point_perturb_expr2, helmholtz_point_perturb_mass,
    helmholtz_point_perturb_stiffness]
  rw [helmholtz_point_u_real (E.perturb d), helmholtz_point_u_imag (E.perturb d),
    helmholtz_point_dudx_real (E.perturb d) ipt 0 h2,
    helmholtz_point_dudx_real (E.perturb d) ipt 1 h3,
    helmholtz_point_dudx_imag (E.perturb d) ipt 0 h2,
    helmholtz_point_dudx_imag (E.perturb d) ipt 1 h3,
    helmholtz_point_u_real E, helmholtz_point_u_imag E,
    helmholtz_point_dudx_real E ipt 0 h2, helmholtz_point_dudx_real E ipt 1 h3,
    helmholtz_point_dudx_imag E ipt 0 h2, helmholtz_point_dudx_imag E ipt 1 h3]
  have e1 : (E.perturb d).u_index_real = E.u_index_real := rfl
  have e2 : (E.perturb d).u_index_imag = E.u_index_imag := rfl
  have e3 : (E.perturb d).psi = E.psi := rfl
  have e4 : (E.perturb d).dpsidx = E.dpsidx := rfl
  rw [e1, e2, e3, e4]
  rw [hur, hui, hr0, hr1, hi0, hi1]
  ring

/-- The imaginary residual contribution is affine in the nodal values, with
the Jacobian contributions as coefficients. -/
theorem helmholtz_resIm_perturb (E : HelmholtzElement α) (d : Nat → α) (ipt l : Nat) :
    E.resIm ipt l ((E.perturb d).point ipt) - E.resIm ipt l (E.point ipt)
      = ∑ l2 in Finset.range E.nnode,
          (E.jacII ipt l l2 (E.point ipt) * E.nodalShift d l2 E.u_index_imag
            + E.jacIR ipt l l2 (E.point ipt) * E.nodalShift d l2 E.u_index_real) := by
  have h2 : (0 : Nat) < 2 := by decide
  have h3 : (1 : Nat) < 2 := by decide
  have hur := helmholtz_perturb_sum E d E.u_index_real (E.psi ipt)
  have hui := helmholtz_perturb_sum E d E.u_index_imag (E.psi ipt)
  have hr0 := helmholtz_perturb_sum E d E.u_index_real (fun l => E.dpsidx ipt l 0)
  have hr1 := helmholtz_perturb_sum E d E.u_index_real (fun l => E.dpsidx ipt l 1)
  have hi0 := helmholtz_perturb_sum E d E.u_index_imag (fun l => E.dpsidx ipt l 0)
  have hi1 := helmholtz_perturb_sum E d E.u_index_imag (fun l => E.dpsidx ipt l 1)
  have hRHS : (∑ l2 in Finset.range E.nnode,
          (E.jacII ipt l l2 (E.point ipt) * E.nodalShift d l2 E.u_index_imag
            + E.jacIR ipt l l2 (E.point ipt) * E.nodalShift d l2 E.u_index_real))
      = (((-(E.point ipt).pml_mass_weight.real * (E.point ipt).expr1)
            + ((E.point ipt).pml_mass_weight.imag * (E.point ipt).expr2))
          * E.test ipt l * (E.point ipt).r * (E.point ipt).W)
          * (∑ l2 in Finset.range E.nnode, E.nodalShift d l2 E.u_index_imag * E.psi ipt l2)
        + (((-(E.point ipt).pml_mass_weight.real * (E.point ipt).expr2)
            - ((E.point ipt).pml_mass_weight.imag * (E.point ipt).expr1))
          * E.test ipt l * (E.point ipt).r * (E.point ipt).W)
          * (∑ l2 in Finset.range E.nnode, E.nodalShift d l2 E.u_index_real * E.psi ipt l2)
        + (((E.point ipt).pml_stiffness_weight 0).real * E.dtestdx ipt l 0
            * (E.point ipt).r * (E.point ipt).W)
          * (∑ l2 in Finset.range E.nnode, E.nodalShift d l2 E.u_index_imag * E.dpsidx ipt l2 0)
        + (((E.point ipt).pml_stiffness_weight 1).real * E.dtestdx ipt l 1
            * (E.point ipt).r * (E.point ipt).W)
          * (∑ l2 in Finset.range E.nnode, E.nodalShift d l2 E.u_index_imag * E.dpsidx ipt l2 1)
        + (((E.point ipt).pml_stiffness_weight 0).imag * E.dtestdx ipt l 0
            * (E.point ipt).r * (E.point ipt).W)
          * (∑ l2 in Finset.range E.nnode, E.nodalShift d l2 E.u_index_real * E.dpsidx ipt l2 0)
        + (((E.point ipt).pml_stiffness_weight 1).imag * E.dtestdx ipt l 1
            * (E.point ipt).r * (E.point ipt).W)
          * (∑ l2 in Finset.range E.nnode, E.nodalShift d l2 E.u_index_real * E.dpsidx ipt l2 1) := by
    simp only [Finset.mul_sum, ← Finset.sum_add_distrib]
    apply Finset.sum_congr rfl
    intro l2 _
    simp only [jacII, jacIR, Finset.sum_range_succ, Finset.sum_range_zero, zero_add]
    ring
  rw [hRHS]
  simp only [resIm, Finset.sum_range_succ, Finset.sum_range_zero, zero_add,
    helmholtz_point_perturb_W, helmholtz_point_perturb_r, helmholtz_point_perturb_expr1,
    helmholtz_point_perturb_expr2, helmholtz_point_perturb_mass,
    helmholtz_point_perturb_stiffness]
  rw [helmholtz_point_u_real (E.perturb d), helmholtz_point_u_imag (E.perturb d),
    helmholtz_point_dudx_real (E.perturb d) ipt 0 h2,
    helmholtz_point_dudx_real (E.perturb d) ipt 1 h3,
    helmholtz_point_dudx_imag (E.perturb d) ipt 0 h2,
    helmholtz_point_dudx_imag (E.perturb d) ipt 1 h3,
    helmholtz_point_u_real E, helmholtz_point_u_imag E,
    helmholtz_point_dudx_real E ipt 0 h2, helmholtz_point_dudx_real E ipt 1 h3,
    helmholtz_point_dudx_imag E ipt 0 h2, helmholtz_point_dudx_imag E ipt 1 h3]
  have e1 : (E.perturb d).u_index_real = E.u_index_real := rfl
  have e2 : (E.perturb d).u_index_imag = E.u_index_imag := rfl
  have e3 : (E.perturb d).psi = E.psi := rfl
  have e4 : (E.perturb d).dpsidx = E.dpsidx := rfl
  rw [e1, e2, e3, e4]
  rw [hur, hui, hr0, hr1, hi0, hi1]
  ring

/-- Summing an indicator of an equation number against `d` picks the shift of
the addressed nodal value. -/
theorem sum_eqn_indicator {α : Type} [Field α] (e : Int) (N : Nat) (hN : e < (N : Int))
    (c : α) (d : Nat → α) :
    (∑ q in Finset.range N, (if e = (q : Int) then c else 0) * d q)
      = c * (if 0 ≤ e then d e.toNat else 0) := by
  by_cases h : 0 ≤ e
  · rw [if_pos h]
    have hlt : e.toNat < N := by omega
    rw [Finset.sum_eq_single e.toNat]
    · rw [if_pos (Int.toNat_of_nonneg h).symm]
    · intro q _ hq
      have : ¬ e = (q : Int) := fun hc => hq (by omega)
      rw [if_neg this, zero_mul]
    · intro hc
      exact absurd (Finset.mem_range.mpr hlt) hc
  · rw [if_neg h, mul_zero]
    apply Finset.sum_eq_zero
    intro q _
    have : ¬ e = (q : Int) := fun hc => h (by omega)
    rw [if_neg this, zero_mul]

/-- One Jacobian row block applied to `d`: the indicators of the unknowns'
equation numbers turn `d` into the shifts of the nodal values. -/
theorem helmholtz_row_sum (E : HelmholtzElement α) (d : Nat → α) (N i j : Nat)
    (hN : ∀ l, l < E.nnode →
      E.nodal_local_eqn l i < (N : Int) ∧ E.nodal_local_eqn l j < (N : Int))
    (f g : Nat → α) :
    (∑ q in Finset.range N,
        (∑ l2 in Finset.range E.nnode,
          ((if E.nodal_local_eqn l2 i = (q : Int) then f l2 else 0)
            + (if E.nodal_local_eqn l2 j = (q : Int) then g l2 else 0))) * d q)
      = ∑ l2 in Finset.range E.nnode,
          (f l2 * E.nodalShift d l2 i + g l2 * E.nodalShift d l2 j) := by
  simp only [Finset.sum_mul]
  rw [Finset.sum_comm]
  apply Finset.sum_congr rfl
  intro l2 hl2
  have hb := hN l2 (Finset.mem_range.mp hl2)
  simp only [add_mul, Finset.sum_add_distrib]
  rw [sum_eqn_indicator _ N hb.1, sum_eqn_indicator _ N hb.2]
  rfl

/-- The increment of the residual under a perturbation `d` of the unpinned
nodal values is the Jacobian increment applied to `d`. -/
theorem helmholtz_resTotal_perturb (E : HelmholtzElement α) (d : Nat → α) (N : Nat)
    (hN : ∀ l, l < E.nnode →
      E.nodal_local_eqn l E.u_index_real < (N : Int)
        ∧ E.nodal_local_eqn l E.u_index_imag < (N : Int))
    (e : Nat) :
    (E.perturb d).resTotal e - E.resTotal e
      = ∑ q in Finset.range N, E.jacTotal e q * d q := by
  have hN2 : ∀ l, l < E.nnode →
      E.nodal_local_eqn l E.u_index_imag < (N : Int)
        ∧ E.nodal_local_eqn l E.u_index_real < (N : Int) := fun l hl => ⟨(hN l hl).2, (hN l hl).1⟩
  have hL : (E.perturb d).resTotal e
      = ∑ ipt in Finset.range E.nweight, ∑ l in Finset.range E.nnode,
          ((if E.nodal_local_eqn l E.u_index_real = (e : Int)
              then E.resRe ipt l ((E.perturb d).point ipt) else 0)
            + (if E.nodal_local_eqn l E.u_index_imag = (e : Int)
              then E.resIm ipt l ((E.perturb d).point ipt) else 0)) := rfl
  rw [hL]
  unfold resTotal jacTotal
  rw [← Finset.sum_sub_distrib]
  simp only [Finset.sum_mul]
  rw [Finset.sum_comm]
  apply Finset.sum_congr rfl
  intro ipt _
  rw [← Finset.sum_sub_distrib, Finset.sum_comm]
  apply Finset.sum_congr rfl
  intro l _
  by_cases hre : E.nodal_local_eqn l E.u_index_real = (e : Int) <;>
    by_cases him : E.nodal_local_eqn l E.u_index_imag = (e : Int)
  · simp only [if_pos hre, if_pos him]
    rw [Finset.sum_congr rfl (fun q _ => add_mul _ _ (d q)), Finset.sum_add_distrib,
      helmholtz_row_sum E d N _ _ hN, helmholtz_row_sum E d N _ _ hN2,
      ← helmholtz_resRe_perturb, ← helmholtz_resIm_perturb]
    ring
  · simp only [if_pos hre, if_neg him, add_zero]
    rw [helmholtz_row_sum E d N _ _ hN, ← helmholtz_resRe_perturb]
  · simp only [if_neg hre, if_pos him, zero_add]
    rw [helmholtz_row_sum E d N _ _ hN2, ← helmholtz_resIm_perturb]
  · simp only [if_neg hre, if_neg him, add_zero, sub_zero, zero_mul, Finset.sum_const_zero]

end HelmholtzInterpolation

/-! ### Claims on the Helmholtz bulk assembly -/

section HelmholtzClaims

variable {α : Type} [Field α]

open HelmholtzElement

/-- C1: Jacobian/residual consistency of the Helmholtz assembler.  With the
quadrature data fixed and all equation numbers below `N`, moving every unpinned
nodal value by the entry of `d` at its equation number changes residual entry
`e` by exactly `∑ q, J(e,q) * d q`, where `J` is the Jacobian assembled with
`flag = 1` on a zero matrix; in particular moving the single unknown `q` by `t`
changes residual entry `e` by `J(e,q) * t`, so `J(e,q)` is the partial
derivative of residual `e` with respect to unknown `q`. -/
theorem helmholtz_jacobian_consistent (E : HelmholtzElement α) (N : Nat)
    (hN : ∀ l, l < E.nnode →
      E.nodal_local_eqn l E.u_index_real < (N : Int)
        ∧ E.nodal_local_eqn l E.u_index_imag < (N : Int))
    (s : Assembly α) (R0 : Nat → α) (flag e : Nat) :
    (∀ d : Nat → α,
      ((E.perturb d).fill_in_generic_residual_contribution_generalised_fourier_decomposed_helmholtz
            s flag).residuals e
          - (E.fill_in_generic_residual_contribution_generalised_fourier_decomposed_helmholtz
              s flag).residuals e
        = ∑ q in Finset.range N,
            (E.fill_in_generic_residual_contribution_generalised_fourier_decomposed_helmholtz
              ⟨R0, fun _ _ => 0⟩ 1).jacobian e q * d q)
    ∧ (∀ (q : Nat) (t : α), q < N →
      ((E.perturb (fun k => if k = q then t else 0)).fill_in_generic_residual_contribution_generalised_fourier_decomposed_helmholtz
            s flag).residuals e
          - (E.fill_in_generic_residual_contribution_generalised_fourier_decomposed_helmholtz
              s flag).residuals e
        = (E.fill_in_generic_residual_contribution_generalised_fourier_decomposed_helmholtz
              ⟨R0, fun _ _ => 0⟩ 1).jacobian e q * t) := by
  have main : ∀ d : Nat → α,
      ((E.perturb d).fill_in_generic_residual_contribution_generalised_fourier_decomposed_helmholtz
            s flag).residuals e
          - (E.fill_in_generic_residual_contribution_generalised_fourier_decomposed_helmholtz
              s flag).residuals e
        = ∑ q in Finset.range N,
            (E.fill_in_generic_residual_contribution_generalised_fourier_decomposed_helmholtz
              ⟨R0, fun _ _ => 0⟩ 1).jacobian e q * d q := by
    intro d
    simp only [helmholtz_residuals_closed, helmholtz_jacobian_closed]
    rw [add_sub_add_left_eq_sub, helmholtz_resTotal_perturb E d N hN e]
    apply Finset.sum_congr rfl
    intro q _
    simp
  refine ⟨main, ?_⟩
  intro q t hq
  rw [main, Finset.sum_eq_single q]
  · rw [if_pos rfl]
  · intro b _ hb
    rw [if_neg hb, mul_zero]
  · intro hc
    exact absurd (Finset.mem_range.mpr hq) hc

/-- Instance of C1 on the sample element: both equation numbers of every node
lie below `2`. -/
theorem helmholtz_jacobian_consistent_witness :
    (∀ l, l < sampleHelmholtz.nnode →
      sampleHelmholtz.nodal_local_eqn l sampleHelmholtz.u_index_real < ((2 : Nat) : Int)
        ∧ sampleHelmholtz.nodal_local_eqn l sampleHelmholtz.u_index_imag < ((2 : Nat) : Int))
    ∧ ((sampleHelmholtz.perturb (fun k => if k = 0 then 5 else 0)).fill_in_generic_residual_contribution_generalised_fourier_decomposed_helmholtz
            ⟨fun _ => 0, fun _ _ => 0⟩ 1).residuals 0
          - (sampleHelmholtz.fill_in_generic_residual_contribution_generalised_fourier_decomposed_helmholtz
              ⟨fun _ => 0, fun _ _ => 0⟩ 1).residuals 0
        = (sampleHelmholtz.fill_in_generic_residual_contribution_generalised_fourier_decomposed_helmholtz
              ⟨fun _ => 0, fun _ _ => 0⟩ 1).jacobian 0 0 * 5 :=
  ⟨by decide,
   (helmholtz_jacobian_consistent sampleHelmholtz 2 (by decide) ⟨fun _ => 0, fun _ _ => 0⟩
      (fun _ => 0) 1 0).2 0 5 (by decide)⟩

end HelmholtzClaims

/-! ### Flux assembly: closed forms -/

section FluxClosedForms

variable {α : Type} [Field α] [DecidableEq α]

open FluxElement

theorem subAt_apply {β : Type} [AddGroup β] (v : Nat → β) (i : Nat) (d : β) (k : Nat) :
    subAt v i d k = v k + (if k = i then -d else 0) := by
  unfold subAt
  by_cases h : k = i
  · subst h
    simp [sub_eq_add_neg]
  · simp [Function.update_noteq h, h]

theorem flux_node_residuals (E : FluxElement α) (flag l : Nat) (p : FluxPoint α)
    (s : Assembly α) (k : Nat) :
    (E.node flag l p s).residuals k
      = s.residuals k
        + (if E.nodal_local_eqn l E.U_index_adv_diff = (k : Int) then
            -(p.r * (p.beta - p.alpha * p.interpolated_u) * p.testf l * p.W)
          else 0) := by
  unfold FluxElement.node
  by_cases h : 0 ≤ E.nodal_local_eqn l E.U_index_adv_diff
  · simp only [h, if_true, subAt_apply]
    by_cases hk : E.nodal_local_eqn l E.U_index_adv_diff = (k : Int)
    · rw [if_pos hk, if_pos ((eqn_index_iff _ _).mpr hk).2]
    · rw [if_neg hk, if_neg (fun hc => hk ((eqn_index_iff _ _).mp ⟨h, hc⟩))]
  · have hk2 : ¬ E.nodal_local_eqn l E.U_index_adv_diff = (k : Int) := fun h2 =>
      h ((eqn_index_iff _ _).mpr h2).1
    simp only [h, if_false, hk2, add_zero]

theorem flux_unknown_apply {β : Type} [AddCommMonoid β] (jac : Nat → Nat → β) (i : Nat)
    (e : Int) (m : β) (a b : Nat) :
    (if 0 ≤ e then addAt2 jac i e.toNat m else jac) a b
      = jac a b + (if a = i then (if e = (b : Int) then m else 0) else 0) := by
  by_cases h : 0 ≤ e
  · rw [if_pos h, addAt2_apply]
    have hiff : b = e.toNat ↔ e = (b : Int) :=
      ⟨fun hb => (eqn_index_iff _ _).mp ⟨h, hb⟩, fun hc => ((eqn_index_iff _ _).mpr hc).2⟩
    simp only [hiff]
    by_cases ha : a = i <;> by_cases hb : e = (b : Int) <;>
      simp only [ha, hb, and_self, and_false, false_and, true_and, if_true, if_false]
  · rw [if_neg h]
    have : ¬ e = (b : Int) := fun hc => h ((eqn_index_iff _ _).mpr hc).1
    simp only [if_neg this, ite_self, add_zero]

theorem flux_node_jacobian (E : FluxElement α) (flag l : Nat) (p : FluxPoint α)
    (s : Assembly α) (a b : Nat) :
    (E.node flag l p s).jacobian a b
      = s.jacobian a b
        + (if flag ≠ 0 ∧ p.alpha ≠ 0 then
            (if E.nodal_local_eqn l E.U_index_adv_diff = (a : Int) then
              ∑ l2 in Finset.range E.nnode,
                (if E.nodal_local_eqn l2 E.U_index_adv_diff = (b : Int) then
                  p.r * p.alpha * p.psif l2 * p.testf l * p.W
                else 0)
            else 0)
          else 0) := by
  unfold FluxElement.node
  by_cases h : 0 ≤ E.nodal_local_eqn l E.U_index_adv_diff
  · simp only [h, if_true]
    by_cases hf : flag ≠ 0 ∧ p.alpha ≠ 0
    · simp only [if_pos hf]
      rw [forLoop_proj_sum (fun jac : Nat → Nat → α => jac a b) E.nnode _
        (fun l2 => if a = (E.nodal_local_eqn l E.U_index_adv_diff).toNat then
          (if E.nodal_local_eqn l2 E.U_index_adv_diff = (b : Int) then
            p.r * p.alpha * p.psif l2 * p.testf l * p.W else 0) else 0)]
      · rw [sum_ite_const]
        by_cases ha : E.nodal_local_eqn l E.U_index_adv_diff = (a : Int)
        · rw [if_pos ha, if_pos ((eqn_index_iff _ _).mpr ha).2]
        · rw [if_neg ha, if_neg (fun hc => ha ((eqn_index_iff _ _).mp ⟨h, hc⟩))]
      · intro l2 _ jac
        exact flux_unknown_apply jac _ _ _ a b
    · simp only [if_neg hf, add_zero]
  · have hk : ¬ E.nodal_local_eqn l E.U_index_adv_diff = (a : Int) := fun h2 =>
      h ((eqn_index_iff _ _).mpr h2).1
    simp only [h, if_false, hk, ite_self, add_zero]

/-- Closed form of the residual vector returned by the flux assembler. -/
theorem flux_residuals_closed (E : FluxElement α) (s : Assembly α) (flag k : Nat) :
    (E.fill_in_generic_residual_contribution_adv_diff_flux s flag).residuals k
      = s.residuals k + E.resTotal k := by
  unfold fill_in_generic_residual_contribution_adv_diff_flux FluxElement.resTotal
  apply forLoop_proj_sum (fun st : Assembly α => st.residuals k)
  intro ipt _ st
  apply forLoop_proj_sum (fun st : Assembly α => st.residuals k)
  intro l _ st2
  simp only [flux_node_residuals]

/-- Closed form of the Jacobian returned by the flux assembler: the skipped
branch `alpha == 0` would have added zero. -/
theorem flux_jacobian_closed (E : FluxElement α) (s : Assembly α) (flag a b : Nat) :
    (E.fill_in_generic_residual_contribution_adv_diff_flux s flag).jacobian a b
      = s.jacobian a b + (if flag ≠ 0 then E.jacTotal a b else 0) := by
  unfold fill_in_generic_residual_contribution_adv_diff_flux
  by_cases hf : flag = 0
  · have hk : ¬ flag ≠ 0 := fun hc => hc hf
    rw [if_neg hk, add_zero]
    apply forLoop_proj_inv (fun st : Assembly α => st.jacobian a b)
    intro ipt _ st
    apply forLoop_proj_inv (fun st : Assembly α => st.jacobian a b)
    intro l _ st2
    have hk2 : ¬ (flag ≠ 0 ∧ (E.point ipt).alpha ≠ 0) := fun hc => hk hc.1
    simp only [flux_node_jacobian, if_neg hk2, add_zero]
  · have hk : flag ≠ 0 := hf
    rw [if_pos hk]
    unfold FluxElement.jacTotal
    apply forLoop_proj_sum (fun st : Assembly α => st.jacobian a b)
    intro ipt _ st
    apply forLoop_proj_sum (fun st : Assembly α => st.jacobian a b)
    intro l _ st2
    rw [flux_node_jacobian]
    by_cases hal : (E.point ipt).alpha = 0
    · have hk2 : ¬ (flag ≠ 0 ∧ (E.point ipt).alpha ≠ 0) := fun hc => hc.2 hal
      simp only [if_neg hk2, hal, mul_zero, zero_mul, ite_self, Finset.sum_const_zero]
    · have hk2 : flag ≠ 0 ∧ (E.point ipt).alpha ≠ 0 := ⟨hk, hal⟩
      simp only [if_pos hk2]

end FluxClosedForms

/-! ### Flux assembly: interpolation and perturbation of the nodal values -/

section FluxInterpolation

variable {α : Type} [Field α] [DecidableEq α]

open FluxElement

theorem flux_interp_u (E : FluxElement α) (psif : Nat → α) :
    (E.interpolate psif).interpolated_u
      = ∑ l in Finset.range E.nnode, E.raw_nodal_value l E.U_index_adv_diff * psif l := by
  unfold FluxElement.interpolate
  rw [forLoop_proj_sum (fun st : FluxInterp α => st.interpolated_u) E.nnode _
    (fun l => E.raw_nodal_value l E.U_index_adv_diff * psif l)]
  · simp only [zero_add]
  · intro l _ st
    rfl

theorem flux_interp_x (E : FluxElement α) (psif : Nat → α) (j : Nat) :
    (E.interpolate psif).interpolated_x j
      = ∑ l in Finset.range E.nnode,
          ((if j = 0 then E.nodal_position l 0 * psif l else 0)
            + (if j = 1 then E.nodal_position l 1 * psif l else 0)) := by
  unfold FluxElement.interpolate
  rw [forLoop_proj_sum (fun st : FluxInterp α => st.interpolated_x j) E.nnode _
    (fun l => (if j = 0 then E.nodal_position l 0 * psif l else 0)
            + (if j = 1 then E.nodal_position l 1 * psif l else 0))]
  · simp only [zero_add]
  · intro l _ st
    simp only [forLoop_two, addAt_apply, add_assoc]

/-- The interpolated position does not depend on the nodal values. -/
theorem flux_interp_x_perturb (E : FluxElement α) (d : Nat → α) (psif : Nat → α) :
    ((E.perturb d).interpolate psif).interpolated_x = (E.interpolate psif).interpolated_x := by
  funext j
  rw [flux_interp_x, flux_interp_x]
  rfl

theorem flux_shape_perturb (E : FluxElement α) (d : Nat → α) (s : Nat → α) :
    (E.perturb d).shape_and_test s = E.shape_and_test s := rfl

theorem flux_point_perturb_psif (E : FluxElement α) (d : Nat → α) (ipt : Nat) :
    ((E.perturb d).point ipt).psif = (E.point ipt).psif := rfl

theorem flux_point_perturb_testf (E : FluxElement α) (d : Nat → α) (ipt : Nat) :
    ((E.perturb d).point ipt).testf = (E.point ipt).testf := rfl

theorem flux_point_perturb_W (E : FluxElement α) (d : Nat → α) (ipt : Nat) :
    ((E.perturb d).point ipt).W = (E.point ipt).W := rfl

theorem flux_point_perturb_r (E : FluxElement α) (d : Nat → α) (ipt : Nat) :
    ((E.perturb d).point ipt).r = (E.point ipt).r := by
  unfold FluxElement.point
  simp only [flux_shape_perturb, flux_interp_x_perturb]
  rfl

theorem flux_point_perturb_beta (E : FluxElement α) (d : Nat → α) (ipt : Nat) :
    ((E.perturb d).point ipt).beta = (E.point ipt).beta := by
  unfold FluxElement.point
  simp only [flux_shape_perturb, flux_interp_x_perturb]
  rfl

theorem flux_point_perturb_alpha (E : FluxElement α) (d : Nat → α) (ipt : Nat) :
    ((E.perturb d).point ipt).alpha = (E.point ipt).alpha := by
  unfold FluxElement.point
  simp only [flux_shape_perturb, flux_interp_x_perturb]
  rfl

theorem flux_point_u (E : FluxElement α) (ipt : Nat) :
    (E.point ipt).interpolated_u
      = ∑ l in Finset.range E.nnode,
          E.raw_nodal_value l E.U_index_adv_diff * (E.point ipt).psif l :=
  flux_interp_u E _

theorem flux_point_perturb_u (E : FluxElement α) (d : Nat → α) (ipt : Nat) :
    ((E.perturb d).point ipt).interpolated_u
      = (E.point ipt).interpolated_u
        + ∑ l in Finset.range E.nnode,
            E.nodalShift d l E.U_index_adv_diff * (E.point ipt).psif l := by
  rw [flux_point_u (E.perturb d), flux_point_u E, flux_point_perturb_psif,
    ← Finset.sum_add_distrib]
  apply Finset.sum_congr rfl
  intro l _
  show (E.raw_nodal_value l E.U_index_adv_diff + E.nodalShift d l E.U_index_adv_diff) * _ = _
  ring

/-- The increment of the flux residual under a perturbation `d` of the
unpinned nodal values is the Jacobian increment applied to `d`. -/
theorem flux_resTotal_perturb (E : FluxElement α) (d : Nat → α) (N : Nat)
    (hN : ∀ l, l < E.nnode → E.nodal_local_eqn l E.U_index_adv_diff < (N : Int))
    (e : Nat) :
    (E.perturb d).resTotal e - E.resTotal e
      = ∑ q in Finset.range N, E.jacTotal e q * d q := by
  have hL : (E.perturb d).resTotal e
      = ∑ ipt in Finset.range E.nweight, ∑ l in Finset.range E.nnode,
          (if E.nodal_local_eqn l E.U_index_adv_diff = (e : Int) then
            -(((E.perturb d).point ipt).r
                * (((E.perturb d).point ipt).beta
                    - ((E.perturb d).point ipt).alpha * ((E.perturb d).point ipt).interpolated_u)
                * ((E.perturb d).point ipt).testf l * ((E.perturb d).point ipt).W)
          else 0) := rfl
  rw [hL]
  unfold FluxElement.resTotal FluxElement.jacTotal
  rw [← Finset.sum_sub_distrib]
  simp only [Finset.sum_mul]
  rw [Finset.sum_comm]
  apply Finset.sum_congr rfl
  intro ipt _
  rw [← Finset.sum_sub_distrib, Finset.sum_comm]
  apply Finset.sum_congr rfl
  intro l _
  by_cases hre : E.nodal_local_eqn l E.U_index_adv_diff = (e : Int)
  · simp only [if_pos hre, flux_point_perturb_r, flux_point_perturb_beta,
      flux_point_perturb_alpha, flux_point_perturb_testf, flux_point_perturb_W,
      flux_point_perturb_u]
    have hrow : (∑ q in Finset.range N,
        (∑ l2 in Finset.range E.nnode,
          (if E.nodal_local_eqn l2 E.U_index_adv_diff = (q : Int) then
            (E.point ipt).r * (E.point ipt).alpha * (E.point ipt).psif l2
              * (E.point ipt).testf l * (E.point ipt).W
          else 0)) * d q)
        = ∑ l2 in Finset.range E.nnode,
            ((E.point ipt).r * (E.point ipt).alpha * (E.point ipt).psif l2
              * (E.point ipt).testf l * (E.point ipt).W)
              * E.nodalShift d l2 E.U_index_adv_diff := by
      simp only [Finset.sum_mul]
      rw [Finset.sum_comm]
      apply Finset.sum_congr rfl
      intro l2 hl2
      rw [sum_eqn_indicator _ N (hN l2 (Finset.mem_range.mp hl2))]
      rfl
    rw [hrow]
    have hexp : ∀ D : α,
        -((E.point ipt).r * ((E.point ipt).beta
              - (E.point ipt).alpha * ((E.point ipt).interpolated_u + D))
            * (E.point ipt).testf l * (E.point ipt).W)
          - -((E.point ipt).r * ((E.point ipt).beta
              - (E.point ipt).alpha * (E.point ipt).interpolated_u)
            * (E.point ipt).testf l * (E.point ipt).W)
        = ((E.point ipt).r * (E.point ipt).alpha * (E.point ipt).testf l * (E.point ipt).W) * D := by
      intro D
      ring
    rw [hexp, Finset.mul_sum]
    apply Finset.sum_congr rfl
    intro l2 _
    ring
  · simp only [if_neg hre, sub_zero, zero_mul, Finset.sum_const_zero]

end FluxInterpolation

/-! ### Claims on the flux assembly -/

section FluxClaims

variable {α : Type} [Field α] [DecidableEq α]

open FluxElement

/-- With distinct equation numbers at distinct unpinned nodes, the Jacobian
increment at `(local_eqn(l), local_eqn(l2))` is the single quadrature sum. -/
theorem flux_jacTotal_entry (E : FluxElement α)
    (hinj : ∀ l, l < E.nnode → ∀ l', l' < E.nnode →
      0 ≤ E.nodal_local_eqn l E.U_index_adv_diff →
      E.nodal_local_eqn l E.U_index_adv_diff = E.nodal_local_eqn l' E.U_index_adv_diff →
      l = l')
    (l l2 : Nat) (hl : l < E.nnode) (hl2 : l2 < E.nnode)
    (h0 : 0 ≤ E.nodal_local_eqn l E.U_index_adv_diff)
    (h02 : 0 ≤ E.nodal_local_eqn l2 E.U_index_adv_diff) :
    E.jacTotal (E.nodal_local_eqn l E.U_index_adv_diff).toNat
        (E.nodal_local_eqn l2 E.U_index_adv_diff).toNat
      = ∑ ipt in Finset.range E.nweight,
          (E.point ipt).r * (E.point ipt).alpha * (E.point ipt).psif l2
            * (E.point ipt).testf l * (E.point ipt).W := by
  unfold FluxElement.jacTotal
  apply Finset.sum_congr rfl
  intro ipt _
  rw [Finset.sum_eq_single l]
  · rw [if_pos (Int.toNat_of_nonneg h0).symm, Finset.sum_eq_single l2]
    · rw [if_pos (Int.toNat_of_nonneg h02).symm]
    · intro b hb hne
      rw [if_neg]
      intro hc
      rw [Int.toNat_of_nonneg h02] at hc
      exact hne (hinj l2 hl2 b (Finset.mem_range.mp hb) h02 hc.symm).symm
    · intro hc
      exact absurd (Finset.mem_range.mpr hl2) hc
  · intro b hb hne
    rw [if_neg]
    intro hc
    rw [Int.toNat_of_nonneg h0] at hc
    exact hne (hinj l hl b (Finset.mem_range.mp hb) h0 hc.symm).symm
  · intro hc
    exact absurd (Finset.mem_range.mpr hl) hc

/-- C2: Jacobian/residual consistency of the Robin flux element.  With all
equation numbers below `N` and distinct at distinct unpinned nodes, the
Jacobian `J` assembled with `flag = 1` on a zero matrix satisfies: moving the
unpinned nodal values by `d` changes residual entry `e` by `∑ q, J(e,q) * d q`,
and for unpinned nodes `l`, `l2` the entry `J(local_eqn(l), local_eqn(l2))` is
the sum over the integration points of `r*alpha*psi(l2)*test(l)*W`, whatever
the value of `alpha` (zero included). -/
theorem flux_jacobian_consistent (E : FluxElement α) (N : Nat)
    (hN : ∀ l, l < E.nnode → E.nodal_local_eqn l E.U_index_adv_diff < (N : Int))
    (hinj : ∀ l, l < E.nnode → ∀ l', l' < E.nnode →
      0 ≤ E.nodal_local_eqn l E.U_index_adv_diff →
      E.nodal_local_eqn l E.U_index_adv_diff = E.nodal_local_eqn l' E.U_index_adv_diff →
      l = l')
    (s : Assembly α) (R0 : Nat → α) (flag : Nat) :
    (∀ (d : Nat → α) (e : Nat),
      ((E.perturb d).fill_in_generic_residual_contribution_adv_diff_flux s flag).residuals e
          - (E.fill_in_generic_residual_contribution_adv_diff_flux s flag).residuals e
        = ∑ q in Finset.range N,
            (E.fill_in_generic_residual_contribution_adv_diff_flux
              ⟨R0, fun _ _ => 0⟩ 1).jacobian e q * d q)
    ∧ (∀ l l2, l < E.nnode → l2 < E.nnode →
        0 ≤ E.nodal_local_eqn l E.U_index_adv_diff →
        0 ≤ E.nodal_local_eqn l2 E.U_index_adv_diff →
        (E.fill_in_generic_residual_contribution_adv_diff_flux
            ⟨R0, fun _ _ => 0⟩ 1).jacobian
            (E.nodal_local_eqn l E.U_index_adv_diff).toNat
            (E.nodal_local_eqn l2 E.U_index_adv_diff).toNat
          = ∑ ipt in Finset.range E.nweight,
              (E.point ipt).r * (E.point ipt).alpha * (E.point ipt).psif l2
                * (E.point ipt).testf l * (E.point ipt).W) := by
  constructor
  · intro d e
    simp only [flux_residuals_closed, flux_jacobian_closed]
    rw [add_sub_add_left_eq_sub, flux_resTotal_perturb E d N hN e]
    apply Finset.sum_congr rfl
    intro q _
    simp
  · intro l l2 hl hl2 h0 h02
    rw [flux_jacobian_closed, flux_jacTotal_entry E hinj l l2 hl hl2 h0 h02]
    simp

/-- Instance of C2 on the sample flux element, whose only equation number is
`0` at node 1. -/
theorem flux_jacobian_consistent_witness :
    (∀ l, l < sampleFlux.nnode →
        sampleFlux.nodal_local_eqn l sampleFlux.U_index_adv_diff < ((1 : Nat) : Int))
    ∧ (∀ l, l < sampleFlux.nnode → ∀ l', l' < sampleFlux.nnode →
        0 ≤ sampleFlux.nodal_local_eqn l sampleFlux.U_index_adv_diff →
        sampleFlux.nodal_local_eqn l sampleFlux.U_index_adv_diff
          = sampleFlux.nodal_local_eqn l' sampleFlux.U_index_adv_diff →
        l = l')
    ∧ (sampleFlux.fill_in_generic_residual_contribution_adv_diff_flux
            ⟨fun _ => 0, fun _ _ => 0⟩ 1).jacobian
            (sampleFlux.nodal_local_eqn 1 sampleFlux.U_index_adv_diff).toNat
            (sampleFlux.nodal_local_eqn 1 sampleFlux.U_index_adv_diff).toNat
          = ∑ ipt in Finset.range sampleFlux.nweight,
              (sampleFlux.point ipt).r * (sampleFlux.point ipt).alpha
                * (sampleFlux.point ipt).psif 1
                * (sampleFlux.point ipt).testf 1 * (sampleFlux.point ipt).W :=
  ⟨by decide, by decide,
   (flux_jacobian_consistent sampleFlux 1 (by decide) (by decide)
      ⟨fun _ => 0, fun _ _ => 0⟩ (fun _ => 0) 1).2 1 1 (by decide) (by decide)
      (by decide) (by decide)⟩

end FluxClaims

/-! ### Claims shared by the two assemblers -/

section SharedClaims

variable {α : Type} [Field α] [DecidableEq α]

theorem helmholtz_resTotal_frame (E : HelmholtzElement α) (k : Nat)
    (hk : ∀ l, l < E.nnode →
      E.nodal_local_eqn l E.u_index_real ≠ (k : Int)
        ∧ E.nodal_local_eqn l E.u_index_imag ≠ (k : Int)) :
    E.resTotal k = 0 := by
  unfold HelmholtzElement.resTotal
  apply Finset.sum_eq_zero
  intro ipt _
  apply Finset.sum_eq_zero
  intro l hl
  have h := hk l (Finset.mem_range.mp hl)
  rw [if_neg h.1, if_neg h.2, add_zero]

theorem helmholtz_jacTotal_frame_row (E : HelmholtzElement α) (a b : Nat)
    (ha : ∀ l, l < E.nnode →
      E.nodal_local_eqn l E.u_index_real ≠ (a : Int)
        ∧ E.nodal_local_eqn l E.u_index_imag ≠ (a : Int)) :
    E.jacTotal a b = 0 := by
  unfold HelmholtzElement.jacTotal
  apply Finset.sum_eq_zero
  intro ipt _
  apply Finset.sum_eq_zero
  intro l hl
  have h := ha l (Finset.mem_range.mp hl)
  rw [if_neg h.1, if_neg h.2, add_zero]

theorem helmholtz_jacTotal_frame_col (E : HelmholtzElement α) (a b : Nat)
    (hb : ∀ l, l < E.nnode →
      E.nodal_local_eqn l E.u_index_real ≠ (b : Int)
        ∧ E.nodal_local_eqn l E.u_index_imag ≠ (b : Int)) :
    E.jacTotal a b = 0 := by
  unfold HelmholtzElement.jacTotal
  apply Finset.sum_eq_zero
  intro ipt _
  apply Finset.sum_eq_zero
  intro l _
  have inner : ∀ (f g : Nat → α),
      (∑ l2 in Finset.range E.nnode,
        ((if E.nodal_local_eqn l2 E.u_index_real = (b : Int) then f l2 else 0)
          + (if E.nodal_local_eqn l2 E.u_index_imag = (b : Int) then g l2 else 0))) = 0 := by
    intro f g
    apply Finset.sum_eq_zero
    intro l2 hl2
    have h := hb l2 (Finset.mem_range.mp hl2)
    rw [if_neg h.1, if_neg h.2, add_zero]
  have inner2 : ∀ (f g : Nat → α),
      (∑ l2 in Finset.range E.nnode,
        ((if E.nodal_local_eqn l2 E.u_index_imag = (b : Int) then f l2 else 0)
          + (if E.nodal_local_eqn l2 E.u_index_real = (b : Int) then g l2 else 0))) = 0 := by
    intro f g
    apply Finset.sum_eq_zero
    intro l2 hl2
    have h := hb l2 (Finset.mem_range.mp hl2)
    rw [if_neg h.1, if_neg h.2, add_zero]
  rw [inner, inner2]
  simp only [ite_self, add_zero]

theorem flux_resTotal_frame (E : FluxElement α) (k : Nat)
    (hk : ∀ l, l < E.nnode → E.nodal_local_eqn l E.U_index_adv_diff ≠ (k : Int)) :
    E.resTotal k = 0 := by
  unfold FluxElement.resTotal
  apply Finset.sum_eq_zero
  intro ipt _
  apply Finset.sum_eq_zero
  intro l hl
  rw [if_neg (hk l (Finset.mem_range.mp hl))]

theorem flux_jacTotal_frame_row (E : FluxElement α) (a b : Nat)
    (ha : ∀ l, l < E.nnode → E.nodal_local_eqn l E.U_index_adv_diff ≠ (a : Int)) :
    E.jacTotal a b = 0 := by
  unfold FluxElement.jacTotal
  apply Finset.sum_eq_zero
  intro ipt _
  apply Finset.sum_eq_zero
  intro l hl
  rw [if_neg (ha l (Finset.mem_range.mp hl))]

theorem flux_jacTotal_frame_col (E : FluxElement α) (a b : Nat)
    (hb : ∀ l, l < E.nnode → E.nodal_local_eqn l E.U_index_adv_diff ≠ (b : Int)) :
    E.jacTotal a b = 0 := by
  unfold FluxElement.jacTotal
  apply Finset.sum_eq_zero
  intro ipt _
  apply Finset.sum_eq_zero
  intro l _
  have inner : ∀ f : Nat → α,
      (∑ l2 in Finset.range E.nnode,
        (if E.nodal_local_eqn l2 E.U_index_adv_diff = (b : Int) then f l2 else 0)) = 0 := by
    intro f
    apply Finset.sum_eq_zero
    intro l2 hl2
    rw [if_neg (hb l2 (Finset.mem_range.mp hl2))]
  rw [inner]
  simp only [ite_self]

/-- C3: pinned degrees of freedom are never written.  In the Helmholtz bulk
assembly and in the flux assembly, for every flag and every initial content, a
residual entry whose index is not the (non-negative) local equation number of
a node of the element is left unchanged, and a Jacobian entry is left
unchanged unless its row index and its column index both are local equation
numbers of nodes of the element; a negative equation number addresses no
index at all. -/
theorem assembly_frame_pinned (H : HelmholtzElement α) (F : FluxElement α)
    (s : Assembly α) (flag : Nat) :
    (∀ k : Nat,
      (∀ l, l < H.nnode →
        H.nodal_local_eqn l H.u_index_real ≠ (k : Int)
          ∧ H.nodal_local_eqn l H.u_index_imag ≠ (k : Int)) →
      (H.fill_in_generic_residual_contribution_generalised_fourier_decomposed_helmholtz
          s flag).residuals k = s.residuals k)
    ∧ (∀ a b : Nat,
      ((∀ l, l < H.nnode →
          H.nodal_local_eqn l H.u_index_real ≠ (a : Int)
            ∧ H.nodal_local_eqn l H.u_index_imag ≠ (a : Int))
        ∨ (∀ l, l < H.nnode →
          H.nodal_local_eqn l H.u_index_real ≠ (b : Int)
            ∧ H.nodal_local_eqn l H.u_index_imag ≠ (b : Int))) →
      (H.fill_in_generic_residual_contribution_generalised_fourier_decomposed_helmholtz
          s flag).jacobian a b = s.jacobian a b)
    ∧ (∀ k : Nat,
      (∀ l, l < F.nnode → F.nodal_local_eqn l F.U_index_adv_diff ≠ (k : Int)) →
      (F.fill_in_generic_residual_contribution_adv_diff_flux s flag).residuals k
        = s.residuals k)
    ∧ (∀ a b : Nat,
      ((∀ l, l < F.nnode → F.nodal_local_eqn l F.U_index_adv_diff ≠ (a : Int))
        ∨ (∀ l, l < F.nnode → F.nodal_local_eqn l F.U_index_adv_diff ≠ (b : Int))) →
      (F.fill_in_generic_residual_contribution_adv_diff_flux s flag).jacobian a b
        = s.jacobian a b)
    ∧ (∀ (l i k : Nat), H.nodal_local_eqn l i < 0 → H.nodal_local_eqn l i ≠ (k : Int))
    ∧ (∀ (l i k : Nat), F.nodal_local_eqn l i < 0 → F.nodal_local_eqn l i ≠ (k : Int)) := by
  refine ⟨?_, ?_, ?_, ?_, ?_, ?_⟩
  · intro k hk
    rw [helmholtz_residuals_closed, helmholtz_resTotal_frame H k hk, add_zero]
  · intro a b hab
    rw [helmholtz_jacobian_closed]
    rcases hab with ha | hb
    · rw [helmholtz_jacTotal_frame_row H a b ha, ite_self, add_zero]
    · rw [helmholtz_jacTotal_frame_col H a b hb, ite_self, add_zero]
  · intro k hk
    rw [flux_residuals_closed, flux_resTotal_frame F k hk, add_zero]
  · intro a b hab
    rw [flux_jacobian_closed]
    rcases hab with ha | hb
    · rw [flux_jacTotal_frame_row F a b ha, ite_self, add_zero]
    · rw [flux_jacTotal_frame_col F a b hb, ite_self, add_zero]
  · intro l i k h hc
    omega
  · intro l i k h hc
    omega

/-- Instance of C3 on the sample elements: index `5` is no equation number of
the Helmholtz sample, index `3` none of the flux sample, and node 0 of either
is pinned. -/
theorem assembly_frame_pinned_witness :
    (∀ l, l < sampleHelmholtz.nnode →
        sampleHelmholtz.nodal_local_eqn l sampleHelmholtz.u_index_real ≠ ((5 : Nat) : Int)
          ∧ sampleHelmholtz.nodal_local_eqn l sampleHelmholtz.u_index_imag ≠ ((5 : Nat) : Int))
    ∧ (∀ l, l < sampleFlux.nnode →
        sampleFlux.nodal_local_eqn l sampleFlux.U_index_adv_diff ≠ ((3 : Nat) : Int))
    ∧ sampleHelmholtz.nodal_local_eqn 0 0 < 0
    ∧ sampleFlux.nodal_local_eqn 0 0 < 0
    ∧ (sampleHelmholtz.fill_in_generic_residual_contribution_generalised_fourier_decomposed_helmholtz
          ⟨fun _ => 1, fun _ _ => 1⟩ 1).residuals 5 = 1
    ∧ (sampleHelmholtz.fill_in_generic_residual_contribution_generalised_fourier_decomposed_helmholtz
          ⟨fun _ => 1, fun _ _ => 1⟩ 1).jacobian 0 5 = 1
    ∧ (sampleFlux.fill_in_generic_residual_contribution_adv_diff_flux
          ⟨fun _ => 1, fun _ _ => 1⟩ 1).residuals 3 = 1
    ∧ (sampleFlux.fill_in_generic_residual_contribution_adv_diff_flux
          ⟨fun _ => 1, fun _ _ => 1⟩ 1).jacobian 3 0 = 1
    ∧ sampleHelmholtz.nodal_local_eqn 0 0 ≠ ((0 : Nat) : Int)
    ∧ sampleFlux.nodal_local_eqn 0 0 ≠ ((0 : Nat) : Int) :=
  ⟨by decide, by decide, by decide, by decide,
   (assembly_frame_pinned sampleHelmholtz sampleFlux ⟨fun _ => 1, fun _ _ => 1⟩ 1).1 5
      (by decide),
   (assembly_frame_pinned sampleHelmholtz sampleFlux ⟨fun _ => 1, fun _ _ => 1⟩ 1).2.1 0 5
      (Or.inr (by decide)),
   (assembly_frame_pinned sampleHelmholtz sampleFlux ⟨fun _ => 1, fun _ _ => 1⟩ 1).2.2.1 3
      (by decide),
   (assembly_frame_pinned sampleHelmholtz sampleFlux ⟨fun _ => 1, fun _ _ => 1⟩ 1).2.2.2.1 3 0
      (Or.inl (by decide)),
   (assembly_frame_pinned sampleHelmholtz sampleFlux ⟨fun _ => 1, fun _ _ => 1⟩ 1).2.2.2.2.1
      0 0 0 (by decide),
   (assembly_frame_pinned sampleHelmholtz sampleFlux ⟨fun _ => 1, fun _ _ => 1⟩ 1).2.2.2.2.2
      0 0 0 (by decide)⟩

/-- C4: the flag does not change the residual.  For both assemblers and every
initial content, the residual vector obtained with `flag = 0` equals the one
obtained with `flag = 1`, and with `flag = 0` the Jacobian argument is
returned unmodified; the flux wrapper `fill_in_contribution_to_residuals`
(flag 0, dummy matrix) returns the residual of `fill_in_contribution_to_jacobian`. -/
theorem assembly_flag_residual (H : HelmholtzElement α) (F : FluxElement α)
    (s : Assembly α) (Dummy_matrix : Nat → Nat → α) :
    (H.fill_in_generic_residual_contribution_generalised_fourier_decomposed_helmholtz
          s 0).residuals
        = (H.fill_in_generic_residual_contribution_generalised_fourier_decomposed_helmholtz
          s 1).residuals
    ∧ (H.fill_in_generic_residual_contribution_generalised_fourier_decomposed_helmholtz
          s 0).jacobian = s.jacobian
    ∧ (F.fill_in_generic_residual_contribution_adv_diff_flux s 0).residuals
        = (F.fill_in_generic_residual_contribution_adv_diff_flux s 1).residuals
    ∧ (F.fill_in_generic_residual_contribution_adv_diff_flux s 0).jacobian = s.jacobian
    ∧ F.fill_in_contribution_to_residuals s.residuals Dummy_matrix
        = (F.fill_in_contribution_to_jacobian s).residuals := by
  refine ⟨?_, ?_, ?_, ?_, ?_⟩
  · funext k
    rw [helmholtz_residuals_closed, helmholtz_residuals_closed]
  · funext a b
    rw [helmholtz_jacobian_closed]
    simp
  · funext k
    rw [flux_residuals_closed, flux_residuals_closed]
  · funext a b
    rw [flux_jacobian_closed]
    simp
  · funext k
    unfold FluxElement.fill_in_contribution_to_residuals
      FluxElement.fill_in_contribution_to_jacobian
    rw [flux_residuals_closed, flux_residuals_closed]

end SharedClaims

/-! ### Source term, test functions and null callables -/

section Callables

variable {α : Type} [Field α] [DecidableEq α]

/-- The Helmholtz residual does not depend on the source callable: `source`
is fetched at every integration point and never used. -/
theorem helmholtz_residuals_source (E : HelmholtzElement α)
    (src : Nat → (Nat → α) → Cplx α) (s : Assembly α) (flag : Nat) :
    (({ E with get_source := src } : HelmholtzElement α).fill_in_generic_residual_contribution_generalised_fourier_decomposed_helmholtz
          s flag).residuals
      = (E.fill_in_generic_residual_contribution_generalised_fourier_decomposed_helmholtz
          s flag).residuals := by
  funext k
  rw [helmholtz_residuals_closed, helmholtz_residuals_closed]
  rfl

/-- C5 (evaluation at the failing input): on the sample element the factor
`test(1)*r*w*J` at the integration point is `3/2`, the two runs see the source
values `0` and `7 + 7i`, and yet they return the same residual vector, whose
entries 0 and 1 are `9/4` and `-3/4`. -/
theorem helmholtz_source_not_in_residual :
    sampleHelmholtz.test 0 1 * (sampleHelmholtz.point 0).r
        * (sampleHelmholtz.weight 0 * sampleHelmholtz.J 0) = 3 / 2
    ∧ (sampleHelmholtz.point 0).source.real = 0
    ∧ (sampleHelmholtzSource.point 0).source.real = 7
    ∧ (sampleHelmholtz.point 0).source.imag = 0
    ∧ (sampleHelmholtzSource.point 0).source.imag = 7
    ∧ (sampleHelmholtzSource.fill_in_generic_residual_contribution_generalised_fourier_decomposed_helmholtz
          ⟨fun _ => 0, fun _ _ => 0⟩ 0).residuals
        = (sampleHelmholtz.fill_in_generic_residual_contribution_generalised_fourier_decomposed_helmholtz
          ⟨fun _ => 0, fun _ _ => 0⟩ 0).residuals
    ∧ (sampleHelmholtz.fill_in_generic_residual_contribution_generalised_fourier_decomposed_helmholtz
          ⟨fun _ => 0, fun _ _ => 0⟩ 0).residuals 0 = 9 / 4
    ∧ (sampleHelmholtz.fill_in_generic_residual_contribution_generalised_fourier_decomposed_helmholtz
          ⟨fun _ => 0, fun _ _ => 0⟩ 0).residuals 1 = -(3 / 4) := by
  have hr : (sampleHelmholtz.point 0).r = 3 / 2 := by
    show (sampleHelmholtz.interpolate 0).interpolated_x 0 = 3 / 2
    rw [helmholtz_interp_x]
    simp [sampleHelmholtz, Finset.sum_range_succ]
    norm_num
  refine ⟨?_, rfl, rfl, rfl, rfl, helmholtz_residuals_source sampleHelmholtz _ _ 0, ?_, ?_⟩
  · rw [hr]
    simp only [sampleHelmholtz]
    norm_num
  · rw [helmholtz_residuals_closed]
    simp [HelmholtzElement.resTotal, HelmholtzElement.resRe, HelmholtzElement.resIm,
      Finset.sum_range_succ, sampleHelmholtz, helmholtz_point_u_real, helmholtz_point_u_imag,
      helmholtz_point_dudx_real, helmholtz_point_dudx_imag]
    simp [HelmholtzElement.point, helmholtz_interp_x, Finset.sum_range_succ, Cplx.mul,
      Cplx.recip]
    norm_num
  · rw [helmholtz_residuals_closed]
    simp [HelmholtzElement.resTotal, HelmholtzElement.resRe, HelmholtzElement.resIm,
      Finset.sum_range_succ, sampleHelmholtz, helmholtz_point_u_real, helmholtz_point_u_imag,
      helmholtz_point_dudx_real, helmholtz_point_dudx_imag]
    simp [HelmholtzElement.point, helmholtz_interp_x, Finset.sum_range_succ, Cplx.mul,
      Cplx.recip]
    norm_num

/-- The first `NNODE_1D` test functions are set to the shape functions. -/
theorem dshape_and_dtest_test_low {β : Type} (E : QSteadyAxisymAdvectionDiffusionElement β)
    (s : Nat → β) (test : Nat → β) (dtestdx : Nat → Nat → β) (i : Nat)
    (hi : i < E.NNODE_1D) :
    (E.dshape_and_dtest_eulerian_adv_diff s test dtestdx).test i
      = (E.dshape_and_dtest_eulerian_adv_diff s test dtestdx).psi i := by
  unfold QSteadyAxisymAdvectionDiffusionElement.dshape_and_dtest_eulerian_adv_diff
  simp only []
  generalize E.NNODE_1D = n at hi
  induction n with
  | zero => exact absurd hi (Nat.not_lt_zero i)
  | succ n ih =>
    rw [forLoop_succ]
    by_cases h : i = n
    · subst h
      simp
    · have hlt : i < n := by omega
      simp only [Function.update_noteq h]
      exact ih hlt

/-- The test functions of the nodes from `NNODE_1D` on are not written: they
keep the content the argument had on entry. -/
theorem dshape_and_dtest_test_high {β : Type} (E : QSteadyAxisymAdvectionDiffusionElement β)
    (s : Nat → β) (test : Nat → β) (dtestdx : Nat → Nat → β) (i : Nat)
    (hi : E.NNODE_1D ≤ i) :
    (E.dshape_and_dtest_eulerian_adv_diff s test dtestdx).test i = test i := by
  unfold QSteadyAxisymAdvectionDiffusionElement.dshape_and_dtest_eulerian_adv_diff
  simp only []
  generalize E.NNODE_1D = n at hi
  induction n with
  | zero => rfl
  | succ n ih =>
    rw [forLoop_succ]
    have h : i ≠ n := by omega
    simp only [Function.update_noteq h]
    exact ih (by omega)

/-- C6 (evaluation at the failing input): for the four-node sample element
(`NNODE_1D = 2`) and zero-initialised `test`, `dtestdx`, node 2 is a node of the
element, `psi[2] = 1/4` and `dpsidx(2,1) = 1/2`, but after
`dshape_and_dtest_eulerian_adv_diff` the entries `test[2]` and `dtestdx(2,1)`
are still `0`, while the at-knot variant returns `test[2] = 1/4` and
`dtestdx(2,1) = 1/2`. -/
theorem dshape_and_dtest_misses_nodes :
    2 < sampleQuad.nnode
    ∧ (sampleQuad.dshape_and_dtest_eulerian_adv_diff (fun _ => 0) (fun _ => 0)
          (fun _ _ => 0)).psi 2 = 1 / 4
    ∧ (sampleQuad.dshape_and_dtest_eulerian_adv_diff (fun _ => 0) (fun _ => 0)
          (fun _ _ => 0)).test 2 = 0
    ∧ (sampleQuad.dshape_and_dtest_eulerian_adv_diff (fun _ => 0) (fun _ => 0)
          (fun _ _ => 0)).dpsidx 2 1 = 1 / 2
    ∧ (sampleQuad.dshape_and_dtest_eulerian_adv_diff (fun _ => 0) (fun _ => 0)
          (fun _ _ => 0)).dtestdx 2 1 = 0
    ∧ (sampleQuad.dshape_and_dtest_eulerian_at_knot_adv_diff 0).test 2 = 1 / 4
    ∧ (sampleQuad.dshape_and_dtest_eulerian_at_knot_adv_diff 0).dtestdx 2 1 = 1 / 2
    ∧ (sampleQuad.dshape_and_dtest_eulerian_adv_diff (fun _ => 0) (fun _ => 0)
          (fun _ _ => 0)).test 2
        ≠ (sampleQuad.dshape_and_dtest_eulerian_adv_diff (fun _ => 0) (fun _ => 0)
          (fun _ _ => 0)).psi 2 := by
  refine ⟨by decide, rfl, rfl, rfl, rfl, rfl, rfl, ?_⟩
  show (0 : ℚ) ≠ 1 / 4
  norm_num

/-- C7: a null physics callable contributes zero in the bulk element.  With
`Source_fct_pt` null, `get_source_axisym_adv_diff` returns `0` for every
integration point and position; with `Wind_fct_pt` null,
`get_wind_axisym_adv_diff` sets both wind components to `0` for every `ipt`,
`s` and `x`; with a callable set, each returns exactly what the callable
returns at `x`. -/
theorem bulk_null_callable_zero {β : Type} [Zero β]
    (E : SteadyAxisymAdvectionDiffusionEquations β) (ipt : Nat) (s x : Nat → β)
    (source : β) (wind : Nat → β) (f : (Nat → β) → β → β)
    (g : (Nat → β) → (Nat → β) → (Nat → β)) :
    ({ E with Source_fct_pt := none }
        : SteadyAxisymAdvectionDiffusionEquations β).get_source_axisym_adv_diff ipt x source = 0
    ∧ ({ E with Wind_fct_pt := none }
        : SteadyAxisymAdvectionDiffusionEquations β).get_wind_axisym_adv_diff ipt s x wind 0 = 0
    ∧ ({ E with Wind_fct_pt := none }
        : SteadyAxisymAdvectionDiffusionEquations β).get_wind_axisym_adv_diff ipt s x wind 1 = 0
    ∧ ({ E with Source_fct_pt := some f }
        : SteadyAxisymAdvectionDiffusionEquations β).get_source_axisym_adv_diff ipt x source
        = f x source
    ∧ ({ E with Wind_fct_pt := some g }
        : SteadyAxisymAdvectionDiffusionEquations β).get_wind_axisym_adv_diff ipt s x wind
        = g x wind :=
  ⟨rfl, rfl, rfl, rfl, rfl⟩

/-- C8: a flux element with null `Beta_fct_pt` and null `Alpha_fct_pt`
contributes nothing: for every nodal state, geometry, flag and initial content,
`fill_in_generic_residual_contribution_adv_diff_flux` returns the residual
vector and the Jacobian it was given. -/
theorem flux_null_callables_no_contribution (E : FluxElement α) (s : Assembly α)
    (flag : Nat) :
    (({ E with Beta_fct_pt := none, Alpha_fct_pt := none }
        : FluxElement α).fill_in_generic_residual_contribution_adv_diff_flux s flag).residuals
      = s.residuals
    ∧ (({ E with Beta_fct_pt := none, Alpha_fct_pt := none }
        : FluxElement α).fill_in_generic_residual_contribution_adv_diff_flux s flag).jacobian
      = s.jacobian := by
  have hb : ∀ ipt, (({ E with Beta_fct_pt := none, Alpha_fct_pt := none }
      : FluxElement α).point ipt).beta = 0 := fun _ => rfl
  have ha : ∀ ipt, (({ E with Beta_fct_pt := none, Alpha_fct_pt := none }
      : FluxElement α).point ipt).alpha = 0 := fun _ => rfl
  constructor
  · funext k
    rw [flux_residuals_closed]
    unfold FluxElement.resTotal
    simp only [hb, ha, zero_mul, mul_zero, sub_zero, neg_zero, ite_self,
      Finset.sum_const_zero, add_zero]
  · funext a b
    rw [flux_jacobian_closed]
    unfold FluxElement.jacTotal
    simp only [ha, zero_mul, mul_zero, ite_self, Finset.sum_const_zero, add_zero]

end Callables

/-! ### Gauss-Lobatto-Legendre rules -/

section GaussLobattoLegendreRules

variable {α : Type}

open GaussLobattoLegendre

theorem setAt2_apply (K : Nat → Nat → α) (i j : Nat) (v : α) (a b : Nat) :
    setAt2 K i j v a b = if a = i ∧ b = j then v else K a b := by
  unfold setAt2
  by_cases h : a = i
  · subst h
    by_cases h2 : b = j
    · subst h2
      simp
    · simp [Function.update_noteq h2, h2]
  · simp [Function.update_noteq h, h]

/-- After the counter adjustment the two counters are the remainder and the
quotient of the number of passes made so far. -/
theorem gll2_wrap_spec [Mul α] (N n : Nat) (hN : 0 < N) (st : GLL2State α)
    (hsum : st.i_slow * N + st.i_fast = n) (hle : st.i_fast ≤ N) :
    (wrap N st).i_fast = n % N ∧ (wrap N st).i_slow = n / N
      ∧ (wrap N st).Knot = st.Knot ∧ (wrap N st).Weight = st.Weight := by
  unfold GaussLobattoLegendre.wrap
  by_cases h : st.i_fast = N
  · rw [if_pos h]
    have hn : n = N * (st.i_slow + 1) := by
      rw [← hsum, h]
      ring
    refine ⟨?_, ?_, rfl, rfl⟩
    · show 0 = n % N
      rw [hn, Nat.mul_mod_right]
    · show st.i_slow + 1 = n / N
      rw [hn, Nat.mul_div_cancel_left _ hN]
  · rw [if_neg h]
    have hlt : st.i_fast < N := lt_of_le_of_ne hle h
    have hn : n = st.i_fast + N * st.i_slow := by
      rw [← hsum]
      ring
    refine ⟨?_, ?_, rfl, rfl⟩
    · rw [hn, Nat.add_mul_mod_self_left, Nat.mod_eq_of_lt hlt]
    · rw [hn, Nat.add_mul_div_left _ _ hN, Nat.div_eq_of_lt hlt, Nat.zero_add]

/-- Loop invariant of the constructor of `GaussLobattoLegendre<2,NPTS_1D>`. -/
theorem gll2_invariant [Mul α] (N : Nat) (s w : Nat → α) (K0 : Nat → Nat → α)
    (W0 : Nat → α) (n : Nat) (hn : n ≤ N * N) :
    (run2 N s w K0 W0 n).i_slow * N + (run2 N s w K0 W0 n).i_fast = n
      ∧ (run2 N s w K0 W0 n).i_fast ≤ N
      ∧ (∀ i, i < n →
          (run2 N s w K0 W0 n).Knot i 0 = s (i % N)
            ∧ (run2 N s w K0 W0 n).Knot i 1 = s (i / N)
            ∧ (run2 N s w K0 W0 n).Weight i = w (i % N) * w (i / N)) := by
  induction n with
  | zero =>
    refine ⟨?_, ?_, ?_⟩
    · show 0 * N + 0 = 0
      simp
    · exact Nat.zero_le N
    · intro i hi
      exact absurd hi (Nat.not_lt_zero i)
  | succ n ih =>
    have hlt : n < N * N := hn
    have hN : 0 < N := by
      rcases Nat.eq_zero_or_pos N with h0 | hp
      · subst h0
        simp at hlt
      · exact hp
    obtain ⟨hsum, hle, htab⟩ := ih (Nat.le_of_lt hlt)
    obtain ⟨hf, hs, hK, hW⟩ := gll2_wrap_spec N n hN (run2 N s w K0 W0 n) hsum hle
    have hstep : run2 N s w K0 W0 (n + 1) = body2 N s w n (run2 N s w K0 W0 n) := rfl
    have hmod : n % N < N := Nat.mod_lt n hN
    rw [hstep]
    unfold GaussLobattoLegendre.body2
    simp only [hf, hs, hK, hW]
    refine ⟨?_, ?_, ?_⟩
    · have := Nat.div_add_mod n N
      have h2 : n / N * N = N * (n / N) := Nat.mul_comm _ _
      omega
    · omega
    · intro i hi
      by_cases hin : i = n
      · subst hin
        simp [setAt2_apply]
      · have hi' : i < n := by omega
        obtain ⟨h0, h1, h2⟩ := htab i hi'
        simp only [setAt2_apply, hin, false_and, if_false, Function.update_noteq hin]
        exact ⟨h0, h1, h2⟩

/-- C11: the 2D Gauss-Lobatto-Legendre table is the tensor product of the 1D
rule.  For every `NPTS_1D`, 1D knots `s` and weights `w` and any initial
content of the arrays, `nweight() = NPTS_1D^2`, and for every `i < NPTS_1D^2`:
`knot(i,0) = s[i mod NPTS_1D]`, `knot(i,1) = s[i div NPTS_1D]`,
`weight(i) = w[i mod NPTS_1D] * w[i div NPTS_1D]`, and the counters
`(i_fast, i_slow)` used in pass `i` are `(i mod NPTS_1D, i div NPTS_1D)`, both
below `NPTS_1D`. -/
theorem gll2_tensor_product [Mul α] (NPTS_1D : Nat) (s w : Nat → α)
    (Knot : Nat → Nat → α) (Weight : Nat → α) :
    (construct2 NPTS_1D s w Knot Weight).nweight = NPTS_1D ^ 2
    ∧ (∀ i, i < NPTS_1D ^ 2 →
        (construct2 NPTS_1D s w Knot Weight).knot i 0 = s (i % NPTS_1D)
        ∧ (construct2 NPTS_1D s w Knot Weight).knot i 1 = s (i / NPTS_1D)
        ∧ (construct2 NPTS_1D s w Knot Weight).weight i
            = w (i % NPTS_1D) * w (i / NPTS_1D)
        ∧ indices2 NPTS_1D s w Knot Weight i = (i % NPTS_1D, i / NPTS_1D)
        ∧ (indices2 NPTS_1D s w Knot Weight i).1 < NPTS_1D
        ∧ (indices2 NPTS_1D s w Knot Weight i).2 < NPTS_1D) := by
  have hsq : NPTS_1D ^ 2 = NPTS_1D * NPTS_1D := by ring
  refine ⟨hsq.symm, ?_⟩
  intro i hi
  rw [hsq] at hi
  have hN : 0 < NPTS_1D := by
    rcases Nat.eq_zero_or_pos NPTS_1D with h0 | hp
    · subst h0
      simp at hi
    · exact hp
  obtain ⟨-, -, htab⟩ := gll2_invariant NPTS_1D s w Knot Weight (NPTS_1D * NPTS_1D) le_rfl
  obtain ⟨h0, h1, h2⟩ := htab i hi
  obtain ⟨hsum, hle, -⟩ := gll2_invariant NPTS_1D s w Knot Weight i (Nat.le_of_lt hi)
  obtain ⟨hf, hs, -, -⟩ :=
    gll2_wrap_spec NPTS_1D i hN (run2 NPTS_1D s w Knot Weight i) hsum hle
  have hidx : indices2 NPTS_1D s w Knot Weight i = (i % NPTS_1D, i / NPTS_1D) := by
    unfold GaussLobattoLegendre.indices2
    rw [hf, hs]
  refine ⟨h0, h1, h2, hidx, ?_, ?_⟩
  · rw [hidx]
    exact Nat.mod_lt i hN
  · rw [hidx]
    exact (Nat.div_lt_iff_lt_mul hN).mpr hi

/-- Instance of C11 for three points per direction and the 1D rule with knots
`-1, 0, 1`: entry `5 < 3^2` of the table is the pair of knots `(s[2], s[1])`. -/
theorem gll2_tensor_product_witness :
    5 < 3 ^ 2
    ∧ (construct2 3 (fun i => threePointRule.knot i 0) threePointRule.weight
          (fun _ _ => 0) (fun _ => 0)).knot 5 0 = threePointRule.knot (5 % 3) 0
    ∧ (construct2 3 (fun i => threePointRule.knot i 0) threePointRule.weight
          (fun _ _ => 0) (fun _ => 0)).knot 5 1 = threePointRule.knot (5 / 3) 0 :=
  ⟨by decide,
   ((gll2_tensor_product 3 (fun i => threePointRule.knot i 0) threePointRule.weight
      (fun _ _ => 0) (fun _ => 0)).2 5 (by decide)).1,
   ((gll2_tensor_product 3 (fun i => threePointRule.knot i 0) threePointRule.weight
      (fun _ _ => 0) (fun _ => 0)).2 5 (by decide)).2.1⟩

/-- A loop whose pass `j` overwrites the block `[b + L*j, b + L*j + L)` of an
array overwrites the block `[b, b + L*n)` and leaves the rest alone. -/
theorem forLoop_block_write {σ β : Type} (read : σ → Nat → β) (body : Nat → σ → σ)
    (b L n : Nat) (base : Nat → Nat) (F : Nat → Nat → β)
    (hb : ∀ j, base j = b + L * j)
    (h : ∀ j, j < n → ∀ T m,
      read (body j T) m
        = if base j ≤ m ∧ m < base j + L then F j (m - base j) else read T m)
    (T : σ) (m : Nat) :
    read (forLoop n body T) m
      = if b ≤ m ∧ m < b + L * n then F ((m - b) / L) ((m - b) % L) else read T m := by
  induction n with
  | zero =>
    have : ¬ (b ≤ m ∧ m < b + L * 0) := by
      intro hc
      omega
    rw [if_neg this]
    rfl
  | succ n ih =>
    rw [forLoop_succ, h n (Nat.lt_succ_self n), ih (fun j hj => h j (Nat.lt_succ_of_lt hj)),
      hb n]
    have hmul : L * (n + 1) = L * n + L := Nat.mul_succ L n
    by_cases hin : b + L * n ≤ m ∧ m < b + L * n + L
    · have hL : 0 < L := by omega
      have hlt : m - (b + L * n) < L := by omega
      have hm : m - b = L * n + (m - (b + L * n)) := by omega
      have hdiv : (m - b) / L = n := by
        rw [hm, Nat.mul_add_div hL, Nat.div_eq_of_lt hlt, Nat.add_zero]
      have hmod : (m - b) % L = m - (b + L * n) := by
        rw [hm, Nat.mul_add_mod, Nat.mod_eq_of_lt hlt]
      have hout : b ≤ m ∧ m < b + L * (n + 1) := by omega
      rw [if_pos hin, if_pos hout, hdiv, hmod]
    · rw [if_neg hin]
      by_cases hprev : b ≤ m ∧ m < b + L * n
      · have hout : b ≤ m ∧ m < b + L * (n + 1) := by omega
        rw [if_pos hprev, if_pos hout]
      · have hout : ¬ (b ≤ m ∧ m < b + L * (n + 1)) := by omega
        rw [if_neg hprev, if_neg hout]

/-- Summing over a range of length `L*n` block by block. -/
theorem sum_range_blocks {β : Type} [AddCommMonoid β] (L n : Nat) (G : Nat → Nat → β) :
    (∑ m in Finset.range (L * n), G (m / L) (m % L))
      = ∑ j in Finset.range n, ∑ d in Finset.range L, G j d := by
  induction n with
  | zero => simp
  | succ n ih =>
    rw [Nat.mul_succ, Finset.sum_range_add, ih, Finset.sum_range_succ]
    congr 1
    apply Finset.sum_congr rfl
    intro d hd
    have hlt : d < L := Finset.mem_range.mp hd
    have hL : 0 < L := by omega
    rw [Nat.mul_add_div hL, Nat.mul_add_mod, Nat.div_eq_of_lt hlt, Nat.mod_eq_of_lt hlt,
      Nat.add_zero]

/-- The four values a pass of the innermost 3D loop stores at its index. -/
theorem gll3_body_read [Mul α] (N : Nat) (s w : Nat → α) (k j i : Nat) (T : GLLTable α)
    (m : Nat) :
    ((body3 N s w k j i T).Knot m 0, (body3 N s w k j i T).Knot m 1,
        (body3 N s w k j i T).Knot m 2, (body3 N s w k j i T).Weight m)
      = if m = index3 N k j i then (s i, s j, s k, w i * w j * w k)
        else (T.Knot m 0, T.Knot m 1, T.Knot m 2, T.Weight m) := by
  unfold GaussLobattoLegendre.body3
  by_cases h : m = index3 N k j i
  · subst h
    simp [setAt2_apply]
  · simp [setAt2_apply, h, Function.update_noteq h]

/-- The index is decoded by division and remainder. -/
theorem gll3_index_decode (N k j i : Nat) (hi : i < N) (hj : j < N) :
    index3 N k j i / (N * N) = k
      ∧ (index3 N k j i % (N * N)) / N = j
      ∧ (index3 N k j i % (N * N)) % N = i
      ∧ N * j + i < N * N := by
  have hN : 0 < N := by omega
  have hNN : 0 < N * N := Nat.mul_pos hN hN
  have hr : N * j + i < N * N := by
    have h1 : N * (j + 1) ≤ N * N := Nat.mul_le_mul_left N hj
    have h2 : N * (j + 1) = N * j + N := Nat.mul_succ N j
    omega
  have hidx : index3 N k j i = N * N * k + (N * j + i) := by
    unfold GaussLobattoLegendre.index3
    omega
  refine ⟨?_, ?_, ?_, hr⟩
  · rw [hidx, Nat.mul_add_div hNN, Nat.div_eq_of_lt hr, Nat.add_zero]
  · rw [hidx, Nat.mul_add_mod, Nat.mod_eq_of_lt hr, Nat.mul_add_div hN,
      Nat.div_eq_of_lt hi, Nat.add_zero]
  · rw [hidx, Nat.mul_add_mod, Nat.mod_eq_of_lt hr, Nat.mul_add_mod, Nat.mod_eq_of_lt hi]

/-- Closed form of the table built by the three nested loops. -/
theorem gll3_run_read [Mul α] (N : Nat) (s w : Nat → α) (T : GLLTable α) (m : Nat) :
    ((run3 N s w T).Knot m 0, (run3 N s w T).Knot m 1, (run3 N s w T).Knot m 2,
        (run3 N s w T).Weight m)
      = if m < N * N * N then
          (s (m % (N * N) % N), s (m % (N * N) / N), s (m / (N * N)),
            w (m % (N * N) % N) * w (m % (N * N) / N) * w (m / (N * N)))
        else (T.Knot m 0, T.Knot m 1, T.Knot m 2, T.Weight m) := by
  have inner : ∀ (k j : Nat) (T2 : GLLTable α) (m2 : Nat),
      ((forLoop N (fun i T => body3 N s w k j i T) T2).Knot m2 0,
          (forLoop N (fun i T => body3 N s w k j i T) T2).Knot m2 1,
          (forLoop N (fun i T => body3 N s w k j i T) T2).Knot m2 2,
          (forLoop N (fun i T => body3 N s w k j i T) T2).Weight m2)
        = if N * N * k + N * j ≤ m2 ∧ m2 < N * N * k + N * j + N then
            (s (m2 - (N * N * k + N * j)), s j, s k,
              w (m2 - (N * N * k + N * j)) * w j * w k)
          else (T2.Knot m2 0, T2.Knot m2 1, T2.Knot m2 2, T2.Weight m2) := by
    intro k j T2 m2
    have key := forLoop_block_write
      (fun (T : GLLTable α) m => (T.Knot m 0, T.Knot m 1, T.Knot m 2, T.Weight m))
      (fun i T => body3 N s w k j i T)
      (N * N * k + N * j) 1 N (fun i => N * N * k + N * j + i)
      (fun i _ => (s i, s j, s k, w i * w j * w k))
      (fun i => by rw [Nat.one_mul])
      (by
        intro i _ T3 m3
        show ((body3 N s w k j i T3).Knot m3 0, (body3 N s w k j i T3).Knot m3 1,
          (body3 N s w k j i T3).Knot m3 2, (body3 N s w k j i T3).Weight m3) = _
        rw [gll3_body_read]
        have hiff : (m3 = index3 N k j i)
            ↔ (N * N * k + N * j + i ≤ m3 ∧ m3 < N * N * k + N * j + i + 1) := by
          unfold GaussLobattoLegendre.index3
          omega
        by_cases hm : m3 = index3 N k j i
        · rw [if_pos hm, if_pos (hiff.mp hm)]
        · rw [if_neg hm, if_neg (fun hc => hm (hiff.mpr hc))])
      T2 m2
    simp only [Nat.one_mul, Nat.div_one] at key
    exact key
  have mid : ∀ (k : Nat) (T1 : GLLTable α) (m1 : Nat),
      ((forLoop N (fun j T => forLoop N (fun i T => body3 N s w k j i T) T) T1).Knot m1 0,
          (forLoop N (fun j T => forLoop N (fun i T => body3 N s w k j i T) T) T1).Knot m1 1,
          (forLoop N (fun j T => forLoop N (fun i T => body3 N s w k j i T) T) T1).Knot m1 2,
          (forLoop N (fun j T => forLoop N (fun i T => body3 N s w k j i T) T) T1).Weight m1)
        = if N * N * k ≤ m1 ∧ m1 < N * N * k + N * N then
            (s ((m1 - N * N * k) % N), s ((m1 - N * N * k) / N), s k,
              w ((m1 - N * N * k) % N) * w ((m1 - N * N * k) / N) * w k)
          else (T1.Knot m1 0, T1.Knot m1 1, T1.Knot m1 2, T1.Weight m1) := by
    intro k T1 m1
    exact forLoop_block_write
      (fun (T : GLLTable α) m => (T.Knot m 0, T.Knot m 1, T.Knot m 2, T.Weight m))
      (fun j T => forLoop N (fun i T => body3 N s w k j i T) T)
      (N * N * k) N N (fun j => N * N * k + N * j)
      (fun j d => (s d, s j, s k, w d * w j * w k))
      (fun j => rfl)
      (fun j _ T2 m2 => inner k j T2 m2)
      T1 m1
  have outer := forLoop_block_write
      (fun (T : GLLTable α) m => (T.Knot m 0, T.Knot m 1, T.Knot m 2, T.Weight m))
      (fun k T => forLoop N
        (fun j T => forLoop N (fun i T => body3 N s w k j i T) T) T)
      0 (N * N) N (fun k => N * N * k)
      (fun k d => (s (d % N), s (d / N), s k, w (d % N) * w (d / N) * w k))
      (fun k => (Nat.zero_add _).symm)
      (fun k _ T1 m1 => mid k T1 m1)
      T m
  simp only [Nat.zero_le, true_and, Nat.zero_add, Nat.sub_zero] at outer
  exact outer

/-- C12: the 3D Gauss-Lobatto-Legendre table is the three-fold tensor product
of the 1D rule.  The index map `(i,j,k) ↦ NPTS_1D^2*k + NPTS_1D*j + i` sends
`[0,NPTS_1D)^3` into `[0,NPTS_1D^3)`, is injective and onto (so each of the
`nweight() = NPTS_1D^3` entries is written by exactly one pass of the loops);
entry `index(i,j,k)` holds the knot `(s[i], s[j], s[k])` and the weight
`w[i]*w[j]*w[k]`; and the weights sum to `(∑ w)^3`. -/
theorem gll3_tensor_product [CommSemiring α] (NPTS_1D : Nat) (s w : Nat → α)
    (T : GLLTable α) :
    (construct3 NPTS_1D s w T).nweight = NPTS_1D ^ 3
    ∧ (∀ i j k, i < NPTS_1D → j < NPTS_1D → k < NPTS_1D →
        index3 NPTS_1D k j i < NPTS_1D ^ 3)
    ∧ (∀ i j k i' j' k', i < NPTS_1D → j < NPTS_1D → i' < NPTS_1D → j' < NPTS_1D →
        index3 NPTS_1D k j i = index3 NPTS_1D k' j' i' → i = i' ∧ j = j' ∧ k = k')
    ∧ (∀ m, m < NPTS_1D ^ 3 →
        ∃ i j k, i < NPTS_1D ∧ j < NPTS_1D ∧ k < NPTS_1D ∧ index3 NPTS_1D k j i = m)
    ∧ (∀ i j k, i < NPTS_1D → j < NPTS_1D → k < NPTS_1D →
        (construct3 NPTS_1D s w T).knot (index3 NPTS_1D k j i) 0 = s i
        ∧ (construct3 NPTS_1D s w T).knot (index3 NPTS_1D k j i) 1 = s j
        ∧ (construct3 NPTS_1D s w T).knot (index3 NPTS_1D k j i) 2 = s k
        ∧ (construct3 NPTS_1D s w T).weight (index3 NPTS_1D k j i) = w i * w j * w k)
    ∧ (∑ m in Finset.range (construct3 NPTS_1D s w T).nweight,
          (construct3 NPTS_1D s w T).weight m)
        = (∑ i in Finset.range NPTS_1D, w i) ^ 3 := by
  have hcube : NPTS_1D ^ 3 = NPTS_1D * NPTS_1D * NPTS_1D := by ring
  have hrange : ∀ i j k, i < NPTS_1D → j < NPTS_1D → k < NPTS_1D →
      index3 NPTS_1D k j i < NPTS_1D * NPTS_1D * NPTS_1D := by
    intro i j k hi hj hk
    obtain ⟨-, -, -, hr⟩ := gll3_index_decode NPTS_1D k j i hi hj
    have h1 : NPTS_1D * NPTS_1D * (k + 1) ≤ NPTS_1D * NPTS_1D * NPTS_1D :=
      Nat.mul_le_mul_left _ hk
    have h2 : NPTS_1D * NPTS_1D * (k + 1) = NPTS_1D * NPTS_1D * k + NPTS_1D * NPTS_1D :=
      Nat.mul_succ _ k
    unfold GaussLobattoLegendre.index3
    omega
  refine ⟨hcube.symm, ?_, ?_, ?_, ?_, ?_⟩
  · intro i j k hi hj hk
    rw [hcube]
    exact hrange i j k hi hj hk
  · intro i j k i' j' k' hi hj hi' hj' heq
    obtain ⟨hk1, hj1, hi1, -⟩ := gll3_index_decode NPTS_1D k j i hi hj
    obtain ⟨hk2, hj2, hi2, -⟩ := gll3_index_decode NPTS_1D k' j' i' hi' hj'
    rw [heq] at hk1 hj1 hi1
    exact ⟨hi1.symm.trans hi2, hj1.symm.trans hj2, hk1.symm.trans hk2⟩
  · intro m hm
    rw [hcube] at hm
    have hN : 0 < NPTS_1D := by
      rcases Nat.eq_zero_or_pos NPTS_1D with h0 | hp
      · subst h0
        simp at hm
      · exact hp
    have hNN : 0 < NPTS_1D * NPTS_1D := Nat.mul_pos hN hN
    refine ⟨m % (NPTS_1D * NPTS_1D) % NPTS_1D, m % (NPTS_1D * NPTS_1D) / NPTS_1D,
      m / (NPTS_1D * NPTS_1D), Nat.mod_lt _ hN, ?_, ?_, ?_⟩
    · exact (Nat.div_lt_iff_lt_mul hN).mpr (Nat.mod_lt _ hNN)
    · exact (Nat.div_lt_iff_lt_mul hNN).mpr (by rw [Nat.mul_comm]; exact hm)
    · unfold GaussLobattoLegendre.index3
      have h1 := Nat.div_add_mod m (NPTS_1D * NPTS_1D)
      have h2 := Nat.div_add_mod (m % (NPTS_1D * NPTS_1D)) NPTS_1D
      omega
  · intro i j k hi hj hk
    have hlt := hrange i j k hi hj hk
    obtain ⟨hk1, hj1, hi1, -⟩ := gll3_index_decode NPTS_1D k j i hi hj
    have hread := gll3_run_read NPTS_1D s w T (index3 NPTS_1D k j i)
    rw [if_pos hlt, hk1, hj1, hi1] at hread
    simp only [Prod.mk.injEq] at hread
    exact hread
  · show (∑ m in Finset.range (NPTS_1D * NPTS_1D * NPTS_1D), (run3 NPTS_1D s w T).Weight m)
      = _
    have hW : ∀ m, m ∈ Finset.range (NPTS_1D * NPTS_1D * NPTS_1D) →
        (run3 NPTS_1D s w T).Weight m
          = w (m % (NPTS_1D * NPTS_1D) % NPTS_1D) * w (m % (NPTS_1D * NPTS_1D) / NPTS_1D)
            * w (m / (NPTS_1D * NPTS_1D)) := by
      intro m hm
      have hread := gll3_run_read NPTS_1D s w T m
      rw [if_pos (Finset.mem_range.mp hm)] at hread
      simp only [Prod.mk.injEq] at hread
      exact hread.2.2.2
    rw [Finset.sum_congr rfl hW,
      sum_range_blocks (NPTS_1D * NPTS_1D) NPTS_1D
        (fun k d => w (d % NPTS_1D) * w (d / NPTS_1D) * w k)]
    have hinner : ∀ k, (∑ d in Finset.range (NPTS_1D * NPTS_1D),
          w (d % NPTS_1D) * w (d / NPTS_1D) * w k)
        = ∑ j in Finset.range NPTS_1D, ∑ i in Finset.range NPTS_1D, w i * w j * w k := by
      intro k
      exact sum_range_blocks NPTS_1D NPTS_1D (fun j i => w i * w j * w k)
    simp only [hinner]
    simp only [← Finset.sum_mul, ← Finset.mul_sum]
    ring

/-- Instance of C12 for three points per direction and the 1D rule with knots
`-1, 0, 1` and weights `1/3, 4/3, 1/3`: the entry written for
`(i,j,k) = (2,0,1)` lies below `3^3` and holds `s[2]` as first coordinate, and
entry `11 < 3^3` is written by some pass. -/
theorem gll3_tensor_product_witness :
    (2 < 3 ∧ 0 < 3 ∧ 1 < 3)
    ∧ 11 < 3 ^ 3
    ∧ index3 3 1 0 2 < 3 ^ 3
    ∧ (construct3 3 (fun i => threePointRule.knot i 0) threePointRule.weight
          ⟨fun _ _ => 0, fun _ => 0⟩).knot (index3 3 1 0 2) 0 = threePointRule.knot 2 0
    ∧ (∃ i j k, i < 3 ∧ j < 3 ∧ k < 3 ∧ index3 3 k j i = 11) :=
  ⟨by decide, by decide,
   (gll3_tensor_product 3 (fun i => threePointRule.knot i 0) threePointRule.weight
      ⟨fun _ _ => 0, fun _ => 0⟩).2.1 2 0 1 (by decide) (by decide) (by decide),
   ((gll3_tensor_product 3 (fun i => threePointRule.knot i 0) threePointRule.weight
      ⟨fun _ _ => 0, fun _ => 0⟩).2.2.2.2.1 2 0 1 (by decide) (by decide) (by decide)).1,
   (gll3_tensor_product 3 (fun i => threePointRule.knot i 0) threePointRule.weight
      ⟨fun _ _ => 0, fun _ => 0⟩).2.2.2.1 11 (by decide)⟩

end GaussLobattoLegendreRules

/-! ### Legendre functions -/

section Legendre

variable {α : Type} [LinearOrderedField α]

open Legendre_functions_helper

theorem plgndr1_of_check (cfg : LegendreConfig α) (n : Nat) (x : α)
    (h : cfg.PARANOID = false ∨ |x| ≤ 1) :
    plgndr1 cfg n x = Except.ok (plgndr1_value n x) := by
  unfold Legendre_functions_helper.plgndr1
  have hc : ¬ (cfg.PARANOID = true ∧ 1 < |x|) := by
    rintro ⟨hp, hx⟩
    rcases h with h | h
    · rw [h] at hp
      exact Bool.noConfusion hp
    · exact absurd hx (not_lt.mpr h)
  rw [if_neg hc]

theorem plgndr2_of_check (cfg : LegendreConfig α) (l m : Nat) (x : α)
    (h : cfg.PARANOID = false ∨ |x| ≤ 1) :
    plgndr2 cfg l m x = Except.ok (plgndr2_value cfg.sqrt l m x) := by
  unfold Legendre_functions_helper.plgndr2
  have hc : ¬ (cfg.PARANOID = true ∧ 1 < |x|) := by
    rintro ⟨hp, hx⟩
    rcases h with h | h
    · rw [h] at hp
      exact Bool.noConfusion hp
    · exact absurd hx (not_lt.mpr h)
  rw [if_neg hc]

/-- C14 (counterexample): in a build without `PARANOID` the argument `x = 2`,
of absolute value above `1`, is accepted: `plgndr1(0,2)` and `plgndr2(0,0,2)`
both return the value `1`. -/
theorem legendre_unchecked_without_paranoid :
    1 < |(2 : ℚ)|
    ∧ plgndr1 plainConfig 0 2 = Except.ok 1
    ∧ plgndr2 plainConfig 0 0 2 = Except.ok 1 := by
  refine ⟨?_, rfl, rfl⟩
  norm_num

/-- C14 (amended): when `PARANOID` is defined, `plgndr1(n,x)` and
`plgndr2(l,m,x)` throw for every `x` with `|x| > 1`, and the message contains
the printed `x`; for `|x| ≤ 1` they return a value in every build; and when
`PARANOID` is not defined they make no check and return a value for every `x`. -/
theorem legendre_argument_check :
    (∀ (cfg : LegendreConfig α) (n l m : Nat) (x : α), cfg.PARANOID = true → 1 < |x| →
      plgndr1 cfg n x = Except.error
          { error_message := "Bad arguments in routine plgndr1: x=" ++ cfg.format x
              ++ " but should be less than 1 in absolute value.\n"
            function_name := cfg.OOMPH_CURRENT_FUNCTION "plgndr1"
            location := cfg.OOMPH_EXCEPTION_LOCATION "plgndr1" }
      ∧ plgndr2 cfg l m x = Except.error
          { error_message := "Bad arguments in routine plgndr2: x=" ++ cfg.format x
              ++ " but should be less than 1 in absolute value.\n"
            function_name := cfg.OOMPH_CURRENT_FUNCTION "plgndr2"
            location := cfg.OOMPH_EXCEPTION_LOCATION "plgndr2" })
    ∧ (∀ (cfg : LegendreConfig α) (n l m : Nat) (x : α), |x| ≤ 1 →
      plgndr1 cfg n x = Except.ok (plgndr1_value n x)
      ∧ plgndr2 cfg l m x = Except.ok (plgndr2_value cfg.sqrt l m x))
    ∧ (∀ (cfg : LegendreConfig α) (n l m : Nat) (x : α), cfg.PARANOID = false →
      plgndr1 cfg n x = Except.ok (plgndr1_value n x)
      ∧ plgndr2 cfg l m x = Except.ok (plgndr2_value cfg.sqrt l m x)) := by
  refine ⟨?_, ?_, ?_⟩
  · intro cfg n l m x hp hx
    constructor
    · unfold Legendre_functions_helper.plgndr1
      rw [if_pos ⟨hp, hx⟩]
    · unfold Legendre_functions_helper.plgndr2
      rw [if_pos ⟨hp, hx⟩]
  · intro cfg n l m x hx
    exact ⟨plgndr1_of_check cfg n x (Or.inr hx), plgndr2_of_check cfg l m x (Or.inr hx)⟩
  · intro cfg n l m x hp
    exact ⟨plgndr1_of_check cfg n x (Or.inl hp), plgndr2_of_check cfg l m x (Or.inl hp)⟩

/-- Instance of the amended C14 over `ℚ`: with `PARANOID`, `x = 2` is
rejected by `plgndr1` and `x = 1` is accepted; without it, `x = 2` is accepted. -/
theorem legendre_argument_check_witness :
    paranoidConfig.PARANOID = true ∧ 1 < |(2 : ℚ)| ∧ |(1 : ℚ)| ≤ 1
    ∧ plainConfig.PARANOID = false
    ∧ plgndr1 paranoidConfig 3 2 = Except.error
          { error_message := "Bad arguments in routine plgndr1: x=" ++ paranoidConfig.format 2
              ++ " but should be less than 1 in absolute value.\n"
            function_name := paranoidConfig.OOMPH_CURRENT_FUNCTION "plgndr1"
            location := paranoidConfig.OOMPH_EXCEPTION_LOCATION "plgndr1" }
    ∧ plgndr1 paranoidConfig 3 1 = Except.ok (plgndr1_value 3 1)
    ∧ plgndr1 plainConfig 3 2 = Except.ok (plgndr1_value 3 2) :=
  ⟨rfl, by norm_num, by norm_num, rfl,
   ((@legendre_argument_check ℚ _).1 paranoidConfig 3 0 0 2 rfl (by norm_num)).1,
   ((@legendre_argument_check ℚ _).2.1 paranoidConfig 3 0 0 1 (by norm_num)).1,
   ((@legendre_argument_check ℚ _).2.2 plainConfig 3 0 0 2 rfl).1⟩

/-- Loop invariant of `plgndr1`: after `t` passes `pmm` and `pmm1` hold the
values of degrees `t` and `t + 1`. -/
theorem plgndr1_loop (x : α) (t : Nat) :
    (forLoop t (fun u => plgndr1_step x (2 + u))
        ({ pmm := 1, pmm1 := x * 1, pmm2 := 0 } : Plgndr1State α)).pmm = plgndr1_value t x
    ∧ (forLoop t (fun u => plgndr1_step x (2 + u))
        ({ pmm := 1, pmm1 := x * 1, pmm2 := 0 } : Plgndr1State α)).pmm1
      = plgndr1_value (t + 1) x := by
  induction t with
  | zero => exact ⟨rfl, rfl⟩
  | succ t ih =>
    have hval : plgndr1_value (t + 1 + 1) x
        = (forLoop (t + 1) (fun u => plgndr1_step x (2 + u))
            ({ pmm := 1, pmm1 := x * 1, pmm2 := 0 } : Plgndr1State α)).pmm2 := by
      unfold Legendre_functions_helper.plgndr1_value forRange
      have h0 : ¬ (t + 1 + 1 = 0) := by omega
      have h1 : ¬ (t + 1 + 1 = 1) := by omega
      have hcount : t + 1 + 1 + 1 - 2 = t + 1 := by omega
      simp only [h0, h1, if_false, hcount]
    constructor
    · rw [forLoop_succ]
      exact ih.2
    · rw [hval, forLoop_succ]
      rfl

/-- The three-term recurrence satisfied by the values of `plgndr1`. -/
theorem plgndr1_value_recurrence (x : α) (n : Nat) (hn : 2 ≤ n) :
    (n : α) * plgndr1_value n x
      = (2 * (n : α) - 1) * x * plgndr1_value (n - 1) x
        - ((n : α) - 1) * plgndr1_value (n - 2) x := by
  obtain ⟨t, rfl⟩ : ∃ t, n = t + 2 := ⟨n - 2, by omega⟩
  have h := plgndr1_loop x (t + 1)
  have hprev := plgndr1_loop x t
  have hstep : plgndr1_value (t + 2) x
      = (x * ((2 * (2 + t) - 1 : Nat) : α) * plgndr1_value (t + 1) x
          - ((2 + t - 1 : Nat) : α) * plgndr1_value t x) / ((2 + t : Nat) : α) := by
    rw [← h.2, forLoop_succ, ← hprev.1, ← hprev.2]
    rfl
  have hne : ((2 + t : Nat) : α) ≠ 0 := by
    have : (0 : α) < ((2 + t : Nat) : α) := by
      exact_mod_cast (by omega : 0 < 2 + t)
    exact ne_of_gt this
  have e1 : t + 2 - 1 = t + 1 := by omega
  have e2 : t + 2 - 2 = t := by omega
  have c1 : ((2 * (2 + t) - 1 : Nat) : α) = 2 * ((t : α) + 2) - 1 := by
    have : 2 * (2 + t) - 1 = 2 * t + 3 := by omega
    rw [this]
    push_cast
    ring
  have c2 : ((2 + t - 1 : Nat) : α) = (t : α) + 2 - 1 := by
    have : 2 + t - 1 = t + 1 := by omega
    rw [this]
    push_cast
    ring
  have c3 : ((2 + t : Nat) : α) = (t : α) + 2 := by
    push_cast
    ring
  rw [e1, e2, hstep]
  rw [c3] at hne
  rw [c1, c2, c3]
  push_cast
  have key : ∀ a b : α, a ≠ 0 → a * (b / a) = b := fun a b h => by
    field_simp
  rw [key _ _ hne]
  ring

/-- C15 (counterexample): in a build with `PARANOID`, `plgndr1(0,2)` does not
return `1`: it throws. -/
theorem plgndr1_not_total_with_paranoid :
    plgndr1 paranoidConfig 0 2 ≠ Except.ok 1
    ∧ plgndr1 paranoidConfig 0 2 = Except.error
          { error_message := "Bad arguments in routine plgndr1: x=" ++ paranoidConfig.format 2
              ++ " but should be less than 1 in absolute value.\n"
            function_name := paranoidConfig.OOMPH_CURRENT_FUNCTION "plgndr1"
            location := paranoidConfig.OOMPH_EXCEPTION_LOCATION "plgndr1" } := by
  have herr : plgndr1 paranoidConfig 0 2 = Except.error
          { error_message := "Bad arguments in routine plgndr1: x=" ++ paranoidConfig.format 2
              ++ " but should be less than 1 in absolute value.\n"
            function_name := paranoidConfig.OOMPH_CURRENT_FUNCTION "plgndr1"
            location := paranoidConfig.OOMPH_EXCEPTION_LOCATION "plgndr1" } := by
    unfold Legendre_functions_helper.plgndr1
    have hc : paranoidConfig.PARANOID = true ∧ 1 < |(2 : ℚ)| := ⟨rfl, by norm_num⟩
    rw [if_pos hc]
  refine ⟨?_, herr⟩
  rw [herr]
  intro hc
  exact Except.noConfusion hc

/-- C15 (amended): in exact arithmetic, for every `x` that passes the argument
check (every `x` when `PARANOID` is not defined, every `x` with `|x| ≤ 1`
otherwise), `plgndr1(0,x) = 1`, `plgndr1(1,x) = x`, and for every `n ≥ 2` the
three calls return values with
`n*plgndr1(n,x) = (2n-1)*x*plgndr1(n-1,x) - (n-1)*plgndr1(n-2,x)`. -/
theorem plgndr1_legendre_recurrence (cfg : LegendreConfig α) (x : α)
    (hx : cfg.PARANOID = false ∨ |x| ≤ 1) :
    plgndr1 cfg 0 x = Except.ok 1
    ∧ plgndr1 cfg 1 x = Except.ok x
    ∧ (∀ n, 2 ≤ n → ∃ p q r : α,
        plgndr1 cfg n x = Except.ok p
        ∧ plgndr1 cfg (n - 1) x = Except.ok q
        ∧ plgndr1 cfg (n - 2) x = Except.ok r
        ∧ (n : α) * p = (2 * (n : α) - 1) * x * q - ((n : α) - 1) * r) := by
  refine ⟨?_, ?_, ?_⟩
  · rw [plgndr1_of_check cfg 0 x hx]
    rfl
  · rw [plgndr1_of_check cfg 1 x hx]
    show Except.ok (x * 1) = Except.ok x
    rw [mul_one]
  · intro n hn
    exact ⟨plgndr1_value n x, plgndr1_value (n - 1) x, plgndr1_value (n - 2) x,
      plgndr1_of_check cfg n x hx, plgndr1_of_check cfg (n - 1) x hx,
      plgndr1_of_check cfg (n - 2) x hx, plgndr1_value_recurrence x n hn⟩

/-- Instance of the amended C15 over `ℚ` with `PARANOID` and `x = 1/2`, degree 3. -/
theorem plgndr1_legendre_recurrence_witness :
    (paranoidConfig.PARANOID = false ∨ |(1 / 2 : ℚ)| ≤ 1)
    ∧ 2 ≤ 3
    ∧ ∃ p q r : ℚ,
        plgndr1 paranoidConfig 3 (1 / 2) = Except.ok p
        ∧ plgndr1 paranoidConfig (3 - 1) (1 / 2) = Except.ok q
        ∧ plgndr1 paranoidConfig (3 - 2) (1 / 2) = Except.ok r
        ∧ ((3 : Nat) : ℚ) * p = (2 * ((3 : Nat) : ℚ) - 1) * (1 / 2) * q
            - (((3 : Nat) : ℚ) - 1) * r :=
  ⟨Or.inr (by norm_num [abs_le]), by decide,
   (plgndr1_legendre_recurrence paranoidConfig (1 / 2)
      (Or.inr (by norm_num [abs_le]))).2.2 3 (by decide)⟩

theorem plgndr2_value_self (sqrt : α → α) (m : Nat) (x : α) :
    plgndr2_value sqrt m m x = plgndr2_pmm sqrt m x := by
  unfold Legendre_functions_helper.plgndr2_value
  have h0 : ¬ (m > m) := by omega
  simp only [h0, if_false, if_true]

theorem plgndr2_value_succ (sqrt : α → α) (m : Nat) (x : α) :
    plgndr2_value sqrt (m + 1) m x = x * ((2 * m + 1 : Nat) : α) * plgndr2_pmm sqrt m x := by
  unfold Legendre_functions_helper.plgndr2_value
  have h0 : ¬ (m > m + 1) := by omega
  have h1 : ¬ (m + 1 = m) := by omega
  simp only [h0, h1, if_false, if_true]

/-- Loop invariant of the second loop of `plgndr2`: after `t` passes `pmm` and
`pmmp1` hold the values of degrees `m + t` and `m + t + 1`. -/
theorem plgndr2_loop (sqrt : α → α) (m : Nat) (x : α) (t : Nat) :
    (forLoop t (fun u => plgndr2_step m x (m + 2 + u))
        ({ pmm := plgndr2_pmm sqrt m x
           pmmp1 := x * ((2 * m + 1 : Nat) : α) * plgndr2_pmm sqrt m x
           pll := 0 } : Plgndr2State α)).pmm = plgndr2_value sqrt (m + t) m x
    ∧ (forLoop t (fun u => plgndr2_step m x (m + 2 + u))
        ({ pmm := plgndr2_pmm sqrt m x
           pmmp1 := x * ((2 * m + 1 : Nat) : α) * plgndr2_pmm sqrt m x
           pll := 0 } : Plgndr2State α)).pmmp1 = plgndr2_value sqrt (m + t + 1) m x := by
  induction t with
  | zero =>
    constructor
    · show plgndr2_pmm sqrt m x = plgndr2_value sqrt (m + 0) m x
      rw [Nat.add_zero, plgndr2_value_self]
    · show x * ((2 * m + 1 : Nat) : α) * plgndr2_pmm sqrt m x
        = plgndr2_value sqrt (m + 0 + 1) m x
      rw [Nat.add_zero, plgndr2_value_succ]
  | succ t ih =>
    have hval : plgndr2_value sqrt (m + (t + 1) + 1) m x
        = (forLoop (t + 1) (fun u => plgndr2_step m x (m + 2 + u))
            ({ pmm := plgndr2_pmm sqrt m x
               pmmp1 := x * ((2 * m + 1 : Nat) : α) * plgndr2_pmm sqrt m x
               pll := 0 } : Plgndr2State α)).pll := by
      unfold Legendre_functions_helper.plgndr2_value forRange
      have h0 : ¬ (m > m + (t + 1) + 1) := by omega
      have h1 : ¬ (m + (t + 1) + 1 = m) := by omega
      have h2 : ¬ (m + (t + 1) + 1 = m + 1) := by omega
      have hcount : m + (t + 1) + 1 + 1 - (m + 2) = t + 1 := by omega
      simp only [h0, h1, h2, if_false, hcount]
    constructor
    · rw [forLoop_succ]
      exact ih.2
    · rw [hval, forLoop_succ]
      rfl

/-- The three-term recurrence in the degree satisfied by the values of
`plgndr2`. -/
theorem plgndr2_value_recurrence (sqrt : α → α) (m : Nat) (x : α) (l : Nat)
    (hl : m + 2 ≤ l) :
    ((l : α) - (m : α)) * plgndr2_value sqrt l m x
      = (2 * (l : α) - 1) * x * plgndr2_value sqrt (l - 1) m x
        - ((l : α) + (m : α) - 1) * plgndr2_value sqrt (l - 2) m x := by
  obtain ⟨t, rfl⟩ : ∃ t, l = m + t + 2 := ⟨l - m - 2, by omega⟩
  have h := plgndr2_loop sqrt m x (t + 1)
  have hprev := plgndr2_loop sqrt m x t
  have hstep : plgndr2_value sqrt (m + t + 2) m x
      = (x * ((2 * (m + 2 + t) - 1 : Nat) : α) * plgndr2_value sqrt (m + t + 1) m x
          - ((m + 2 + t + m - 1 : Nat) : α) * plgndr2_value sqrt (m + t) m x)
        / ((m + 2 + t - m : Nat) : α) := by
    have h2 := h.2
    rw [show m + (t + 1) + 1 = m + t + 2 from by omega] at h2
    rw [← h2, forLoop_succ, ← hprev.1, ← hprev.2]
    rfl
  have e1 : m + t + 2 - 1 = m + t + 1 := by omega
  have e2 : m + t + 2 - 2 = m + t := by omega
  have c1 : ((2 * (m + 2 + t) - 1 : Nat) : α) = 2 * ((m : α) + (t : α) + 2) - 1 := by
    have : 2 * (m + 2 + t) - 1 = 2 * m + 2 * t + 3 := by omega
    rw [this]
    push_cast
    ring
  have c2 : ((m + 2 + t + m - 1 : Nat) : α) = (m : α) + (t : α) + 2 + (m : α) - 1 := by
    have : m + 2 + t + m - 1 = 2 * m + t + 1 := by omega
    rw [this]
    push_cast
    ring
  have c3 : ((m + 2 + t - m : Nat) : α) = (t : α) + 2 := by
    have : m + 2 + t - m = t + 2 := by omega
    rw [this]
    push_cast
    ring
  have hne : (t : α) + 2 ≠ 0 := by
    have : (0 : α) < (t : α) + 2 := by positivity
    exact ne_of_gt this
  have key : ∀ a b : α, a ≠ 0 → a * (b / a) = b := fun a b h => by
    field_simp
  rw [e1, e2, hstep, c1, c2, c3]
  push_cast
  have hlm : (m : α) + (t : α) + 2 - (m : α) = (t : α) + 2 := by ring
  rw [hlm, key _ _ hne]
  ring

/-- The odd factors picked up by the first loop of `plgndr2`:
`(2t+1)!! = (2t+1) (2t-1)!!`, with `(-1)!!` read as `1`. -/
theorem doubleFactorial_odd_step (t : Nat) :
    Nat.doubleFactorial (2 * (t + 1) - 1) = (2 * t + 1) * Nat.doubleFactorial (2 * t - 1) := by
  cases t with
  | zero => rfl
  | succ t =>
    have e1 : 2 * (t + 1 + 1) - 1 = (2 * t + 1) + 2 := by omega
    have e2 : 2 * (t + 1) - 1 = 2 * t + 1 := by omega
    have e3 : 2 * (t + 1) + 1 = (2 * t + 1) + 2 := by omega
    rw [e1, e2, e3, Nat.doubleFactorial_add_two]

/-- Loop invariant of the first loop of `plgndr2`: after `t` passes `fact` is
`2t + 1` and `pmm` is `(-1)^t (2t-1)!! somx2^t`. -/
theorem plgndr2_pmm_loop (somx2 : α) (t : Nat) :
    (forLoop t
        (fun _ st => ({ pmm := st.pmm * (-st.fact * somx2), fact := st.fact + 2 } : PmmState α))
        ({ pmm := 1, fact := 1 } : PmmState α)).pmm
      = (-1) ^ t * (Nat.doubleFactorial (2 * t - 1) : α) * somx2 ^ t
    ∧ (forLoop t
        (fun _ st => ({ pmm := st.pmm * (-st.fact * somx2), fact := st.fact + 2 } : PmmState α))
        ({ pmm := 1, fact := 1 } : PmmState α)).fact = 2 * (t : α) + 1 := by
  induction t with
  | zero => simp [forLoop]
  | succ t ih =>
    rw [forLoop_succ]
    constructor
    · show _ * (-_ * somx2) = _
      rw [ih.1, ih.2, doubleFactorial_odd_step]
      push_cast
      ring
    · show _ + 2 = _
      rw [ih.2]
      push_cast
      ring

/-- Closed form of the seed of `plgndr2`: the value of `pmm` before the test
`l == m` is `(-1)^m (2m-1)!! somx2^m` with `somx2 = sqrt((1-x)(1+x))`. -/
theorem plgndr2_pmm_closed (sqrt : α → α) (m : Nat) (x : α) :
    plgndr2_pmm sqrt m x
      = (-1) ^ m * (Nat.doubleFactorial (2 * m - 1) : α) * sqrt ((1 - x) * (1 + x)) ^ m := by
  unfold Legendre_functions_helper.plgndr2_pmm forRange
  by_cases hm : m > 0
  · simp only [if_pos hm, Nat.add_sub_cancel]
    exact (plgndr2_pmm_loop (sqrt ((1 - x) * (1 + x))) m).1
  · have h0 : m = 0 := by omega
    subst h0
    simp

/-- C16: `plgndr2` computes the associated Legendre function by upward
recurrence in the degree.  In exact arithmetic, for every `m` and every `x`
with `|x| ≤ 1`, the calls return values with
`plgndr2(m+1,m,x) = (2m+1)*x*plgndr2(m,m,x)` and, for every `l ≥ m + 2`,
`(l-m)*plgndr2(l,m,x) = (2l-1)*x*plgndr2(l-1,m,x) - (l+m-1)*plgndr2(l-2,m,x)`;
the seed is `plgndr2(m,m,x) = (-1)^m (2m-1)!! s^m` with `s` the value `sqrt`
returns at `(1-x)(1+x)`; and when that value is the non-negative square root,
the seed `q` is the one number with `q^2 = ((2m-1)!!)^2 (1-x^2)^m` and
`(-1)^m q ≥ 0`, that is `P_m^m(x) = (-1)^m (2m-1)!! (1-x^2)^(m/2)`. -/
theorem plgndr2_upward_recurrence (cfg : LegendreConfig α) (m : Nat) (x : α)
    (hx : |x| ≤ 1) :
    (∃ p q : α,
        plgndr2 cfg (m + 1) m x = Except.ok p
        ∧ plgndr2 cfg m m x = Except.ok q
        ∧ p = (2 * (m : α) + 1) * x * q)
    ∧ (∀ l, m + 2 ≤ l → ∃ p q r : α,
        plgndr2 cfg l m x = Except.ok p
        ∧ plgndr2 cfg (l - 1) m x = Except.ok q
        ∧ plgndr2 cfg (l - 2) m x = Except.ok r
        ∧ ((l : α) - (m : α)) * p
            = (2 * (l : α) - 1) * x * q - ((l : α) + (m : α) - 1) * r)
    ∧ plgndr2 cfg m m x
        = Except.ok ((-1) ^ m * (Nat.doubleFactorial (2 * m - 1) : α)
            * cfg.sqrt ((1 - x) * (1 + x)) ^ m)
    ∧ (0 ≤ cfg.sqrt ((1 - x) * (1 + x)) →
        cfg.sqrt ((1 - x) * (1 + x)) ^ 2 = (1 - x) * (1 + x) →
        ∃ q : α,
          plgndr2 cfg m m x = Except.ok q
          ∧ q ^ 2 = (Nat.doubleFactorial (2 * m - 1) : α) ^ 2 * (1 - x ^ 2) ^ m
          ∧ 0 ≤ (-1) ^ m * q
          ∧ ∀ q2 : α, q2 ^ 2 = (Nat.doubleFactorial (2 * m - 1) : α) ^ 2 * (1 - x ^ 2) ^ m →
              0 ≤ (-1) ^ m * q2 → q2 = q) := by
  have hseed : plgndr2 cfg m m x
      = Except.ok ((-1) ^ m * (Nat.doubleFactorial (2 * m - 1) : α)
          * cfg.sqrt ((1 - x) * (1 + x)) ^ m) := by
    rw [plgndr2_of_check cfg m m x (Or.inr hx), plgndr2_value_self, plgndr2_pmm_closed]
  refine ⟨?_, ?_, hseed, ?_⟩
  · refine ⟨plgndr2_value cfg.sqrt (m + 1) m x, plgndr2_value cfg.sqrt m m x,
      plgndr2_of_check cfg (m + 1) m x (Or.inr hx), plgndr2_of_check cfg m m x (Or.inr hx), ?_⟩
    rw [plgndr2_value_succ, plgndr2_value_self]
    push_cast
    ring
  · intro l hl
    exact ⟨plgndr2_value cfg.sqrt l m x, plgndr2_value cfg.sqrt (l - 1) m x,
      plgndr2_value cfg.sqrt (l - 2) m x,
      plgndr2_of_check cfg l m x (Or.inr hx), plgndr2_of_check cfg (l - 1) m x (Or.inr hx),
      plgndr2_of_check cfg (l - 2) m x (Or.inr hx),
      plgndr2_value_recurrence cfg.sqrt m x l hl⟩
  · generalize cfg.sqrt ((1 - x) * (1 + x)) = s at hseed
    intro hs0 hs2
    have hd : (0 : α) ≤ (Nat.doubleFactorial (2 * m - 1) : α) := Nat.cast_nonneg _
    have hsq : ((-1 : α) ^ m) * ((-1 : α) ^ m) = 1 := by
      rw [← mul_pow]
      norm_num
    have hsm : (s ^ m) ^ 2 = (1 - x ^ 2) ^ m := by
      have e : (1 : α) - x ^ 2 = (1 - x) * (1 + x) := by ring
      rw [← pow_mul, mul_comm, pow_mul, hs2, e]
    have hq2 : ((-1) ^ m * (Nat.doubleFactorial (2 * m - 1) : α) * s ^ m) ^ 2
        = (Nat.doubleFactorial (2 * m - 1) : α) ^ 2 * (1 - x ^ 2) ^ m := by
      rw [mul_pow, mul_pow, hsm, pow_two ((-1 : α) ^ m), hsq, one_mul]
    have hsign : 0 ≤ (-1 : α) ^ m * ((-1) ^ m * (Nat.doubleFactorial (2 * m - 1) : α) * s ^ m) := by
      have e : (-1 : α) ^ m * ((-1) ^ m * (Nat.doubleFactorial (2 * m - 1) : α) * s ^ m)
          = ((-1 : α) ^ m * (-1 : α) ^ m) * ((Nat.doubleFactorial (2 * m - 1) : α) * s ^ m) := by
        ring
      rw [e, hsq, one_mul]
      exact mul_nonneg hd (pow_nonneg hs0 m)
    refine ⟨_, hseed, hq2, hsign, ?_⟩
    intro q2 h2 hpos
    have habs : ((-1 : α) ^ m * q2) ^ 2
        = ((-1 : α) ^ m * ((-1) ^ m * (Nat.doubleFactorial (2 * m - 1) : α) * s ^ m)) ^ 2 := by
      rw [mul_pow, mul_pow ((-1 : α) ^ m), h2, hq2]
    have hroot : (-1 : α) ^ m * q2
        = (-1 : α) ^ m * ((-1) ^ m * (Nat.doubleFactorial (2 * m - 1) : α) * s ^ m) :=
      (sq_eq_sq₀ hpos hsign).mp habs
    have hne : ((-1 : α) ^ m) ≠ 0 := pow_ne_zero m (by norm_num)
    exact mul_left_cancel₀ hne hroot

/-- Instance of C16 over `ℚ` with `PARANOID` and the exact `sqrt`, at `m = 1`
and `x = 3/5`, where `sqrt((1-x)(1+x)) = 4/5`: the calls of degrees `1`, `2`
and `3` return `-4/5`, `-36/25` and `-24/25`. -/
theorem plgndr2_upward_recurrence_witness :
    |(3 / 5 : ℚ)| ≤ 1
    ∧ 1 + 2 ≤ 3
    ∧ 0 ≤ exactRootConfig.sqrt ((1 - 3 / 5) * (1 + 3 / 5))
    ∧ exactRootConfig.sqrt ((1 - 3 / 5) * (1 + 3 / 5)) ^ 2 = (1 - 3 / 5) * (1 + 3 / 5)
    ∧ plgndr2 exactRootConfig 1 1 (3 / 5) = Except.ok (-4 / 5)
    ∧ plgndr2 exactRootConfig 2 1 (3 / 5) = Except.ok (-36 / 25)
    ∧ plgndr2 exactRootConfig 3 1 (3 / 5) = Except.ok (-24 / 25)
    ∧ (-4 / 5 : ℚ) ^ 2 = (Nat.doubleFactorial (2 * 1 - 1) : ℚ) ^ 2 * (1 - (3 / 5) ^ 2) ^ 1 := by
  have hx : |(3 / 5 : ℚ)| ≤ 1 := by norm_num [abs_le]
  have hroot : exactRootConfig.sqrt ((1 - 3 / 5) * (1 + 3 / 5)) = 4 / 5 := by
    show Rat.sqrt ((1 - 3 / 5) * (1 + 3 / 5)) = 4 / 5
    have e : ((1 : ℚ) - 3 / 5) * (1 + 3 / 5) = (4 / 5) * (4 / 5) := by norm_num
    rw [e, Rat.sqrt_eq]
    norm_num [abs_of_pos]
  have hs0 : 0 ≤ exactRootConfig.sqrt ((1 - 3 / 5) * (1 + 3 / 5)) := by
    rw [hroot]
    norm_num
  have hs2 : exactRootConfig.sqrt ((1 - 3 / 5) * (1 + 3 / 5)) ^ 2
      = (1 - 3 / 5) * (1 + 3 / 5) := by
    rw [hroot]
    norm_num
  obtain ⟨⟨p2, q1, hp2, hq1, h21⟩, hrec, hseed, hpin⟩ :=
    plgndr2_upward_recurrence exactRootConfig 1 (3 / 5) hx
  obtain ⟨p3, q2, r1, hp3, hq2, hr1, h321⟩ := hrec 3 (by decide)
  obtain ⟨q, hq, hqsq, _, _⟩ := hpin hs0 hs2
  have h1 : plgndr2 exactRootConfig 1 1 (3 / 5) = Except.ok (-4 / 5) := by
    rw [hseed, hroot]
    norm_num [Nat.doubleFactorial]
  have e1 : q1 = -4 / 5 := Except.ok.inj (hq1.symm.trans h1)
  have e1r : r1 = -4 / 5 := Except.ok.inj (hr1.symm.trans h1)
  have e1q : q = -4 / 5 := Except.ok.inj (hq.symm.trans h1)
  have e2 : p2 = -36 / 25 := by
    rw [h21, e1]
    norm_num
  have h2 : plgndr2 exactRootConfig 2 1 (3 / 5) = Except.ok (-36 / 25) := by
    rw [← e2]
    exact hp2
  have e2q : q2 = -36 / 25 := Except.ok.inj (hq2.symm.trans h2)
  have e3 : p3 = -24 / 25 := by
    rw [e2q, e1r] at h321
    norm_num at h321
    linarith
  have h3 : plgndr2 exactRootConfig 3 1 (3 / 5) = Except.ok (-24 / 25) := by
    rw [← e3]
    exact hp3
  rw [e1q] at hqsq
  exact ⟨hx, by decide, hs0, hs2, h1, h2, h3, hqsq⟩

end Legendre

/-! ### p-refineable elements -/

section PRefineable

open PRefineableQElement

/-- C17: constructing a 3D p-refineable element always fails.  For every
`INITIAL_NNODE_1D`, the constructor of `PRefineableQElement<3,INITIAL_NNODE_1D>`
throws the `OomphLibError` "... not fully implemented yet!" and yields no
object, whereas the constructors of the 1D and 2D classes return an object. -/
theorem prefineable_3d_constructor_throws (INITIAL_NNODE_1D : Nat)
    (base : PRefineableElement) (OOMPH_EXCEPTION_LOCATION : String) :
    construct3 INITIAL_NNODE_1D base OOMPH_EXCEPTION_LOCATION
        = Except.error
          { error_message :=
              "3-dimensional PRefineableQElements are not fully implemented yet!\n"
            function_name := "PRefineableQElement<3,INITIAL_NNODE_1D>::PRefineableQElement()"
            location := OOMPH_EXCEPTION_LOCATION }
    ∧ (∀ e : PRefineableQElement,
        construct3 INITIAL_NNODE_1D base OOMPH_EXCEPTION_LOCATION ≠ Except.ok e)
    ∧ construct1 INITIAL_NNODE_1D base
        = Except.ok { DIM := 1, INITIAL_NNODE_1D := INITIAL_NNODE_1D, base := base }
    ∧ construct2 INITIAL_NNODE_1D base
        = Except.ok { DIM := 2, INITIAL_NNODE_1D := INITIAL_NNODE_1D, base := base } := by
  refine ⟨rfl, ?_, rfl, rfl⟩
  intro e hc
  exact Except.noConfusion hc

/-- C18: the number of nodes along an edge is the current p-order.  For every
object of a class `PRefineableQElement<DIM,INITIAL_NNODE_1D>`, in any state,
`nnode_1d() = p_order()` and `initial_p_order() = INITIAL_NNODE_1D`; after the
p-order is changed to `p`, `nnode_1d()` is `p` and `initial_p_order()` is
still `INITIAL_NNODE_1D`. -/
theorem prefineable_nnode_1d_is_p_order (e : PRefineableQElement) (p : Nat) :
    e.nnode_1d = e.p_order
    ∧ e.initial_p_order = e.INITIAL_NNODE_1D
    ∧ ({ e with base := { P_order := p } } : PRefineableQElement).nnode_1d = p
    ∧ ({ e with base := { P_order := p } } : PRefineableQElement).initial_p_order
        = e.INITIAL_NNODE_1D :=
  ⟨rfl, rfl, rfl, rfl⟩

end PRefineable

/-! ### Compressed-matrix coefficients -/

section Coefficients

variable {α : Type}

open CompressedMatrixCoefficient

/-- C20: `CompressedMatrixCoefficient` is ordered by index alone.  For all
coefficients `a`, `b`, `c`: `a < b` iff `a.index() < b.index()`; the relation is
irreflexive, asymmetric and transitive; neither `a < b` nor `b < a` holds iff
the indices are equal, whatever the values; copy construction and assignment
produce a coefficient with the same index and the same value. -/
theorem compressed_coefficient_order (a b c : CompressedMatrixCoefficient α) :
    (a.lt b = true ↔ a.index < b.index)
    ∧ a.lt a = false
    ∧ (a.lt b = true → b.lt a = false)
    ∧ (a.lt b = true → b.lt c = true → a.lt c = true)
    ∧ ((a.lt b = false ∧ b.lt a = false) ↔ a.index = b.index)
    ∧ (∀ v w : α, ((create a.index v).lt (create b.index w) = false
        ∧ (create b.index w).lt (create a.index v) = false) ↔ a.index = b.index)
    ∧ (a.copy.index = a.index ∧ a.copy.value = a.value)
    ∧ ((b.assign a).index = a.index ∧ (b.assign a).value = a.value) := by
  have hlt : ∀ x y : CompressedMatrixCoefficient α, x.lt y = true ↔ x.index < y.index := by
    intro x y
    unfold CompressedMatrixCoefficient.lt CompressedMatrixCoefficient.index
    exact decide_eq_true_iff
  have hnlt : ∀ x y : CompressedMatrixCoefficient α, x.lt y = false ↔ ¬ x.index < y.index := by
    intro x y
    rw [← hlt x y]
    cases x.lt y <;> simp
  refine ⟨hlt a b, ?_, ?_, ?_, ?_, ?_, ⟨rfl, rfl⟩, ⟨rfl, rfl⟩⟩
  · rw [hnlt]
    exact Nat.lt_irrefl _
  · intro h
    rw [hlt] at h
    rw [hnlt]
    omega
  · intro h1 h2
    rw [hlt] at h1 h2 ⊢
    omega
  · rw [hnlt, hnlt]
    constructor
    · rintro ⟨h1, h2⟩
      omega
    · intro h
      omega
  · intro v w
    rw [hnlt, hnlt]
    show (¬ a.index < b.index ∧ ¬ b.index < a.index) ↔ a.index = b.index
    constructor
    · rintro ⟨h1, h2⟩
      omega
    · intro h
      omega

/-- Instance of C20 over `ℚ`: the coefficients `(1, 5)`, `(2, -3)`, `(4, 0)`
are in increasing order of index. -/
theorem compressed_coefficient_order_witness :
    (create 1 (5 : ℚ)).lt (create 2 (-3 : ℚ)) = true
    ∧ (create 2 (-3 : ℚ)).lt (create 4 (0 : ℚ)) = true
    ∧ (create 2 (-3 : ℚ)).lt (create 1 (5 : ℚ)) = false
    ∧ (create 1 (5 : ℚ)).lt (create 4 (0 : ℚ)) = true :=
  ⟨rfl, rfl,
   (compressed_coefficient_order (create 1 (5 : ℚ)) (create 2 (-3 : ℚ))
      (create 4 (0 : ℚ))).2.2.1 rfl,
   (compressed_coefficient_order (create 1 (5 : ℚ)) (create 2 (-3 : ℚ))
      (create 4 (0 : ℚ))).2.2.2.1 rfl rfl⟩

end Coefficients

/-! ### The derivative of the interpolated unknown with respect to the data -/

section Ddata

variable {α : Type} [Zero α]

open AdvDiffBulkElement

theorem unpinned_succ (E : AdvDiffBulkElement α) (n : Nat) :
    E.unpinned (n + 1)
      = E.unpinned n
        ++ (if 0 ≤ E.eqn_number n E.u_index_axisym_adv_diff then [n] else []) := by
  unfold AdvDiffBulkElement.unpinned
  rw [List.range_succ, List.filter_append]
  congr 1
  by_cases h : 0 ≤ E.eqn_number n E.u_index_axisym_adv_diff
  · simp [h]
  · simp [h]

theorem count_dofs_eq (E : AdvDiffBulkElement α) (n : Nat) :
    E.count_dofs n = (E.unpinned n).length := by
  induction n with
  | zero => rfl
  | succ n ih =>
    have hstep : E.count_dofs (n + 1)
        = if E.eqn_number n E.u_index_axisym_adv_diff ≥ 0 then E.count_dofs n + 1
          else E.count_dofs n := rfl
    rw [hstep, unpinned_succ, ih]
    by_cases h : 0 ≤ E.eqn_number n E.u_index_axisym_adv_diff
    · have h' : E.eqn_number n E.u_index_axisym_adv_diff ≥ 0 := h
      simp [h, h']
    · have h' : ¬ E.eqn_number n E.u_index_axisym_adv_diff ≥ 0 := h
      simp [h, h']

theorem unpinned_length_mono (E : AdvDiffBulkElement α) (n N : Nat) (h : n ≤ N) :
    (E.unpinned n).length ≤ (E.unpinned N).length := by
  induction N with
  | zero =>
    have : n = 0 := by omega
    subst this
    exact le_rfl
  | succ N ih =>
    rcases Nat.eq_or_lt_of_le h with heq | hlt
    · subst heq
      exact le_rfl
    · have h1 := ih (by omega)
      rw [unpinned_succ, List.length_append]
      omega

theorem resize_length {β : Type} (v : List β) (n : Nat) (val : β) :
    (resize v n val).length = n := by
  unfold resize
  rw [List.length_append, List.length_take, List.length_replicate]
  omega

theorem take_succ_set {β : Type} (l : List β) (c : Nat) (v : β) (h : c < l.length) :
    (l.set c v).take (c + 1) = l.take c ++ [v] := by
  induction l generalizing c with
  | nil => exact absurd h (Nat.not_lt_zero c)
  | cons a t ih =>
    cases c with
    | zero => rfl
    | succ c =>
      have hc : c < t.length := by
        simp only [List.length_cons] at h
        omega
      show a :: (t.set c v).take (c + 1) = a :: (t.take c ++ [v])
      rw [ih c hc]

/-- Loop invariant of the second loop of `dinterpolated_u_adv_diff_ddata`. -/
theorem ddata_invariant (E : AdvDiffBulkElement α) (psi : Nat → α)
    (du : List α) (ge : List Nat)
    (hdu : du.length = (E.unpinned E.nnode).length)
    (hge : ge.length = (E.unpinned E.nnode).length)
    (n : Nat) (hn : n ≤ E.nnode) :
    (forLoop n (E.ddata_step psi)
        { du_ddata := du, global_eqn_number := ge, count := 0 }).count
      = (E.unpinned n).length
    ∧ (forLoop n (E.ddata_step psi)
        { du_ddata := du, global_eqn_number := ge, count := 0 }).du_ddata.length
      = (E.unpinned E.nnode).length
    ∧ (forLoop n (E.ddata_step psi)
        { du_ddata := du, global_eqn_number := ge, count := 0 }).global_eqn_number.length
      = (E.unpinned E.nnode).length
    ∧ (forLoop n (E.ddata_step psi)
        { du_ddata := du, global_eqn_number := ge, count := 0 }).du_ddata.take
          (E.unpinned n).length
      = (E.unpinned n).map psi
    ∧ (forLoop n (E.ddata_step psi)
        { du_ddata := du, global_eqn_number := ge, count := 0 }).global_eqn_number.take
          (E.unpinned n).length
      = (E.unpinned n).map (fun l => (E.eqn_number l E.u_index_axisym_adv_diff).toNat) := by
  induction n with
  | zero =>
    refine ⟨rfl, hdu, hge, ?_, ?_⟩
    · show List.take 0 du = []
      rfl
    · show List.take 0 ge = []
      rfl
  | succ n ih =>
    obtain ⟨hc, hl1, hl2, ht1, ht2⟩ := ih (by omega)
    rw [forLoop_succ]
    generalize forLoop n (E.ddata_step psi)
      { du_ddata := du, global_eqn_number := ge, count := 0 } = st at hc hl1 hl2 ht1 ht2
    have hmono := unpinned_length_mono E (n + 1) E.nnode hn
    rw [unpinned_succ] at hmono ⊢
    unfold AdvDiffBulkElement.ddata_step
    by_cases h : 0 ≤ E.eqn_number n E.u_index_axisym_adv_diff
    · have h' : E.eqn_number n E.u_index_axisym_adv_diff ≥ 0 := h
      rw [if_pos h] at hmono ⊢
      simp only [h', if_true]
      rw [List.length_append, List.length_singleton] at hmono ⊢
      have hlt1 : st.count < st.du_ddata.length := by omega
      have hlt2 : st.count < st.global_eqn_number.length := by omega
      refine ⟨by omega, ?_, ?_, ?_, ?_⟩
      · rw [List.length_set]
        exact hl1
      · rw [List.length_set]
        exact hl2
      · rw [← hc, take_succ_set _ _ _ hlt1, hc, ht1, List.map_append]
        rfl
      · rw [← hc, take_succ_set _ _ _ hlt2, hc, ht2, List.map_append]
        rfl
    · have h' : ¬ E.eqn_number n E.u_index_axisym_adv_diff ≥ 0 := h
      rw [if_neg h]
      simp only [h', if_false, List.append_nil]
      exact ⟨hc, hl1, hl2, ht1, ht2⟩

/-- C19: `dinterpolated_u_adv_diff_ddata` returns exactly the unpinned
dependencies in node order.  For every element state, local coordinate `s`
and content of the two vectors on entry, `du_ddata` is the list of the shape
function values `psi[l]` and `global_eqn_number` the list of the equation
numbers of the nodes `l` with equation number `≥ 0`, in increasing node order;
both have the length of that list of nodes; a node of the element is in the
list iff its equation number is `≥ 0` (so `0` is included, negatives are
omitted). -/
theorem dinterpolated_u_ddata_unpinned (E : AdvDiffBulkElement α) (s : Nat → α)
    (du_ddata : List α) (global_eqn_number : List Nat) :
    (E.dinterpolated_u_adv_diff_ddata s du_ddata global_eqn_number).1
        = (E.unpinned E.nnode).map (E.shape s)
    ∧ (E.dinterpolated_u_adv_diff_ddata s du_ddata global_eqn_number).2
        = (E.unpinned E.nnode).map
            (fun l => (E.eqn_number l E.u_index_axisym_adv_diff).toNat)
    ∧ (E.dinterpolated_u_adv_diff_ddata s du_ddata global_eqn_number).1.length
        = (E.unpinned E.nnode).length
    ∧ (E.dinterpolated_u_adv_diff_ddata s du_ddata global_eqn_number).2.length
        = (E.unpinned E.nnode).length
    ∧ (∀ l, l ∈ E.unpinned E.nnode
        ↔ (l < E.nnode ∧ 0 ≤ E.eqn_number l E.u_index_axisym_adv_diff))
    ∧ (E.unpinned E.nnode).Sorted (· < ·) := by
  have hinv := ddata_invariant E (E.shape s)
    (resize du_ddata (E.count_dofs E.nnode) 0)
    (resize global_eqn_number (E.count_dofs E.nnode) 0)
    (by rw [resize_length, count_dofs_eq])
    (by rw [resize_length, count_dofs_eq])
    E.nnode le_rfl
  obtain ⟨-, hl1, hl2, ht1, ht2⟩ := hinv
  have h1 : (E.dinterpolated_u_adv_diff_ddata s du_ddata global_eqn_number).1
      = (E.unpinned E.nnode).map (E.shape s) := by
    unfold AdvDiffBulkElement.dinterpolated_u_adv_diff_ddata
    simp only []
    rw [← ht1, ← hl1, List.take_length]
  have h2 : (E.dinterpolated_u_adv_diff_ddata s du_ddata global_eqn_number).2
      = (E.unpinned E.nnode).map
          (fun l => (E.eqn_number l E.u_index_axisym_adv_diff).toNat) := by
    unfold AdvDiffBulkElement.dinterpolated_u_adv_diff_ddata
    simp only []
    rw [← ht2, ← hl2, List.take_length]
  refine ⟨h1, h2, ?_, ?_, ?_, ?_⟩
  · rw [h1, List.length_map]
  · rw [h2, List.length_map]
  · intro l
    unfold AdvDiffBulkElement.unpinned
    rw [List.mem_filter, List.mem_range, decide_eq_true_iff]
  · unfold AdvDiffBulkElement.unpinned
    exact List.Sorted.filter _ (List.sorted_lt_range _)

/-- Instance of C19 on the sample element, called with vectors that already
hold entries: the equation numbers returned are those of nodes 1 and 3. -/
theorem dinterpolated_u_ddata_unpinned_witness :
    (sampleBulk.dinterpolated_u_adv_diff_ddata (fun _ => 0) [9, 9, 9, 9, 9] [1]).2 = [0, 7]
    ∧ (sampleBulk.dinterpolated_u_adv_diff_ddata (fun _ => 0) [9, 9, 9, 9, 9] [1]).1.length
        = 2 :=
  ⟨(dinterpolated_u_ddata_unpinned sampleBulk (fun _ => 0) [9, 9, 9, 9, 9] [1]).2.1.trans
      (by decide),
   (dinterpolated_u_ddata_unpinned sampleBulk (fun _ => 0) [9, 9, 9, 9, 9] [1]).2.2.1.trans
      (by decide)⟩

end Ddata

/-! ### Exactness of the Gauss rules -/

section GaussExact

variable {α : Type} [LinearOrderedField α]

/-- The moments of the two-point rule up to degree three. -/
theorem gauss_1_2_moment (r : α) (h : 3 * r ^ 2 = 1) (k : Nat) (hk : k ≤ 3) :
    (∑ i in Finset.range (Gauss_1_2 r).nweight,
        (Gauss_1_2 r).weight i * (Gauss_1_2 r).knot i 0 ^ k) = monomialIntegral k := by
  interval_cases k <;>
    simp [Gauss_1_2, Finset.sum_range_succ, monomialIntegral]
  · linear_combination (2 / 3 : α) * h
  · ring

/-- The moments of the three-point rule up to degree five. -/
theorem gauss_1_3_moment (r : α) (h : 5 * r ^ 2 = 3) (k : Nat) (hk : k ≤ 5) :
    (∑ i in Finset.range (Gauss_1_3 r).nweight,
        (Gauss_1_3 r).weight i * (Gauss_1_3 r).knot i 0 ^ k) = monomialIntegral k := by
  interval_cases k <;>
    simp [Gauss_1_3, Finset.sum_range_succ, monomialIntegral]
  · norm_num
  · linear_combination (2 / 9 : α) * h
  · ring
  · linear_combination (2 / 9 * r ^ 2 + 2 / 15 : α) * h
  · ring

/-- The moments of the four-point rule up to degree seven. -/
theorem gauss_1_4_moment (a b q : α) (hq : q ^ 2 = 30) (ha : 35 * a ^ 2 = 15 - 2 * q)
    (hb : 35 * b ^ 2 = 15 + 2 * q) (k : Nat) (hk : k ≤ 7) :
    (∑ i in Finset.range (Gauss_1_4 a b q).nweight,
        (Gauss_1_4 a b q).weight i * (Gauss_1_4 a b q).knot i 0 ^ k) = monomialIntegral k := by
  interval_cases k <;>
    simp [Gauss_1_4, Finset.sum_range_succ, monomialIntegral]
  · ring
  · linear_combination (2 * ((18 + q) / 36) / 35 : α) * ha
      + (2 * ((18 - q) / 36) / 35 : α) * hb - (2 / 315 : α) * hq
  · ring
  · linear_combination
      (2 * ((18 + q) / 36) / 35 * (a ^ 2 + (15 - 2 * q) / 35) : α) * ha
      + (2 * ((18 - q) / 36) / 35 * (b ^ 2 + (15 + 2 * q) / 35) : α) * hb
      + (4 / 3675 : α) * hq
  · ring
  · linear_combination
      (2 * ((18 + q) / 36) / 35
          * (a ^ 4 + a ^ 2 * ((15 - 2 * q) / 35) + ((15 - 2 * q) / 35) ^ 2) : α) * ha
      + (2 * ((18 - q) / 36) / 35
          * (b ^ 4 + b ^ 2 * ((15 + 2 * q) / 35) + ((15 + 2 * q) / 35) ^ 2) : α) * hb
      + (2 / 1543500 * (3300 - 16 * q ^ 2) : α) * hq
  · ring

/-- A 1D rule with the right moments up to degree `d` integrates every
polynomial of degree at most `d` exactly. -/
theorem rule_exact_1d (g : Integral α) (d : Nat)
    (hm : ∀ k, k ≤ d →
      (∑ i in Finset.range g.nweight, g.weight i * g.knot i 0 ^ k) = monomialIntegral k)
    (c : Nat → α) :
    (∑ i in Finset.range g.nweight, g.weight i * poly1 d c (g.knot i 0)) = integral1 d c := by
  unfold poly1 integral1
  simp only [Finset.mul_sum]
  rw [Finset.sum_comm]
  apply Finset.sum_congr rfl
  intro k hk
  have hk' : k ≤ d := Nat.lt_succ_iff.mp (Finset.mem_range.mp hk)
  rw [← hm k hk', Finset.mul_sum]
  apply Finset.sum_congr rfl
  intro i _
  ring

theorem poly2_as_poly1 (d : Nat) (c : Nat → Nat → α) (x y : α) :
    poly2 d c x y = poly1 d (fun a => ∑ b in Finset.range (d + 1), c a b * y ^ b) x := by
  unfold poly2 poly1
  apply Finset.sum_congr rfl
  intro a _
  rw [Finset.sum_mul]
  apply Finset.sum_congr rfl
  intro b _
  ring

theorem poly3_as_poly2 (d : Nat) (c : Nat → Nat → Nat → α) (x y z : α) :
    poly3 d c x y z
      = poly2 d (fun a b => ∑ e in Finset.range (d + 1), c a b e * z ^ e) x y := by
  unfold poly3 poly2
  apply Finset.sum_congr rfl
  intro a _
  apply Finset.sum_congr rfl
  intro b _
  rw [Finset.sum_mul, Finset.sum_mul]
  apply Finset.sum_congr rfl
  intro e _
  ring

/-- The tensor product of a 1D rule with the right moments integrates every
polynomial of degree at most `d` in each of two variables exactly. -/
theorem rule_exact_2d (g : Integral α) (d : Nat)
    (hm : ∀ k, k ≤ d →
      (∑ i in Finset.range g.nweight, g.weight i * g.knot i 0 ^ k) = monomialIntegral k)
    (c : Nat → Nat → α) :
    (∑ j in Finset.range g.nweight, ∑ i in Finset.range g.nweight,
        g.weight i * g.weight j * poly2 d c (g.knot i 0) (g.knot j 0)) = integral2 d c := by
  have step1 : ∀ j, (∑ i in Finset.range g.nweight,
        g.weight i * g.weight j * poly2 d c (g.knot i 0) (g.knot j 0))
      = g.weight j * ∑ a in Finset.range (d + 1),
          (poly1 d (c a) (g.knot j 0)) * monomialIntegral a := by
    intro j
    have h1 := rule_exact_1d g d hm
      (fun a => ∑ b in Finset.range (d + 1), c a b * g.knot j 0 ^ b)
    unfold integral1 at h1
    have h2 : ∀ a, poly1 d (c a) (g.knot j 0)
        = ∑ b in Finset.range (d + 1), c a b * g.knot j 0 ^ b := fun a => rfl
    simp only [h2]
    rw [← h1, Finset.mul_sum]
    apply Finset.sum_congr rfl
    intro i _
    rw [poly2_as_poly1]
    ring
  simp only [step1]
  unfold integral2
  simp only [Finset.mul_sum]
  rw [Finset.sum_comm]
  apply Finset.sum_congr rfl
  intro a _
  have h3 := rule_exact_1d g d hm (c a)
  unfold integral1 at h3
  have h4 : (∑ b in Finset.range (d + 1), c a b * monomialIntegral a * monomialIntegral b)
      = monomialIntegral a * ∑ b in Finset.range (d + 1), c a b * monomialIntegral b := by
    rw [Finset.mul_sum]
    apply Finset.sum_congr rfl
    intro b _
    ring
  rw [h4, ← h3, Finset.mul_sum]
  apply Finset.sum_congr rfl
  intro j _
  ring

/-- The three-fold tensor product of a 1D rule with the right moments
integrates every polynomial of degree at most `d` in each of three variables
exactly. -/
theorem rule_exact_3d (g : Integral α) (d : Nat)
    (hm : ∀ k, k ≤ d →
      (∑ i in Finset.range g.nweight, g.weight i * g.knot i 0 ^ k) = monomialIntegral k)
    (c : Nat → Nat → Nat → α) :
    (∑ k in Finset.range g.nweight, ∑ j in Finset.range g.nweight,
        ∑ i in Finset.range g.nweight,
          g.weight i * g.weight j * g.weight k
            * poly3 d c (g.knot i 0) (g.knot j 0) (g.knot k 0)) = integral3 d c := by
  have step1 : ∀ k, (∑ j in Finset.range g.nweight, ∑ i in Finset.range g.nweight,
        g.weight i * g.weight j * g.weight k
          * poly3 d c (g.knot i 0) (g.knot j 0) (g.knot k 0))
      = g.weight k * ∑ a in Finset.range (d + 1), ∑ b in Finset.range (d + 1),
          (poly1 d (c a b) (g.knot k 0)) * monomialIntegral a * monomialIntegral b := by
    intro k
    have h1 := rule_exact_2d g d hm
      (fun a b => ∑ e in Finset.range (d + 1), c a b e * g.knot k 0 ^ e)
    unfold integral2 at h1
    have h2 : ∀ a b, poly1 d (c a b) (g.knot k 0)
        = ∑ e in Finset.range (d + 1), c a b e * g.knot k 0 ^ e := fun a b => rfl
    simp only [h2]
    rw [← h1, Finset.mul_sum]
    apply Finset.sum_congr rfl
    intro j _
    rw [Finset.mul_sum]
    apply Finset.sum_congr rfl
    intro i _
    rw [poly3_as_poly2]
    ring
  simp only [step1]
  unfold integral3
  simp only [Finset.mul_sum]
  rw [Finset.sum_comm]
  apply Finset.sum_congr rfl
  intro a _
  rw [Finset.sum_comm]
  apply Finset.sum_congr rfl
  intro b _
  have h3 := rule_exact_1d g d hm (c a b)
  unfold integral1 at h3
  have h4 : (∑ e in Finset.range (d + 1),
        c a b e * monomialIntegral a * monomialIntegral b * monomialIntegral e)
      = monomialIntegral a * monomialIntegral b
          * ∑ e in Finset.range (d + 1), c a b e * monomialIntegral e := by
    rw [Finset.mul_sum]
    apply Finset.sum_congr rfl
    intro e _
    ring
  rw [h4, ← h3, Finset.mul_sum]
  apply Finset.sum_congr rfl
  intro k _
  ring

end GaussExact

/-! ### Exactness of the Gauss rules over the reals -/

section GaussExactReal

open intervalIntegral

/-- The term-by-term integral of a monomial is its integral over `[-1,1]`. -/
theorem monomialIntegral_eq_integral (k : Nat) :
    (monomialIntegral k : ℝ) = ∫ x in (-1 : ℝ)..1, x ^ k := by
  rw [integral_pow]
  unfold monomialIntegral
  rcases Nat.even_or_odd k with hk | hk
  · have h1 : k % 2 = 0 := Nat.even_iff.mp hk
    have h2 : Odd (k + 1) := hk.add_one
    rw [if_pos h1, h2.neg_one_pow]
    simp
    norm_num
  · have h1 : ¬ k % 2 = 0 := by
      rw [Nat.odd_iff] at hk
      omega
    have h2 : Even (k + 1) := hk.add_one
    rw [if_neg h1, h2.neg_one_pow]
    simp

theorem integral1_eq_integral (d : Nat) (c : Nat → ℝ) :
    integral1 d c = ∫ x in (-1 : ℝ)..1, poly1 d c x := by
  unfold integral1 poly1
  rw [integral_finset_sum]
  · apply Finset.sum_congr rfl
    intro k _
    rw [integral_const_mul, monomialIntegral_eq_integral]
  · intro k _
    exact (Continuous.intervalIntegrable (by continuity) _ _)

theorem integral2_eq_integral (d : Nat) (c : Nat → Nat → ℝ) :
    integral2 d c = ∫ x in (-1 : ℝ)..1, ∫ y in (-1 : ℝ)..1, poly2 d c x y := by
  have inner : ∀ x : ℝ, (∫ y in (-1 : ℝ)..1, poly2 d c x y)
      = poly1 d (fun a => ∑ b in Finset.range (d + 1), c a b * monomialIntegral b) x := by
    intro x
    unfold poly2 poly1
    rw [integral_finset_sum]
    · apply Finset.sum_congr rfl
      intro a _
      rw [integral_finset_sum]
      · rw [Finset.sum_mul]
        apply Finset.sum_congr rfl
        intro b _
        rw [integral_const_mul, ← monomialIntegral_eq_integral]
        ring
      · intro b _
        exact (Continuous.intervalIntegrable (by continuity) _ _)
    · intro a _
      exact (Continuous.intervalIntegrable (by continuity) _ _)
  simp only [inner]
  rw [← integral1_eq_integral]
  unfold integral1 integral2
  apply Finset.sum_congr rfl
  intro a _
  rw [Finset.sum_mul]
  apply Finset.sum_congr rfl
  intro b _
  ring

theorem integral3_eq_integral (d : Nat) (c : Nat → Nat → Nat → ℝ) :
    integral3 d c
      = ∫ x in (-1 : ℝ)..1, ∫ y in (-1 : ℝ)..1, ∫ z in (-1 : ℝ)..1, poly3 d c x y z := by
  have inner : ∀ x y : ℝ, (∫ z in (-1 : ℝ)..1, poly3 d c x y z)
      = poly2 d (fun a b => ∑ e in Finset.range (d + 1), c a b e * monomialIntegral e)
          x y := by
    intro x y
    unfold poly3 poly2
    rw [integral_finset_sum]
    · apply Finset.sum_congr rfl
      intro a _
      rw [integral_finset_sum]
      · apply Finset.sum_congr rfl
        intro b _
        rw [integral_finset_sum]
        · rw [Finset.sum_mul, Finset.sum_mul]
          apply Finset.sum_congr rfl
          intro e _
          rw [integral_const_mul, ← monomialIntegral_eq_integral]
          ring
        · intro e _
          exact (Continuous.intervalIntegrable (by continuity) _ _)
      · intro b _
        exact (Continuous.intervalIntegrable (by continuity) _ _)
    · intro a _
      exact (Continuous.intervalIntegrable (by continuity) _ _)
  simp only [inner]
  rw [← integral2_eq_integral]
  unfold integral2 integral3
  apply Finset.sum_congr rfl
  intro a _
  apply Finset.sum_congr rfl
  intro b _
  rw [Finset.sum_mul, Finset.sum_mul]
  apply Finset.sum_congr rfl
  intro e _
  ring

/-- Exactness of a 1D rule, its square and its cube in terms of the quadrature
sums and the integrals over `[-1,1]`, `[-1,1]^2`, `[-1,1]^3`. -/
theorem rule_exact_quadrature (g : Integral ℝ) (d : Nat)
    (hm : ∀ k, k ≤ d →
      (∑ i in Finset.range g.nweight, g.weight i * g.knot i 0 ^ k) = monomialIntegral k) :
    (∀ c : Nat → ℝ,
      g.quadrature (fun x => poly1 d c (x 0)) = ∫ x in (-1 : ℝ)..1, poly1 d c x)
    ∧ (∀ c : Nat → Nat → ℝ,
      (Gauss_2 g).quadrature (fun x => poly2 d c (x 0) (x 1))
        = ∫ x in (-1 : ℝ)..1, ∫ y in (-1 : ℝ)..1, poly2 d c x y)
    ∧ (∀ c : Nat → Nat → Nat → ℝ,
      (Gauss_3 g).quadrature (fun x => poly3 d c (x 0) (x 1) (x 2))
        = ∫ x in (-1 : ℝ)..1, ∫ y in (-1 : ℝ)..1, ∫ z in (-1 : ℝ)..1, poly3 d c x y z) := by
  refine ⟨?_, ?_, ?_⟩
  · intro c
    rw [← integral1_eq_integral]
    exact rule_exact_1d g d hm c
  · intro c
    rw [← integral2_eq_integral, ← rule_exact_2d g d hm c]
    exact sum_range_blocks g.nweight g.nweight
      (fun j i => g.weight i * g.weight j * poly2 d c (g.knot i 0) (g.knot j 0))
  · intro c
    rw [← integral3_eq_integral, ← rule_exact_3d g d hm c]
    have h1 := sum_range_blocks (g.nweight * g.nweight) g.nweight
      (fun k m => g.weight (m % g.nweight) * g.weight (m / g.nweight) * g.weight k
        * poly3 d c (g.knot (m % g.nweight) 0) (g.knot (m / g.nweight) 0) (g.knot k 0))
    have h2 : ∀ k, (∑ m in Finset.range (g.nweight * g.nweight),
          g.weight (m % g.nweight) * g.weight (m / g.nweight) * g.weight k
            * poly3 d c (g.knot (m % g.nweight) 0) (g.knot (m / g.nweight) 0) (g.knot k 0))
        = ∑ j in Finset.range g.nweight, ∑ i in Finset.range g.nweight,
            g.weight i * g.weight j * g.weight k
              * poly3 d c (g.knot i 0) (g.knot j 0) (g.knot k 0) := fun k =>
      sum_range_blocks g.nweight g.nweight
        (fun j i => g.weight i * g.weight j * g.weight k
          * poly3 d c (g.knot i 0) (g.knot j 0) (g.knot k 0))
    simp only [h2] at h1
    exact h1

/-- C13: documented exactness of the Gauss rules, for the Gauss-Legendre
tables the spec prescribes.  With `r2 = 1/√3`, `r3 = √(3/5)` and the
four-point knots `a`, `b` (given by `q = √30`), the rule `Gauss<1,N>` with
`N = 2, 3, 4` points integrates every polynomial of degree `≤ 2N-1` exactly
over `[-1,1]` (degrees 3, 5, 7), and `Gauss<2,N>`, `Gauss<3,N>` with `N^2`,
`N^3` points integrate every polynomial of degree `≤ 2N-1` in each coordinate
exactly over the reference square and cube. -/
theorem gauss_rules_exact (r2 r3 a b q : ℝ) (h2 : 3 * r2 ^ 2 = 1) (h3 : 5 * r3 ^ 2 = 3)
    (hq : q ^ 2 = 30) (ha : 35 * a ^ 2 = 15 - 2 * q) (hb : 35 * b ^ 2 = 15 + 2 * q) :
    ((Gauss_1_2 r2).nweight = 2 ∧ (Gauss_1_3 r3).nweight = 3
      ∧ (Gauss_1_4 a b q).nweight = 4)
    ∧ ((Gauss_2 (Gauss_1_2 r2)).nweight = 2 ^ 2 ∧ (Gauss_2 (Gauss_1_3 r3)).nweight = 3 ^ 2
      ∧ (Gauss_2 (Gauss_1_4 a b q)).nweight = 4 ^ 2)
    ∧ ((Gauss_3 (Gauss_1_2 r2)).nweight = 2 ^ 3 ∧ (Gauss_3 (Gauss_1_3 r3)).nweight = 3 ^ 3
      ∧ (Gauss_3 (Gauss_1_4 a b q)).nweight = 4 ^ 3)
    ∧ (∀ c : Nat → ℝ,
        (Gauss_1_2 r2).quadrature (fun x => poly1 3 c (x 0))
          = ∫ x in (-1 : ℝ)..1, poly1 3 c x)
    ∧ (∀ c : Nat → ℝ,
        (Gauss_1_3 r3).quadrature (fun x => poly1 5 c (x 0))
          = ∫ x in (-1 : ℝ)..1, poly1 5 c x)
    ∧ (∀ c : Nat → ℝ,
        (Gauss_1_4 a b q).quadrature (fun x => poly1 7 c (x 0))
          = ∫ x in (-1 : ℝ)..1, poly1 7 c x)
    ∧ (∀ c : Nat → Nat → ℝ,
        (Gauss_2 (Gauss_1_2 r2)).quadrature (fun x => poly2 3 c (x 0) (x 1))
          = ∫ x in (-1 : ℝ)..1, ∫ y in (-1 : ℝ)..1, poly2 3 c x y)
    ∧ (∀ c : Nat → Nat → ℝ,
        (Gauss_2 (Gauss_1_3 r3)).quadrature (fun x => poly2 5 c (x 0) (x 1))
          = ∫ x in (-1 : ℝ)..1, ∫ y in (-1 : ℝ)..1, poly2 5 c x y)
    ∧ (∀ c : Nat → Nat → ℝ,
        (Gauss_2 (Gauss_1_4 a b q)).quadrature (fun x => poly2 7 c (x 0) (x 1))
          = ∫ x in (-1 : ℝ)..1, ∫ y in (-1 : ℝ)..1, poly2 7 c x y)
    ∧ (∀ c : Nat → Nat → Nat → ℝ,
        (Gauss_3 (Gauss_1_2 r2)).quadrature (fun x => poly3 3 c (x 0) (x 1) (x 2))
          = ∫ x in (-1 : ℝ)..1, ∫ y in (-1 : ℝ)..1, ∫ z in (-1 : ℝ)..1, poly3 3 c x y z)
    ∧ (∀ c : Nat → Nat → Nat → ℝ,
        (Gauss_3 (Gauss_1_3 r3)).quadrature (fun x => poly3 5 c (x 0) (x 1) (x 2))
          = ∫ x in (-1 : ℝ)..1, ∫ y in (-1 : ℝ)..1, ∫ z in (-1 : ℝ)..1, poly3 5 c x y z)
    ∧ (∀ c : Nat → Nat → Nat → ℝ,
        (Gauss_3 (Gauss_1_4 a b q)).quadrature (fun x => poly3 7 c (x 0) (x 1) (x 2))
          = ∫ x in (-1 : ℝ)..1, ∫ y in (-1 : ℝ)..1, ∫ z in (-1 : ℝ)..1, poly3 7 c x y z) := by
  obtain ⟨e21, e22, e23⟩ :=
    rule_exact_quadrature (Gauss_1_2 r2) 3 (gauss_1_2_moment r2 h2)
  obtain ⟨e31, e32, e33⟩ :=
    rule_exact_quadrature (Gauss_1_3 r3) 5 (gauss_1_3_moment r3 h3)
  obtain ⟨e41, e42, e43⟩ :=
    rule_exact_quadrature (Gauss_1_4 a b q) 7 (gauss_1_4_moment a b q hq ha hb)
  exact ⟨⟨rfl, rfl, rfl⟩, ⟨rfl, rfl, rfl⟩, ⟨rfl, rfl, rfl⟩,
    e21, e31, e41, e22, e32, e42, e23, e33, e43⟩

/-- Instance of C13 at the Gauss-Legendre knots: `r2 = √3/3`, `r3 = √15/5`,
`q = √30`, `a = √((15 - 2√30)/35)`, `b = √((15 + 2√30)/35)`. -/
theorem gauss_rules_exact_witness :
    3 * (Real.sqrt 3 / 3) ^ 2 = 1
    ∧ 5 * (Real.sqrt 15 / 5) ^ 2 = 3
    ∧ Real.sqrt 30 ^ 2 = 30
    ∧ 35 * Real.sqrt ((15 - 2 * Real.sqrt 30) / 35) ^ 2 = 15 - 2 * Real.sqrt 30
    ∧ 35 * Real.sqrt ((15 + 2 * Real.sqrt 30) / 35) ^ 2 = 15 + 2 * Real.sqrt 30
    ∧ (∀ c : Nat → ℝ,
        (Gauss_1_4 (Real.sqrt ((15 - 2 * Real.sqrt 30) / 35))
            (Real.sqrt ((15 + 2 * Real.sqrt 30) / 35)) (Real.sqrt 30)).quadrature
            (fun x => poly1 7 c (x 0))
          = ∫ x in (-1 : ℝ)..1, poly1 7 c x) := by
  have h2 : 3 * (Real.sqrt 3 / 3) ^ 2 = (1 : ℝ) := by
    rw [div_pow, Real.sq_sqrt (by norm_num)]
    norm_num
  have h3 : 5 * (Real.sqrt 15 / 5) ^ 2 = (3 : ℝ) := by
    rw [div_pow, Real.sq_sqrt (by norm_num)]
    norm_num
  have hq : Real.sqrt 30 ^ 2 = 30 := Real.sq_sqrt (by norm_num)
  have hq0 : 0 ≤ Real.sqrt 30 := Real.sqrt_nonneg 30
  have hle : Real.sqrt 30 ≤ 15 / 2 := by
    rw [Real.sqrt_le_left (by norm_num)]
    norm_num
  have ha : 35 * Real.sqrt ((15 - 2 * Real.sqrt 30) / 35) ^ 2 = 15 - 2 * Real.sqrt 30 := by
    rw [Real.sq_sqrt (by apply div_nonneg <;> linarith)]
    ring
  have hb : 35 * Real.sqrt ((15 + 2 * Real.sqrt 30) / 35) ^ 2 = 15 + 2 * Real.sqrt 30 := by
    rw [Real.sq_sqrt (by apply div_nonneg <;> linarith)]
    ring
  exact ⟨h2, h3, hq, ha, hb,
    (gauss_rules_exact (Real.sqrt 3 / 3) (Real.sqrt 15 / 5)
      (Real.sqrt ((15 - 2 * Real.sqrt 30) / 35)) (Real.sqrt ((15 + 2 * Real.sqrt 30) / 35))
      (Real.sqrt 30) h2 h3 hq ha hb).2.2.2.2.2.1⟩

end GaussExactReal

/-! ### Accumulation into the arguments -/

section Accumulation

variable {α : Type} [Field α] [DecidableEq α]

/-- C21: both assemblers accumulate into their arguments.  For the Helmholtz
assembler and for the flux assembler, for every initial residual vector `R0`,
every initial Jacobian `J0` and every flag, the returned residual vector is
`R0 + dR` and the returned Jacobian is `J0 + dJ`, where `dR`, `dJ` are what the
same call returns from a zero residual vector and a zero Jacobian on the same
element; and what is added is the same for any two initial contents `R0`, `J0`
and `R1`, `J1`. -/
theorem assembly_accumulates (H : HelmholtzElement α) (F : FluxElement α)
    (R0 R1 : Nat → α) (J0 J1 : Nat → Nat → α) (flag : Nat) :
    (∀ k,
      (H.fill_in_generic_residual_contribution_generalised_fourier_decomposed_helmholtz
          ⟨R0, J0⟩ flag).residuals k
        = R0 k
          + (H.fill_in_generic_residual_contribution_generalised_fourier_decomposed_helmholtz
              ⟨fun _ => 0, fun _ _ => 0⟩ flag).residuals k)
    ∧ (∀ a b,
      (H.fill_in_generic_residual_contribution_generalised_fourier_decomposed_helmholtz
          ⟨R0, J0⟩ flag).jacobian a b
        = J0 a b
          + (H.fill_in_generic_residual_contribution_generalised_fourier_decomposed_helmholtz
              ⟨fun _ => 0, fun _ _ => 0⟩ flag).jacobian a b)
    ∧ (∀ k,
      (F.fill_in_generic_residual_contribution_adv_diff_flux ⟨R0, J0⟩ flag).residuals k
        = R0 k
          + (F.fill_in_generic_residual_contribution_adv_diff_flux
              ⟨fun _ => 0, fun _ _ => 0⟩ flag).residuals k)
    ∧ (∀ a b,
      (F.fill_in_generic_residual_contribution_adv_diff_flux ⟨R0, J0⟩ flag).jacobian a b
        = J0 a b
          + (F.fill_in_generic_residual_contribution_adv_diff_flux
              ⟨fun _ => 0, fun _ _ => 0⟩ flag).jacobian a b)
    ∧ (∀ k,
      (H.fill_in_generic_residual_contribution_generalised_fourier_decomposed_helmholtz
          ⟨R0, J0⟩ flag).residuals k - R0 k
        = (H.fill_in_generic_residual_contribution_generalised_fourier_decomposed_helmholtz
          ⟨R1, J1⟩ flag).residuals k - R1 k)
    ∧ (∀ a b,
      (H.fill_in_generic_residual_contribution_generalised_fourier_decomposed_helmholtz
          ⟨R0, J0⟩ flag).jacobian a b - J0 a b
        = (H.fill_in_generic_residual_contribution_generalised_fourier_decomposed_helmholtz
          ⟨R1, J1⟩ flag).jacobian a b - J1 a b)
    ∧ (∀ k,
      (F.fill_in_generic_residual_contribution_adv_diff_flux ⟨R0, J0⟩ flag).residuals k - R0 k
        = (F.fill_in_generic_residual_contribution_adv_diff_flux ⟨R1, J1⟩ flag).residuals k
          - R1 k)
    ∧ (∀ a b,
      (F.fill_in_generic_residual_contribution_adv_diff_flux ⟨R0, J0⟩ flag).jacobian a b
          - J0 a b
        = (F.fill_in_generic_residual_contribution_adv_diff_flux ⟨R1, J1⟩ flag).jacobian a b
          - J1 a b) := by
  refine ⟨?_, ?_, ?_, ?_, ?_, ?_, ?_, ?_⟩
  · intro k
    rw [helmholtz_residuals_closed, helmholtz_residuals_closed, zero_add]
  · intro a b
    rw [helmholtz_jacobian_closed, helmholtz_jacobian_closed, zero_add]
  · intro k
    rw [flux_residuals_closed, flux_residuals_closed, zero_add]
  · intro a b
    rw [flux_jacobian_closed, flux_jacobian_closed, zero_add]
  · intro k
    rw [helmholtz_residuals_closed, helmholtz_residuals_closed, add_sub_cancel_left,
      add_sub_cancel_left]
  · intro a b
    rw [helmholtz_jacobian_closed, helmholtz_jacobian_closed, add_sub_cancel_left,
      add_sub_cancel_left]
  · intro k
    rw [flux_residuals_closed, flux_residuals_closed, add_sub_cancel_left,
      add_sub_cancel_left]
  · intro a b
    rw [flux_jacobian_closed, flux_jacobian_closed, add_sub_cancel_left,
      add_sub_cancel_left]

end Accumulation

/-! ### Legendre functions: order above the degree, and the factorial -/

section LegendreOrder

variable {α : Type} [LinearOrderedField α]

open Legendre_functions_helper

/-- C22: `plgndr2` returns zero when the order exceeds the degree.  For every
`l`, `m` with `m > l` and every `x` with `|x| ≤ 1`, in a build with or without
`PARANOID`, `plgndr2(l,m,x)` returns the value `0`. -/
theorem plgndr2_zero_above_degree (cfg : LegendreConfig α) (l m : Nat) (x : α)
    (hm : m > l) (hx : |x| ≤ 1) :
    plgndr2 cfg l m x = Except.ok 0 := by
  rw [plgndr2_of_check cfg l m x (Or.inr hx)]
  unfold Legendre_functions_helper.plgndr2_value
  rw [if_pos hm]

/-- Instance of C22 over `ℚ` in a build with `PARANOID`: `plgndr2(1,2,1/2)`
returns `0`. -/
theorem plgndr2_zero_above_degree_witness :
    2 > 1 ∧ |(1 / 2 : ℚ)| ≤ 1 ∧ plgndr2 paranoidConfig 1 2 (1 / 2) = Except.ok 0 :=
  ⟨by decide, by rw [abs_le]; constructor <;> norm_num,
   plgndr2_zero_above_degree paranoidConfig 1 2 (1 / 2) (by decide)
     (by rw [abs_le]; constructor <;> norm_num)⟩

end LegendreOrder

section Factorial

variable {α : Type} [Field α]

open Legendre_functions_helper

theorem factorial_zero : (factorial 0 : α) = 1 := by
  rw [factorial]
  simp

theorem factorial_succ (l : Nat) :
    (factorial (l + 1) : α) = ((l + 1 : Nat) : α) * factorial l := by
  rw [factorial]
  simp

theorem factorial_calls_zero : (factorial_calls 0 : α × Nat) = (1, 0) := by
  rw [factorial_calls]
  simp

theorem factorial_calls_succ (l : Nat) :
    (factorial_calls (l + 1) : α × Nat)
      = (((l + 1 : Nat) : α) * (factorial_calls l : α × Nat).1,
          (factorial_calls l : α × Nat).2 + 1) := by
  rw [factorial_calls]
  simp

theorem factorial_eq_nat_factorial (l : Nat) : (factorial l : α) = (Nat.factorial l : α) := by
  induction l with
  | zero => rw [factorial_zero, Nat.factorial_zero, Nat.cast_one]
  | succ l ih => rw [factorial_succ, ih, Nat.factorial_succ, Nat.cast_mul]

theorem factorial_calls_eq (l : Nat) : (factorial_calls l : α × Nat) = (factorial l, l) := by
  induction l with
  | zero => rw [factorial_calls_zero, factorial_zero]
  | succ l ih => rw [factorial_calls_succ, ih, factorial_succ]

/-- C23: `factorial` terminates and computes the factorial.  The function is
total; `factorial(0) = 1`, `factorial(l+1) = (l+1) * factorial(l)` (that is,
`factorial(l) = l * factorial(l-1)` for every `l ≥ 1`), the value of
`factorial(l)` is `l!`, and the call `factorial(l)` makes exactly `l` calls to
itself before it returns that value. -/
theorem factorial_terminates_and_computes (l : Nat) :
    (factorial 0 : α) = 1
    ∧ (factorial (l + 1) : α) = ((l + 1 : Nat) : α) * factorial (l + 1 - 1)
    ∧ (factorial l : α) = (Nat.factorial l : α)
    ∧ (factorial_calls l : α × Nat) = ((Nat.factorial l : α), l) := by
  refine ⟨factorial_zero, ?_, factorial_eq_nat_factorial l, ?_⟩
  · rw [Nat.add_sub_cancel]
    exact factorial_succ l
  · rw [factorial_calls_eq, factorial_eq_nat_factorial]

end Factorial

/-! ### The inflow profile of the demo driver -/

section Inflow

variable {α : Type} [LinearOrderedField α]

open UnstructuredFluidProblem

theorem set_velocity_apply (value : Nat → Nat → α) (node : Nat) (u v : α) (n i : Nat) :
    set_velocity value node u v n i
      = if n = node ∧ i = 1 then v else if n = node ∧ i = 0 then u else value n i := by
  unfold UnstructuredFluidProblem.set_velocity
  rw [setAt2_apply, setAt2_apply]

/-- A pass over the nodes of one boundary that writes `U n`, `0` at every node
`n` it visits: afterwards a visited node holds `U n`, `0`, and the other nodes
are as before. -/
theorem boundary_pass_read (node : Nat → Nat) (U : Nat → α) (num : Nat)
    (value : Nat → Nat → α) (n : Nat) :
    (forLoop num (fun inod value => set_velocity value (node inod) (U (node inod)) 0) value) n 0
        = (if ∃ j, j < num ∧ node j = n then U n else value n 0)
    ∧ (forLoop num (fun inod value => set_velocity value (node inod) (U (node inod)) 0) value)
          n 1
        = (if ∃ j, j < num ∧ node j = n then 0 else value n 1) := by
  induction num with
  | zero =>
    have hne : ¬ ∃ j, j < 0 ∧ node j = n := fun ⟨j, hj, _⟩ => Nat.not_lt_zero j hj
    simp only [forLoop, if_neg hne, and_self]
  | succ num ih =>
    rw [forLoop_succ, set_velocity_apply, set_velocity_apply, ih.1, ih.2]
    by_cases hn : n = node num
    · have hex : ∃ j, j < num + 1 ∧ node j = n := ⟨num, Nat.lt_succ_self num, hn.symm⟩
      subst hn
      simp only [if_pos hex]
      simp
    · have hiff : (∃ j, j < num + 1 ∧ node j = n) ↔ (∃ j, j < num ∧ node j = n) := by
        constructor
        · rintro ⟨j, hj, hjn⟩
          rcases Nat.lt_succ_iff_lt_or_eq.mp hj with h | h
          · exact ⟨j, h, hjn⟩
          · subst h
            exact absurd hjn.symm hn
        · rintro ⟨j, hj, hjn⟩
          exact ⟨j, Nat.lt_succ_of_lt hj, hjn⟩
      simp only [hn, false_and, if_false, hiff, and_self]

/-- The pass of `apply_fluid_boundary_conditions` over boundary `ibound`,
as a pass of the shape treated in `boundary_pass_read`. -/
theorem boundary_pass_eq (mesh : FluidMesh α) (y_min y_max y_mid : α) (ibound : Nat)
    (value : Nat → Nat → α) :
    forLoop (mesh.nboundary_node ibound)
        (fun inod value =>
          if ibound = 1 then
            set_velocity value (mesh.boundary_node_pt ibound inod)
              (veloc y_min y_max y_mid (mesh.x (mesh.boundary_node_pt ibound inod) 1)) 0
          else
            set_velocity value (mesh.boundary_node_pt ibound inod) 0 0)
        value
      = forLoop (mesh.nboundary_node ibound)
        (fun inod value =>
          set_velocity value (mesh.boundary_node_pt ibound inod)
            ((fun n => if ibound = 1 then veloc y_min y_max y_mid (mesh.x n 1) else 0)
              (mesh.boundary_node_pt ibound inod)) 0)
        value := by
  by_cases h : ibound = 1
  · simp only [h, if_true]
  · simp only [h, if_false]

/-- The value store after the first `nb` boundaries have been visited. -/
theorem boundaries_read (mesh : FluidMesh α) (y_min y_max y_mid : α)
    (value : Nat → Nat → α) (n : Nat)
    (hex : ∃ j, j < mesh.nboundary_node 1 ∧ mesh.boundary_node_pt 1 j = n)
    (nb : Nat) (hnb : 1 < nb)
    (hlater : ∀ ibound, 1 < ibound → ibound < nb →
      ∀ j, j < mesh.nboundary_node ibound → mesh.boundary_node_pt ibound j ≠ n) :
    (forLoop nb
        (fun ibound value =>
          forLoop (mesh.nboundary_node ibound)
            (fun inod value =>
              if ibound = 1 then
                set_velocity value (mesh.boundary_node_pt ibound inod)
                  (veloc y_min y_max y_mid (mesh.x (mesh.boundary_node_pt ibound inod) 1)) 0
              else
                set_velocity value (mesh.boundary_node_pt ibound inod) 0 0)
            value)
        value) n 0 = veloc y_min y_max y_mid (mesh.x n 1)
    ∧ (forLoop nb
        (fun ibound value =>
          forLoop (mesh.nboundary_node ibound)
            (fun inod value =>
              if ibound = 1 then
                set_velocity value (mesh.boundary_node_pt ibound inod)
                  (veloc y_min y_max y_mid (mesh.x (mesh.boundary_node_pt ibound inod) 1)) 0
              else
                set_velocity value (mesh.boundary_node_pt ibound inod) 0 0)
            value)
        value) n 1 = 0 := by
  induction nb with
  | zero => exact absurd hnb (by decide)
  | succ nb ih =>
    rw [forLoop_succ, boundary_pass_eq]
    by_cases hb : nb = 1
    · subst hb
      constructor
      · refine (boundary_pass_read (mesh.boundary_node_pt 1)
          (fun n => if 1 = 1 then veloc y_min y_max y_mid (mesh.x n 1) else 0)
          (mesh.nboundary_node 1) _ n).1.trans ?_
        rw [if_pos hex]
        simp
      · refine (boundary_pass_read (mesh.boundary_node_pt 1)
          (fun n => if 1 = 1 then veloc y_min y_max y_mid (mesh.x n 1) else 0)
          (mesh.nboundary_node 1) _ n).2.trans ?_
        rw [if_pos hex]
    · have h1 : 1 < nb := by omega
      have hno : ¬ ∃ j, j < mesh.nboundary_node nb ∧ mesh.boundary_node_pt nb j = n :=
        fun ⟨j, hj, hjn⟩ => hlater nb h1 (Nat.lt_succ_self nb) j hj hjn
      have hprev := ih h1 (fun ibound hi1 hi2 => hlater ibound hi1 (Nat.lt_succ_of_lt hi2))
      constructor
      · refine (boundary_pass_read (mesh.boundary_node_pt nb)
          (fun n => if nb = 1 then veloc y_min y_max y_mid (mesh.x n 1) else 0)
          (mesh.nboundary_node nb) _ n).1.trans ?_
        rw [if_neg hno]
        exact hprev.1
      · refine (boundary_pass_read (mesh.boundary_node_pt nb)
          (fun n => if nb = 1 then veloc y_min y_max y_mid (mesh.x n 1) else 0)
          (mesh.nboundary_node nb) _ n).2.trans ?_
        rw [if_neg hno]
        exact hprev.2

/-- A node of boundary `1` that lies on no later boundary holds the profile
value and a zero second velocity component once all boundaries are visited. -/
theorem inflow_node_value (mesh : FluidMesh α) (value : Nat → Nat → α) (inod : Nat)
    (hin : inod < mesh.nboundary_node 1) (hnb : 1 < mesh.nboundary)
    (hlater : ∀ ibound, 1 < ibound → ibound < mesh.nboundary →
      ∀ j, j < mesh.nboundary_node ibound →
        mesh.boundary_node_pt ibound j ≠ mesh.boundary_node_pt 1 inod) :
    apply_fluid_boundary_conditions mesh value (mesh.boundary_node_pt 1 inod) 0
        = veloc (inflow_bounds mesh).y_min (inflow_bounds mesh).y_max
            (y_mid (inflow_bounds mesh)) (mesh.x (mesh.boundary_node_pt 1 inod) 1)
    ∧ apply_fluid_boundary_conditions mesh value (mesh.boundary_node_pt 1 inod) 1 = 0 :=
  boundaries_read mesh _ _ _ value _ ⟨inod, hin, rfl⟩ mesh.nboundary hnb hlater

/-- The profile in the form `6 (y - y_min)(y_max - y)/(y_max - y_min)^3`. -/
theorem veloc_closed (y_min y_max y : α) (h : y_min < y_max) :
    veloc y_min y_max (y_mid ⟨y_min, y_max⟩) y
      = 6 * (y - y_min) * (y_max - y) / (y_max - y_min) ^ 3 := by
  unfold UnstructuredFluidProblem.veloc UnstructuredFluidProblem.y_mid
  have hh : y_max - y_min ≠ 0 := sub_ne_zero.mpr (ne_of_gt h)
  have e1 : (0.5 * (y_min + y_max) - y_min) = (y_max - y_min) / 2 := by norm_num; ring
  have e2 : (y_max - 0.5 * (y_min + y_max)) = (y_max - y_min) / 2 := by norm_num; ring
  rw [e1, e2]
  norm_num
  field_simp
  ring

/-- The profile is bounded by `1.5/(y_max - y_min)`. -/
theorem veloc_le_max (y_min y_max y : α) (h : y_min < y_max) :
    veloc y_min y_max (y_mid ⟨y_min, y_max⟩) y ≤ 1.5 / (y_max - y_min) := by
  rw [veloc_closed y_min y_max y h]
  have hh : 0 < y_max - y_min := sub_pos.mpr h
  rw [div_le_div_iff₀ (pow_pos hh 3) hh]
  norm_num
  nlinarith [sq_nonneg ((y - y_min) - (y_max - y)), sq_nonneg (y_max - y_min), hh,
    mul_pos hh hh]

end Inflow

/-! ### The inflow profile over the reals -/

section InflowReal

open UnstructuredFluidProblem

open intervalIntegral

/-- The flux of the profile through the inflow boundary. -/
theorem veloc_integral (y_min y_max : ℝ) (h : y_min < y_max) :
    (∫ y in y_min..y_max, veloc y_min y_max (y_mid ⟨y_min, y_max⟩) y) = 1 := by
  have hh : y_max - y_min ≠ 0 := sub_ne_zero.mpr (ne_of_gt h)
  have hfun : (fun y => veloc y_min y_max (y_mid ⟨y_min, y_max⟩) y)
      = fun y => 6 / (y_max - y_min) ^ 3
          * ((-1) * y ^ 2 + ((y_min + y_max) * y + (-(y_min * y_max)))) := by
    funext y
    rw [veloc_closed y_min y_max y h]
    field_simp
    ring
  rw [hfun, intervalIntegral.integral_const_mul,
    intervalIntegral.integral_add
      (Continuous.intervalIntegrable (by continuity) _ _)
      (Continuous.intervalIntegrable (by continuity) _ _),
    intervalIntegral.integral_add
      (Continuous.intervalIntegrable (by continuity) _ _)
      (Continuous.intervalIntegrable (by continuity) _ _),
    intervalIntegral.integral_const_mul, intervalIntegral.integral_const_mul,
    integral_pow, integral_id, intervalIntegral.integral_const]
  simp only [smul_eq_mul]
  field_simp
  ring

/-- C24: the inflow velocity set by the demo driver is a unit-flux Poiseuille
profile.  For every `y_min < y_max`, with `y_mid = 0.5*(y_min + y_max)`: the
value `veloc` computed for a node of height `y` is
`6 (y - y_min)(y_max - y)/(y_max - y_min)^3`; it is `0` at `y_min` and at
`y_max`; `y_mid` is `(y_min + y_max)/2`, the profile takes the value
`1.5/(y_max - y_min)` there and no larger value anywhere; its integral over
`[y_min, y_max]` is `1`; and on every mesh whose boundary `1` has these bounds,
a node of boundary `1` that lies on no later boundary ends with that value as
its first velocity component and `0` as its second. -/
theorem inflow_is_unit_flux_poiseuille (y_min y_max : ℝ) (h : y_min < y_max) :
    (∀ y, veloc y_min y_max (y_mid ⟨y_min, y_max⟩) y
        = 6 * (y - y_min) * (y_max - y) / (y_max - y_min) ^ 3)
    ∧ veloc y_min y_max (y_mid ⟨y_min, y_max⟩) y_min = 0
    ∧ veloc y_min y_max (y_mid ⟨y_min, y_max⟩) y_max = 0
    ∧ y_mid ⟨y_min, y_max⟩ = (y_min + y_max) / 2
    ∧ veloc y_min y_max (y_mid ⟨y_min, y_max⟩) (y_mid ⟨y_min, y_max⟩)
        = 1.5 / (y_max - y_min)
    ∧ (∀ y, veloc y_min y_max (y_mid ⟨y_min, y_max⟩) y ≤ 1.5 / (y_max - y_min))
    ∧ (∫ y in y_min..y_max, veloc y_min y_max (y_mid ⟨y_min, y_max⟩) y) = 1
    ∧ (∀ (mesh : FluidMesh ℝ) (value : Nat → Nat → ℝ) (inod : Nat),
        (inflow_bounds mesh).y_min = y_min → (inflow_bounds mesh).y_max = y_max →
        inod < mesh.nboundary_node 1 → 1 < mesh.nboundary →
        (∀ ibound, 1 < ibound → ibound < mesh.nboundary →
          ∀ j, j < mesh.nboundary_node ibound →
            mesh.boundary_node_pt ibound j ≠ mesh.boundary_node_pt 1 inod) →
        apply_fluid_boundary_conditions mesh value (mesh.boundary_node_pt 1 inod) 0
            = 6 * (mesh.x (mesh.boundary_node_pt 1 inod) 1 - y_min)
                * (y_max - mesh.x (mesh.boundary_node_pt 1 inod) 1) / (y_max - y_min) ^ 3
        ∧ apply_fluid_boundary_conditions mesh value (mesh.boundary_node_pt 1 inod) 1 = 0) := by
  have hh : y_max - y_min ≠ 0 := sub_ne_zero.mpr (ne_of_gt h)
  have hmid : y_mid (⟨y_min, y_max⟩ : InflowBounds ℝ) = (y_min + y_max) / 2 := by
    unfold UnstructuredFluidProblem.y_mid
    norm_num
    ring
  refine ⟨fun y => veloc_closed y_min y_max y h, ?_, ?_, hmid, ?_,
    fun y => veloc_le_max y_min y_max y h, veloc_integral y_min y_max h, ?_⟩
  · rw [veloc_closed y_min y_max y_min h]
    simp
  · rw [veloc_closed y_min y_max y_max h]
    simp
  · rw [veloc_closed y_min y_max _ h, hmid]
    norm_num
    field_simp
    ring
  · intro mesh value inod hmin hmax hin hnb hlater
    have hv := inflow_node_value mesh value inod hin hnb hlater
    refine ⟨?_, hv.2⟩
    rw [hv.1]
    have hb : inflow_bounds mesh = ⟨y_min, y_max⟩ := by
      rw [← hmin, ← hmax]
    rw [hb]
    exact veloc_closed y_min y_max _ h

/-- Instance of C24: on the sample mesh the bounds of boundary `1` are `0` and
`1`, and its middle node, at height `1/2`, ends with the first velocity
component `3/2`. -/
theorem inflow_is_unit_flux_poiseuille_witness :
    (0 : ℝ) < 1
    ∧ apply_fluid_boundary_conditions (sampleMesh ℝ) (fun _ _ => 7) 1 0 = 3 / 2 :=
  ⟨by norm_num,
   (((inflow_is_unit_flux_poiseuille 0 1 (by norm_num)).2.2.2.2.2.2.2
      (sampleMesh ℝ) (fun _ _ => 7) 1
      (by norm_num [UnstructuredFluidProblem.inflow_bounds, sampleMesh, forLoop])
      (by norm_num [UnstructuredFluidProblem.inflow_bounds, sampleMesh, forLoop])
      (by decide) (by decide)
      (by
        intro ibound h1 h2 j _
        have h3 : (sampleMesh ℝ).nboundary = 3 := rfl
        rw [h3] at h2
        have h4 : ibound = 2 := by omega
        subst h4
        simp [sampleMesh])).1).trans
    (by norm_num [sampleMesh])⟩

end InflowReal

section GaussRescaled

variable {α : Type} [LinearOrderedField α]

/-- C9: every knot of `Gauss_Rescaled(lower, upper)` is the affine image
`lower + (upper - lower)*(t + 1)/2` of the base knot `t`; a base knot `-1` is
sent to `lower`, a base knot `+1` to `upper`, and a base knot in `[-1,1]` lands
in `[lower, upper]` when `lower ≤ upper`. -/
theorem gauss_rescaled_knot_affine (DIM : Nat) (base : Integral α) (lower upper : α) :
    (∀ i j, (Gauss_Rescaled.create DIM base lower upper).knot i j
        = lower + (upper - lower) * (base.knot i j + 1) / 2)
    ∧ (∀ i j, base.knot i j = -1 →
        (Gauss_Rescaled.create DIM base lower upper).knot i j = lower)
    ∧ (∀ i j, base.knot i j = 1 →
        (Gauss_Rescaled.create DIM base lower upper).knot i j = upper)
    ∧ (∀ i j, -1 ≤ base.knot i j → base.knot i j ≤ 1 → lower ≤ upper →
        lower ≤ (Gauss_Rescaled.create DIM base lower upper).knot i j
          ∧ (Gauss_Rescaled.create DIM base lower upper).knot i j ≤ upper) := by
  have key : ∀ i j, (Gauss_Rescaled.create DIM base lower upper).knot i j
      = lower + (upper - lower) * (base.knot i j + 1) / 2 := by
    intro i j
    simp only [Gauss_Rescaled.knot, Gauss_Rescaled.create]
    ring
  refine ⟨key, ?_, ?_, ?_⟩
  · intro i j h
    rw [key, h]
    ring
  · intro i j h
    rw [key, h]
    ring
  · intro i j h1 h2 h3
    rw [key]
    have hr : 0 ≤ upper - lower := sub_nonneg.mpr h3
    have ht0 : 0 ≤ base.knot i j + 1 := by linarith
    have ht2 : base.knot i j + 1 ≤ 2 := by linarith
    have hp : 0 ≤ (upper - lower) * (base.knot i j + 1) := mul_nonneg hr ht0
    have hq : (upper - lower) * (base.knot i j + 1) ≤ (upper - lower) * 2 :=
      mul_le_mul_of_nonneg_left ht2 hr
    constructor
    · linarith
    · linarith

/-- Instance of C9 on the three-point rule rescaled to `[2,5]`: the knots
`-1`, `0`, `1` go to `2`, a point of `[2,5]`, and `5`. -/
theorem gauss_rescaled_knot_affine_witness :
    threePointRule.knot 0 0 = -1
    ∧ threePointRule.knot 2 0 = 1
    ∧ -1 ≤ threePointRule.knot 1 0
    ∧ threePointRule.knot 1 0 ≤ 1
    ∧ (2 : ℚ) ≤ 5
    ∧ (Gauss_Rescaled.create 1 threePointRule 2 5).knot 0 0 = 2
    ∧ (Gauss_Rescaled.create 1 threePointRule 2 5).knot 2 0 = 5
    ∧ 2 ≤ (Gauss_Rescaled.create 1 threePointRule 2 5).knot 1 0
    ∧ (Gauss_Rescaled.create 1 threePointRule 2 5).knot 1 0 ≤ 5 :=
  ⟨rfl, rfl, by norm_num [threePointRule], by norm_num [threePointRule], by norm_num,
   (gauss_rescaled_knot_affine 1 threePointRule 2 5).2.1 0 0 rfl,
   (gauss_rescaled_knot_affine 1 threePointRule 2 5).2.2.1 2 0 rfl,
   ((gauss_rescaled_knot_affine 1 threePointRule 2 5).2.2.2 1 0
      (by norm_num [threePointRule]) (by norm_num [threePointRule]) (by norm_num)).1,
   ((gauss_rescaled_knot_affine 1 threePointRule 2 5).2.2.2 1 0
      (by norm_num [threePointRule]) (by norm_num [threePointRule]) (by norm_num)).2⟩

/-- C10: the weights of `Gauss_Rescaled(lower, upper)` are the base weights
times `((upper - lower)/2)^DIM`; hence for every integrand `f` the rescaled
quadrature sum is `((upper - lower)/2)^DIM` times the base-rule sum of `f`
composed with the affine map, and the rescaled weights sum to
`(upper - lower)^DIM` whenever the base weights sum to `2^DIM`. -/
theorem gauss_rescaled_weight_scaled (DIM : Nat) (base : Integral α) (lower upper : α) :
    (∀ i, (Gauss_Rescaled.create DIM base lower upper).weight i
        = base.weight i * ((upper - lower) / 2) ^ DIM)
    ∧ (∀ f : (Nat → α) → α,
        (Gauss_Rescaled.create DIM base lower upper).toIntegral.quadrature f
          = ((upper - lower) / 2) ^ DIM
            * base.quadrature (fun t => f (fun j => affineMap lower upper (t j))))
    ∧ ((∑ i in Finset.range base.nweight, base.weight i) = 2 ^ DIM →
        (∑ i in Finset.range (Gauss_Rescaled.create DIM base lower upper).nweight,
          (Gauss_Rescaled.create DIM base lower upper).weight i) = (upper - lower) ^ DIM) := by
  have hw : ∀ i, (Gauss_Rescaled.create DIM base lower upper).weight i
      = base.weight i * ((upper - lower) / 2) ^ DIM := by
    intro i
    simp only [Gauss_Rescaled.weight, Gauss_Rescaled.create]
    congr 2
    ring
  have hk : ∀ i, (Gauss_Rescaled.create DIM base lower upper).knot i
      = fun j => affineMap lower upper (base.knot i j) := by
    intro i
    funext j
    simp only [Gauss_Rescaled.knot, Gauss_Rescaled.create, affineMap]
    ring
  refine ⟨hw, ?_, ?_⟩
  · intro f
    simp only [Integral.quadrature, Gauss_Rescaled.toIntegral, Finset.mul_sum]
    apply Finset.sum_congr rfl
    intro i _
    rw [hw, hk]
    ring
  · intro hsum
    have hn : (Gauss_Rescaled.create DIM base lower upper).nweight = base.nweight := rfl
    rw [hn]
    simp only [hw]
    rw [← Finset.sum_mul, hsum, ← mul_pow]
    congr 1
    ring

/-- Instance of C10 on the three-point rule, whose weights sum to `2 = 2^1`,
rescaled to `[2,5]`: the rescaled weights sum to `3`. -/
theorem gauss_rescaled_weight_scaled_witness :
    (∑ i in Finset.range threePointRule.nweight, threePointRule.weight i) = 2 ^ 1
    ∧ (∑ i in Finset.range (Gauss_Rescaled.create 1 threePointRule 2 5).nweight,
          (Gauss_Rescaled.create 1 threePointRule 2 5).weight i) = (5 - 2) ^ 1 :=
  ⟨by norm_num [threePointRule, Finset.sum_range_succ],
   (gauss_rescaled_weight_scaled 1 threePointRule 2 5).2.2
     (by norm_num [threePointRule, Finset.sum_range_succ])⟩

end GaussRescaled

end oomph
